import Mathlib

/-!
# Mutation-testing scripts: a shallow embedding

The development embeds the Go sources under
`skills/mutation-testing/scripts/` and proves properties of them.

Conventions of the embedding:

* A Go `string` is a finite sequence of bytes.  It is embedded as `Str`, a
  list whose elements stand for the bytes.  The source only ever compares
  bytes for equality, so the carrier of a single byte is immaterial.
* A Go `int` is embedded as `Int`; no computation of the sources comes near
  the 64-bit range (all integers are line numbers or element counts).
* A Go `float64` is embedded as the rational number it holds, and every
  `float64` operation rounds its exact result to the nearest `float64`
  (53 bits, ties to even).  The bounds on the exponent of a `float64` are
  not modelled: the numbers computed here from 64-bit counts lie well
  inside them.
* A Go `(T, error)` result is embedded as `Except GoError T`.
* Functions of the Go standard library (`strings.Split`, `strings.Join`,
  `strings.Index`, `strings.Replace`, `strings.Contains`, `fmt.Sprintf`)
  are embedded by their documented behaviour on the arguments the sources
  pass to them.
-/

namespace MutationTesting

/-! ## Strings -/

/-- A Go string: a finite sequence of bytes. -/
abbrev Str := List Char

/-- The call `strings.Split(s, "\n")`: the pieces of `s` between the line
feeds.  The result is never empty (`Split("", "\n")` is `[""]`). -/
def stringsSplit : Str → List Str
  | [] => [[]]
  | c :: cs =>
    if c = '\n' then [] :: stringsSplit cs
    else
      match stringsSplit cs with
      | [] => [[c]]
      | l :: ls => (c :: l) :: ls

/-- The call `strings.Join(lines, "\n")`. -/
def stringsJoin : List Str → Str
  | [] => []
  | [l] => l
  | l :: l2 :: ls => l ++ '\n' :: stringsJoin (l2 :: ls)

/-- Offset of the first occurrence of `sub` in `s`, if there is one. -/
def firstIndex : Str → Str → Option Nat
  | [], sub => if sub = [] then some 0 else none
  | c :: cs, sub =>
    if sub.isPrefixOf (c :: cs) then some 0
    else (firstIndex cs sub).map (· + 1)

/-- The call `strings.Index(s, sub)`: the offset of the first occurrence of
`sub` in `s`, or `-1` when there is none. -/
def stringsIndex (s sub : Str) : Int :=
  match firstIndex s sub with
  | some i => (i : Int)
  | none => -1

/-- The call `strings.Contains(s, sub)`, which is `Index(s, sub) >= 0`. -/
def stringsContains (s sub : Str) : Bool :=
  decide (stringsIndex s sub ≥ 0)

/-- The call `strings.Replace(s, old, new, 1)`: the first occurrence of
`old` replaced by `new`; `s` itself when `old` does not occur. -/
def stringsReplace1 (s old new : Str) : Str :=
  let j := stringsIndex s old
  if j = -1 then s
  else s.take j.toNat ++ new ++ s.drop (j.toNat + old.length)

/-- Decimal digits of `n`, most significant first, computed with a bound on
the number of digits. -/
def decimalFuel : Nat → Nat → Str
  | 0, _ => []
  | fuel + 1, n =>
    if n < 10 then [Nat.digitChar n]
    else decimalFuel fuel (n / 10) ++ [Nat.digitChar (n % 10)]

/-- Decimal representation of a natural number. -/
def decimal (n : Nat) : Str :=
  decimalFuel (n + 1) n

/-- The number that a string of decimal digits denotes. -/
def decimalValue (s : Str) : Nat :=
  s.foldl (fun acc c => 10 * acc + (c.toNat - 48)) 0

/-- The rendering of an `int` by the verb `%d`. -/
def fmtInt (i : Int) : Str :=
  if i < 0 then '-' :: decimal (-i).toNat else decimal i.toNat

/-- The rendering of a string by the verb `%q`: the text in double quotes
(the escaping of special bytes is left out). -/
def fmtQuoted (s : Str) : Str :=
  Char.ofNat 34 :: s ++ [Char.ofNat 34]

/-! ## Shared records -/

/-- The record `Mutation`, declared identically in every script.  The field
`Type` of the source is spelled `Typ`. -/
structure Mutation where
  ID : Str
  File : Str
  Line : Int
  Column : Int
  Typ : Str
  Original : Str
  Mutated : Str
  Description : Str
  Priority : Str
  deriving DecidableEq, Repr

/-- The record `MutationResult` of `run_mutation.go` and
`parse_results.go`.  The field `Duration` (a wall-clock measurement in
`float64`) is left out. -/
structure MutationResult where
  MutationID : Str
  Status : Str
  TestOutput : Str
  Description : Str
  File : Str
  Line : Int
  deriving DecidableEq, Repr

/-- The errors built by the scripts, and those of the operating system. -/
inductive GoError where
  /-- `fmt.Errorf("line %d out of range", line)` -/
  | lineOutOfRange (line : Int)
  /-- `fmt.Errorf("line %d out of range (file has %d lines)", line, n)` -/
  | lineOutOfRangeOf (line : Int) (n : Nat)
  /-- `fmt.Errorf("original text %q not found in line %d", original, line)` -/
  | originalNotFound (original : Str) (line : Int)
  /-- `fmt.Errorf("unknown mutation type: %s", t)` -/
  | unknownType (t : Str)
  /-- `fmt.Errorf("timeout after %v", timeout)`, with the rendered duration -/
  | timeoutAfter (duration : Str)
  /-- An error reported by the operating system or by a library. -/
  | os (msg : Str)
  deriving DecidableEq, Repr

instance instDecidableEqExcept {ε α : Type} [DecidableEq ε] [DecidableEq α] :
    DecidableEq (Except ε α)
  | .ok a, .ok b => if h : a = b then isTrue (by rw [h]) else isFalse (by intro e; cases e; exact h rfl)
  | .error a, .error b =>
    if h : a = b then isTrue (by rw [h]) else isFalse (by intro e; cases e; exact h rfl)
  | .ok _, .error _ => isFalse (by intro e; cases e)
  | .error _, .ok _ => isFalse (by intro e; cases e)

/-- The method `Error()`: the message of an error. -/
def GoError.Error : GoError → Str
  | .lineOutOfRange line => "line ".toList ++ fmtInt line ++ " out of range".toList
  | .lineOutOfRangeOf line n =>
    "line ".toList ++ fmtInt line ++ " out of range (file has ".toList
      ++ decimal n ++ " lines)".toList
  | .originalNotFound original line =>
    "original text ".toList ++ fmtQuoted original ++ " not found in line ".toList
      ++ fmtInt line
  | .unknownType t => "unknown mutation type: ".toList ++ t
  | .timeoutAfter d => "timeout after ".toList ++ d
  | .os msg => msg

/-- Whether a result carries an error. -/
def isError {α : Type} : Except GoError α → Bool
  | .error _ => true
  | .ok _ => false

/-! ## `apply_mutation.go` -/

/-- The function `replaceAtPosition` of `apply_mutation.go`.  The argument
`col` is received and never read, as in the source. -/
def replaceAtPosition (content : Str) (line _col : Int) (original replacement : Str) :
    Except GoError Str :=
  let lines := stringsSplit content
  if line < 1 ∨ line > (lines.length : Int) then
    .error (.lineOutOfRange line)
  else
    let targetLine := (line - 1).toNat
    let lineContent := lines.getD targetLine []
    let index := stringsIndex lineContent original
    -- the fallback of the source repeats the same search
    let index := if index = -1 then stringsIndex lineContent original else index
    if index = -1 then
      .error (.originalNotFound original line)
    else
      .ok (stringsJoin (lines.set targetLine
        (lineContent.take index.toNat ++ replacement
          ++ lineContent.drop (index.toNat + original.length))))

/-- The function `removeAtPosition` of `apply_mutation.go`. -/
def removeAtPosition (content : Str) (line col : Int) (text : Str) : Except GoError Str :=
  replaceAtPosition content line col text []

/-- The function `applyStatementRemoval` of `apply_mutation.go`. -/
def applyStatementRemoval (m : Mutation) (content : Str) : Except GoError Str :=
  -- Comment out the entire line.
  let lines := stringsSplit content
  if m.Line < 1 ∨ m.Line > (lines.length : Int) then
    .error (.lineOutOfRange m.Line)
  else
    let targetLine := (m.Line - 1).toNat
    .ok (stringsJoin (lines.set targetLine ("// MUTANT: ".toList ++ lines.getD targetLine [])))

/-! ## `run_mutation.go` -/

/-- White space removed by `strings.TrimSpace` (the ASCII white space; the
white space outside ASCII is left out). -/
def isSpace (c : Char) : Bool :=
  c = ' ' || c = '\t' || c = '\n' || c = '\x0b' || c = '\x0c' || c = '\r'

/-- The call `strings.TrimSpace(s)`. -/
def stringsTrimSpace (s : Str) : Str :=
  ((s.dropWhile isSpace).reverse.dropWhile isSpace).reverse

/-- The function `applyMutationToCode` of `run_mutation.go`. -/
def applyMutationToCode (mutation : Mutation) (content : Str) : Except GoError Str :=
  let lines := stringsSplit content
  if mutation.Line < 1 ∨ mutation.Line > (lines.length : Int) then
    .error (.lineOutOfRangeOf mutation.Line lines.length)
  else
    let targetLine := (mutation.Line - 1).toNat
    let cur := lines.getD targetLine []
    if mutation.Typ = "arithmetic_operator".toList ∨ mutation.Typ = "relational_operator".toList
        ∨ mutation.Typ = "logical_operator".toList
        ∨ mutation.Typ = "assignment_operator".toList ∨ mutation.Typ = "inc_dec".toList then
      .ok (stringsJoin (lines.set targetLine
        (stringsReplace1 cur mutation.Original mutation.Mutated)))
    else if mutation.Typ = "unary_operator".toList then
      if mutation.Mutated = "(removed)".toList then
        .ok (stringsJoin (lines.set targetLine (stringsReplace1 cur mutation.Original [])))
      else
        .ok (stringsJoin (lines.set targetLine
          (stringsReplace1 cur mutation.Original mutation.Mutated)))
    else if mutation.Typ = "constant".toList then
      .ok (stringsJoin (lines.set targetLine
        (stringsReplace1 cur mutation.Original mutation.Mutated)))
    else if mutation.Typ = "return_value".toList then
      .ok (stringsJoin (lines.set targetLine
        (stringsReplace1 cur mutation.Original mutation.Mutated)))
    else if mutation.Typ = "statement_removal".toList then
      .ok (stringsJoin (lines.set targetLine ("// MUTANT_REMOVED: ".toList ++ cur)))
    else if mutation.Typ = "condition_negation".toList then
      let ifIndex := stringsIndex cur "if ".toList
      if ifIndex ≠ -1 then
        let condStart := ifIndex.toNat + 3
        let braceIndex := stringsIndex (cur.drop condStart) "\x7b".toList
        if braceIndex ≠ -1 then
          let condition := stringsTrimSpace ((cur.take (condStart + braceIndex.toNat)).drop condStart)
          .ok (stringsJoin (lines.set targetLine
            (cur.take condStart ++ "!(".toList ++ condition ++ ") ".toList
              ++ cur.drop (condStart + braceIndex.toNat))))
        else .ok (stringsJoin lines)
      else .ok (stringsJoin lines)
    else if mutation.Typ = "else_removal".toList then
      if stringsContains cur "else".toList then
        .ok (stringsJoin (lines.set targetLine ("// MUTANT_REMOVED_ELSE: ".toList ++ cur)))
      else .ok (stringsJoin lines)
    else
      .error (.unknownType mutation.Typ)

/-- The files of the machine: the content of every readable path. -/
abbrev FileSystem := Str → Option Str

/-- The file system with the entry of one path replaced. -/
def FileSystem.put (fs : FileSystem) (path : Str) (entry : Option Str) : FileSystem :=
  fun p => if p = path then entry else fs p

/-- How one call of `os.WriteFile` ends: it completes, or it fails with an
error and leaves the path in some state (absent, empty, partly written). -/
inductive WriteOutcome where
  | done
  | failed (err : GoError) (left : Option Str)

/-- What `cmd.Run()` and `ctx.Err()` report for one run of the test
command. -/
structure CmdRun where
  /-- `cmd.Run()` returned an error -/
  runFailed : Bool
  /-- `ctx.Err() != nil`: the deadline of the context expired -/
  deadlineExpired : Bool
  stdout : Str
  stderr : Str

/-- The surroundings of one run of `runMutationTest`: the way each call of
the operating system ends, the flags, and the test command. -/
structure Env where
  /-- the error of `os.ReadFile` on a path that cannot be read -/
  readError : GoError
  /-- the write of the backup file -/
  backupWrite : WriteOutcome
  /-- the write of the mutated code -/
  mutatedWrite : WriteOutcome
  /-- the deferred write of the original content -/
  restoreWrite : WriteOutcome
  /-- the deferred `os.Remove` of the backup file fails -/
  removeFails : Bool
  /-- the flag `--package` -/
  packagePath : Str
  /-- the flag `--timeout`, as rendered by `%v` -/
  testTimeout : Str
  /-- the command `go test -v <package>` run on the current files: what it
  reports and the files it leaves -/
  goTest : Str → FileSystem → CmdRun × FileSystem

/-- The call `os.ReadFile(path)`. -/
def osReadFile (env : Env) (fs : FileSystem) (path : Str) : Except GoError Str :=
  match fs path with
  | some data => .ok data
  | none => .error env.readError

/-- The call `os.WriteFile(path, data, 0644)` ending as `outcome` says. -/
def osWriteFile (outcome : WriteOutcome) (fs : FileSystem) (path data : Str) :
    Option GoError × FileSystem :=
  match outcome with
  | .done => (none, fs.put path (some data))
  | .failed err left => (some err, fs.put path left)

/-- The call `os.Remove(path)`. -/
def osRemove (fails : Bool) (fs : FileSystem) (path : Str) : FileSystem :=
  if fails then fs else fs.put path none

/-- The function `runTests` of `run_mutation.go`: whether the tests passed,
the combined output, and the error. -/
def runTests (env : Env) (fs : FileSystem) : (Bool × Str × Option GoError) × FileSystem :=
  let (run, fs1) := env.goTest env.packagePath fs
  let output := run.stdout ++ run.stderr
  if run.runFailed then
    if run.deadlineExpired then
      ((false, output, some (.timeoutAfter env.testTimeout)), fs1)
    else
      ((false, output, none), fs1)
  else
    ((true, output, none), fs1)

/-- The deferred function of `runMutationTest`: write the original content
back and remove the backup, the result of neither call being looked at. -/
def restoreOriginal (env : Env) (mutation : Mutation) (originalContent backupFile : Str)
    (fs : FileSystem) : FileSystem :=
  osRemove env.removeFails
    (osWriteFile env.restoreWrite fs mutation.File originalContent).2 backupFile

/-- The function `runMutationTest` of `run_mutation.go`: the result it
returns and the files it leaves. -/
def runMutationTest (env : Env) (mutation : Mutation) (fs : FileSystem) :
    MutationResult × FileSystem :=
  let result : MutationResult :=
    { MutationID := mutation.ID, Status := [], TestOutput := [],
      Description := mutation.Description, File := mutation.File, Line := mutation.Line }
  -- Step 1: Backup original file.
  match osReadFile env fs mutation.File with
  | .error err =>
    ({ result with
        Status := "error".toList
        TestOutput := "Failed to read original file: ".toList ++ err.Error }, fs)
  | .ok originalContent =>
    let backupFile := mutation.File ++ ".mutation_backup".toList
    match osWriteFile env.backupWrite fs backupFile originalContent with
    | (some err, fs1) =>
      ({ result with
          Status := "error".toList
          TestOutput := "Failed to create backup: ".toList ++ err.Error }, fs1)
    | (none, fs1) =>
      -- from here on every return runs the deferred function
      -- Step 2: Apply mutation.
      match applyMutationToCode mutation originalContent with
      | .error err =>
        ({ result with
            Status := "error".toList
            TestOutput := "Failed to apply mutation: ".toList ++ err.Error },
          restoreOriginal env mutation originalContent backupFile fs1)
      | .ok mutatedCode =>
        match osWriteFile env.mutatedWrite fs1 mutation.File mutatedCode with
        | (some err, fs2) =>
          ({ result with
              Status := "error".toList
              TestOutput := "Failed to write mutated code: ".toList ++ err.Error },
            restoreOriginal env mutation originalContent backupFile fs2)
        | (none, fs2) =>
          -- Step 3: Run tests.
          let ((testPassed, testOutput, testErr), fs3) := runTests env fs2
          -- Step 4: Determine result.
          let status : Str :=
            match testErr with
            | some e =>
              if stringsContains e.Error "timeout".toList then "timeout".toList
              else "killed".toList
            | none => if testPassed then "survived".toList else "killed".toList
          ({ result with Status := status, TestOutput := testOutput },
            restoreOriginal env mutation originalContent backupFile fs3)

/-! ## `float64` -/

/-- The integer nearest to `m`, the even one of the two when `m` lies half
way between two integers. -/
def roundHalfEven (m : ℚ) : Int :=
  if m - (⌊m⌋ : ℚ) < 1 / 2 then ⌊m⌋
  else if 1 / 2 < m - (⌊m⌋ : ℚ) then ⌊m⌋ + 1
  else if ⌊m⌋ % 2 = 0 then ⌊m⌋ else ⌊m⌋ + 1

/-- The binary exponent of the last of the 53 bits of `x`: the `e` with
`2 ^ (e + 52) ≤ |x| < 2 ^ (e + 53)`. -/
def ulpExponent (x : ℚ) : Int :=
  Int.log 2 |x| - 52

/-- The `float64` nearest to the number `x`, as an exact rational. -/
def roundFloat64 (x : ℚ) : ℚ :=
  if x = 0 then 0
  else (roundHalfEven (x / (2 : ℚ) ^ ulpExponent x) : ℚ) * (2 : ℚ) ^ ulpExponent x

/-- The conversion `float64(i)` of an `int`. -/
def float64OfInt (i : Int) : ℚ :=
  roundFloat64 (i : ℚ)

/-- The quotient `a / b` of two `float64` (for `b` other than 0). -/
def float64Div (a b : ℚ) : ℚ :=
  roundFloat64 (a / b)

/-- The product `a * b` of two `float64`. -/
def float64Mul (a b : ℚ) : ℚ :=
  roundFloat64 (a * b)

/-! ## `parse_results.go` -/

/-- A Go `map[string]int`, as the list of its entries. -/
abbrev CountMap := List (Str × Int)

/-- The statement `m[key]++` on a map of counters. -/
def CountMap.incr : CountMap → Str → CountMap
  | [], key => [(key, 1)]
  | (k, v) :: rest, key =>
    if k = key then (k, v + 1) :: rest else (k, v) :: CountMap.incr rest key

/-- The record `AggregatedResults` of `parse_results.go`.  The score is the
rational number that the `float64` of the source holds; the field
`TotalDuration` (a sum of wall-clock measurements) is left out. -/
structure AggregatedResults where
  TotalMutations : Int
  Killed : Int
  Survived : Int
  Timeouts : Int
  Errors : Int
  MutationScore : ℚ
  Results : List MutationResult
  SurvivorsByFile : CountMap
  SurvivorsByType : CountMap
  Survivors : List MutationResult

/-- The call `strings.ToLower(s)` (on the ASCII letters). -/
def stringsToLower (s : Str) : Str :=
  s.map Char.toLower

/-- The function `extractMutationType` of `parse_results.go`. -/
def extractMutationType (result : MutationResult) : Str :=
  let desc := stringsToLower result.Description
  if stringsContains desc "boundary".toList || stringsContains desc ">=".toList
      || stringsContains desc "<=".toList then
    "boundary_condition".toList
  else if stringsContains desc "arithmetic".toList || stringsContains desc "+".toList
      || stringsContains desc "-".toList then
    "arithmetic_operator".toList
  else if stringsContains desc "logical".toList || stringsContains desc "&&".toList
      || stringsContains desc "||".toList then
    "logical_operator".toList
  else if stringsContains desc "negation".toList || stringsContains desc "!".toList then
    "negation".toList
  else if stringsContains desc "return".toList then
    "return_value".toList
  else if stringsContains desc "remove".toList then
    "statement_removal".toList
  else if stringsContains desc "constant".toList || stringsContains desc "0".toList
      || stringsContains desc "1".toList then
    "constant".toList
  else
    "other".toList

/-- The comparison `a < b` of two Go strings (bytewise lexicographic). -/
def stringsLess : Str → Str → Bool
  | [], [] => false
  | [], _ :: _ => true
  | _ :: _, [] => false
  | a :: as, b :: bs => a.toNat < b.toNat || (a = b && stringsLess as bs)

/-- The `less` function handed to `sort.Slice` by `aggregateResults`. -/
def survivorLess (a b : MutationResult) : Bool :=
  if a.File ≠ b.File then stringsLess a.File b.File else decide (a.Line < b.Line)

/-- The call `sort.Slice(l, less)`: `l` rearranged into an order in which no
element is `less` than one before it (here by insertion). -/
def sortSlice (less : MutationResult → MutationResult → Bool) (l : List MutationResult) :
    List MutationResult :=
  l.insertionSort (fun a b => less b a = false)

/-- The report before the first file is read. -/
def emptyReport : AggregatedResults :=
  { TotalMutations := 0, Killed := 0, Survived := 0, Timeouts := 0, Errors := 0,
    MutationScore := 0, Results := [], SurvivorsByFile := [], SurvivorsByType := [],
    Survivors := [] }

/-- One round of the loop of `aggregateResults`, on a loaded result. -/
def countResult (agg : AggregatedResults) (result : MutationResult) : AggregatedResults :=
  let agg := { agg with
    Results := agg.Results ++ [result]
    TotalMutations := agg.TotalMutations + 1 }
  -- Count by status.
  if result.Status = "killed".toList then
    { agg with Killed := agg.Killed + 1 }
  else if result.Status = "survived".toList then
    { agg with
      Survived := agg.Survived + 1
      Survivors := agg.Survivors ++ [result]
      SurvivorsByFile := agg.SurvivorsByFile.incr result.File
      SurvivorsByType := agg.SurvivorsByType.incr (extractMutationType result) }
  else if result.Status = "timeout".toList then
    { agg with Timeouts := agg.Timeouts + 1 }
  else if result.Status = "error".toList then
    { agg with Errors := agg.Errors + 1 }
  else
    agg

/-- The loop of `aggregateResults`: every file is loaded, and a file that
fails to load is skipped. -/
def aggregateLoop (loadResult : Str → Except GoError MutationResult) :
    AggregatedResults → List Str → AggregatedResults
  | agg, [] => agg
  | agg, file :: files =>
    match loadResult file with
    | .error _ => aggregateLoop loadResult agg files
    | .ok result => aggregateLoop loadResult (countResult agg result) files

/-- The function `aggregateResults` of `parse_results.go`; `loadResult`
stands for the function of that name, which reads and decodes one file. -/
def aggregateResults (loadResult : Str → Except GoError MutationResult) (files : List Str) :
    AggregatedResults :=
  let agg := aggregateLoop loadResult emptyReport files
  -- Calculate mutation score.
  let validMutations := agg.TotalMutations - agg.Timeouts - agg.Errors
  let agg :=
    if validMutations > 0 then
      { agg with MutationScore :=
          float64Mul (float64Div (float64OfInt agg.Killed) (float64OfInt validMutations)) 100 }
    else agg
  -- Sort survivors by file and line.
  { agg with Survivors := sortSlice survivorLess agg.Survivors }

/-- The results that `aggregateResults` loads from `files`, in order. -/
def loadedResults (loadResult : Str → Except GoError MutationResult) :
    List Str → List MutationResult
  | [] => []
  | file :: files =>
    match loadResult file with
    | .error _ => loadedResults loadResult files
    | .ok result => result :: loadedResults loadResult files

/-- Number of the results with a given status. -/
def countStatus (status : Str) (results : List MutationResult) : Int :=
  ((results.filter (fun r => r.Status = status)).length : Int)

/-! ## `generate_mutations.go` -/

/-- The operator tokens of `go/token`. -/
inductive Token where
  | ADD | SUB | MUL | QUO | REM
  | AND | OR | XOR | SHL | SHR | AND_NOT
  | ADD_ASSIGN | SUB_ASSIGN | MUL_ASSIGN | QUO_ASSIGN | REM_ASSIGN
  | AND_ASSIGN | OR_ASSIGN | XOR_ASSIGN | SHL_ASSIGN | SHR_ASSIGN | AND_NOT_ASSIGN
  | LAND | LOR | ARROW | INC | DEC
  | EQL | LSS | GTR | ASSIGN | NOT
  | NEQ | LEQ | GEQ | DEFINE
  deriving DecidableEq, Repr

/-- The method `Token.String()` of `go/token`, which `tokenToString`
returns. -/
def tokenToString : Token → Str
  | .ADD => "+".toList | .SUB => "-".toList | .MUL => "*".toList
  | .QUO => "/".toList | .REM => "%".toList
  | .AND => "&".toList | .OR => "|".toList | .XOR => "^".toList
  | .SHL => "<<".toList | .SHR => ">>".toList | .AND_NOT => "&^".toList
  | .ADD_ASSIGN => "+=".toList | .SUB_ASSIGN => "-=".toList | .MUL_ASSIGN => "*=".toList
  | .QUO_ASSIGN => "/=".toList | .REM_ASSIGN => "%=".toList
  | .AND_ASSIGN => "&=".toList | .OR_ASSIGN => "|=".toList | .XOR_ASSIGN => "^=".toList
  | .SHL_ASSIGN => "<<=".toList | .SHR_ASSIGN => ">>=".toList
  | .AND_NOT_ASSIGN => "&^=".toList
  | .LAND => "&&".toList | .LOR => "||".toList | .ARROW => "<-".toList
  | .INC => "++".toList | .DEC => "--".toList
  | .EQL => "==".toList | .LSS => "<".toList | .GTR => ">".toList
  | .ASSIGN => "=".toList | .NOT => "!".toList
  | .NEQ => "!=".toList | .LEQ => "<=".toList | .GEQ => ">=".toList
  | .DEFINE => ":=".toList

/-- The function `isArithmetic`. -/
def isArithmetic (op : Token) : Bool :=
  op = .ADD || op = .SUB || op = .MUL || op = .QUO || op = .REM

/-- The function `isRelational`. -/
def isRelational (op : Token) : Bool :=
  op = .LSS || op = .GTR || op = .LEQ || op = .GEQ || op = .EQL || op = .NEQ

/-- The function `isLogical`. -/
def isLogical (op : Token) : Bool :=
  op = .LAND || op = .LOR

/-- The function `arithmeticMutations`. -/
def arithmeticMutations : Token → List Token
  | .ADD => [.SUB, .MUL, .QUO]
  | .SUB => [.ADD, .MUL, .QUO]
  | .MUL => [.ADD, .SUB, .QUO]
  | .QUO => [.ADD, .SUB, .MUL]
  | .REM => [.QUO, .MUL]
  | _ => []

/-- The function `relationalMutations`. -/
def relationalMutations : Token → List Token
  | .LSS => [.LEQ, .GTR, .GEQ, .EQL, .NEQ]
  | .GTR => [.GEQ, .LSS, .LEQ, .EQL, .NEQ]
  | .LEQ => [.LSS, .GEQ, .GTR, .EQL, .NEQ]
  | .GEQ => [.GTR, .LEQ, .LSS, .EQL, .NEQ]
  | .EQL => [.NEQ, .LSS, .GTR]
  | .NEQ => [.EQL]
  | _ => []

/-- The function `logicalMutations`. -/
def logicalMutations : Token → List Token
  | .LAND => [.LOR]
  | .LOR => [.LAND]
  | _ => []

/-- A source position, as `fset.Position` returns it. -/
structure Position where
  Line : Int
  Column : Int
  deriving DecidableEq, Repr

/-- The record `MutationGenerator` (the file set apart: positions come with
the nodes). -/
structure MutationGenerator where
  file : Str
  mutations : List Mutation
  mutationID : Int
  targetFunc : Str
  targetLines : Int × Int
  currentFunc : Str

/-- The generator as `main` builds it. -/
def newGenerator (file targetFunc : Str) (targetLines : Int × Int) : MutationGenerator :=
  { file := file, mutations := [], mutationID := 0, targetFunc := targetFunc,
    targetLines := targetLines, currentFunc := [] }

/-- The method `addMutation`. -/
def MutationGenerator.addMutation (g : MutationGenerator) (m : Mutation) : MutationGenerator :=
  let m := { m with ID := 'M' :: fmtInt g.mutationID }
  { g with mutationID := g.mutationID + 1, mutations := g.mutations ++ [m] }

/-- The method `mutateBinaryExpr`, on the position and the operator of the
expression. -/
def MutationGenerator.mutateBinaryExpr (g : MutationGenerator) (pos : Position) (op : Token) :
    MutationGenerator :=
  let original := tokenToString op
  -- Arithmetic operator mutations.
  let g :=
    if isArithmetic op then
      (arithmeticMutations op).foldl (fun g mutOp =>
        g.addMutation
          { ID := [], File := g.file, Line := pos.Line, Column := pos.Column,
            Typ := "arithmetic_operator".toList, Original := original,
            Mutated := tokenToString mutOp,
            Description := "Change ".toList ++ original ++ " to ".toList ++ tokenToString mutOp,
            Priority := "high".toList }) g
    else g
  -- Relational operator mutations.
  let g :=
    if isRelational op then
      (relationalMutations op).foldl (fun g mutOp =>
        g.addMutation
          { ID := [], File := g.file, Line := pos.Line, Column := pos.Column,
            Typ := "relational_operator".toList, Original := original,
            Mutated := tokenToString mutOp,
            Description := "Change ".toList ++ original ++ " to ".toList ++ tokenToString mutOp
              ++ " (boundary)".toList,
            Priority := "high".toList }) g
    else g
  -- Logical operator mutations.
  if isLogical op then
    (logicalMutations op).foldl (fun g mutOp =>
      g.addMutation
        { ID := [], File := g.file, Line := pos.Line, Column := pos.Column,
          Typ := "logical_operator".toList, Original := original,
          Mutated := tokenToString mutOp,
          Description := "Change ".toList ++ original ++ " to ".toList ++ tokenToString mutOp,
          Priority := "high".toList }) g
  else g

/-- The literal kinds of `go/token` that a `BasicLit` carries. -/
inductive LitKind where
  | INT | FLOAT | IMAG | CHAR | STRING
  deriving DecidableEq, Repr

/-- What `visit` and the `mutate` methods read of a syntax node: its type
and, per type, the fields they look at.  `ifStmt hasElse` carries
`stmt.Else != nil`; every other node type is `other`. -/
inductive NodeKind where
  | funcDecl (name : Str)
  | binaryExpr (op : Token)
  | unaryExpr (op : Token)
  | basicLit (kind : LitKind) (value : Str)
  | returnStmt
  | ifStmt (hasElse : Bool)
  | assignStmt (tok : Token)
  | incDecStmt (tok : Token)
  | ident (name : Str)
  | other
  deriving DecidableEq, Repr

/-- A syntax node of `go/ast`: its kind, the position `fset.Position(node.Pos())`
and its children in the order in which `ast.Inspect` walks them.  The
children of a `returnStmt` are its `Results`. -/
inductive Node where
  | mk (kind : NodeKind) (pos : Position) (children : List Node)

/-- The method `mutateUnaryExpr`, on the position and the operator of the
expression. -/
def MutationGenerator.mutateUnaryExpr (g : MutationGenerator) (pos : Position) (op : Token) :
    MutationGenerator :=
  let original := tokenToString op
  -- Negation removal: !x → x
  let g :=
    if op = .NOT then
      g.addMutation
        { ID := [], File := g.file, Line := pos.Line, Column := pos.Column,
          Typ := "unary_operator".toList, Original := original,
          Mutated := "(removed)".toList,
          Description := "Remove negation operator".toList, Priority := "high".toList }
    else g
  -- Unary minus/plus mutations.
  if op = .SUB then
    g.addMutation
      { ID := [], File := g.file, Line := pos.Line, Column := pos.Column,
        Typ := "unary_operator".toList, Original := "-".toList, Mutated := "+".toList,
        Description := "Change unary minus to plus".toList, Priority := "medium".toList }
  else g

/-- The method `mutateBasicLit`, on the position, the kind and the value of
the literal. -/
def MutationGenerator.mutateBasicLit (g : MutationGenerator) (pos : Position)
    (kind : LitKind) (value : Str) : MutationGenerator :=
  match kind with
  | .INT =>
    -- Integer constant mutations.
    if value = "0".toList then
      g.addMutation
        { ID := [], File := g.file, Line := pos.Line, Column := pos.Column,
          Typ := "constant".toList, Original := "0".toList, Mutated := "1".toList,
          Description := "Change 0 to 1".toList, Priority := "high".toList }
    else if value = "1".toList then
      g.addMutation
        { ID := [], File := g.file, Line := pos.Line, Column := pos.Column,
          Typ := "constant".toList, Original := "1".toList, Mutated := "0".toList,
          Description := "Change 1 to 0".toList, Priority := "high".toList }
    else
      -- Generic numeric mutation (off-by-one).
      g.addMutation
        { ID := [], File := g.file, Line := pos.Line, Column := pos.Column,
          Typ := "constant".toList, Original := value,
          Mutated := "(".toList ++ value ++ " + 1)".toList,
          Description := "Off-by-one: ".toList ++ value ++ " \xe2\x86\x92 ".toList ++ value
            ++ " + 1".toList,
          Priority := "medium".toList }
  | .STRING =>
    -- String constant mutations.
    if value ≠ [Char.ofNat 34, Char.ofNat 34] then
      g.addMutation
        { ID := [], File := g.file, Line := pos.Line, Column := pos.Column,
          Typ := "constant".toList, Original := value,
          Mutated := [Char.ofNat 34, Char.ofNat 34],
          Description := "Change string to empty".toList, Priority := "medium".toList }
    else g
  | _ => g

/-- The loop of `mutateReturnStmt` over `stmt.Results`, from index `i` on. -/
def MutationGenerator.mutateResults (g : MutationGenerator) (pos : Position) :
    Nat → List Node → MutationGenerator
  | _, [] => g
  | i, .mk kind _ _ :: rest =>
    -- Boolean return mutations.
    let g :=
      match kind with
      | .ident name =>
        if name = "true".toList then
          g.addMutation
            { ID := [], File := g.file, Line := pos.Line, Column := pos.Column,
              Typ := "return_value".toList, Original := "true".toList,
              Mutated := "false".toList,
              Description := "Change return value ".toList ++ decimal i
                ++ ": true \xe2\x86\x92 false".toList,
              Priority := "high".toList }
        else if name = "false".toList then
          g.addMutation
            { ID := [], File := g.file, Line := pos.Line, Column := pos.Column,
              Typ := "return_value".toList, Original := "false".toList,
              Mutated := "true".toList,
              Description := "Change return value ".toList ++ decimal i
                ++ ": false \xe2\x86\x92 true".toList,
              Priority := "high".toList }
        else if name = "nil".toList then
          g.addMutation
            { ID := [], File := g.file, Line := pos.Line, Column := pos.Column,
              Typ := "return_value".toList, Original := "nil".toList,
              Mutated := "non-nil".toList,
              Description := "Change return value ".toList ++ decimal i
                ++ ": nil \xe2\x86\x92 non-nil".toList,
              Priority := "high".toList }
        else g
      | _ => g
    MutationGenerator.mutateResults g pos (i + 1) rest

/-- The method `mutateReturnStmt`, on the position and the results of the
statement. -/
def MutationGenerator.mutateReturnStmt (g : MutationGenerator) (pos : Position)
    (results : List Node) : MutationGenerator :=
  -- Return value mutations.
  let g := g.mutateResults pos 0 results
  -- Statement removal: remove entire return.
  g.addMutation
    { ID := [], File := g.file, Line := pos.Line, Column := pos.Column,
      Typ := "statement_removal".toList, Original := "return statement".toList,
      Mutated := "(removed)".toList,
      Description := "Remove return statement".toList, Priority := "medium".toList }

/-- The method `mutateIfStmt`, on the position of the statement and on
whether it has an else branch. -/
def MutationGenerator.mutateIfStmt (g : MutationGenerator) (pos : Position) (hasElse : Bool) :
    MutationGenerator :=
  -- Condition negation.
  let g := g.addMutation
    { ID := [], File := g.file, Line := pos.Line, Column := pos.Column,
      Typ := "condition_negation".toList, Original := "if condition".toList,
      Mutated := "if !condition".toList,
      Description := "Negate if condition".toList, Priority := "high".toList }
  -- Else branch removal (if exists).
  if hasElse then
    g.addMutation
      { ID := [], File := g.file, Line := pos.Line, Column := pos.Column,
        Typ := "else_removal".toList, Original := "else branch".toList,
        Mutated := "(removed)".toList,
        Description := "Remove else branch".toList, Priority := "medium".toList }
  else g

/-- The method `mutateAssignStmt`, on the position and the token of the
statement. -/
def MutationGenerator.mutateAssignStmt (g : MutationGenerator) (pos : Position) (tok : Token) :
    MutationGenerator :=
  -- Compound assignment mutations.
  if tok ≠ .ASSIGN ∧ tok ≠ .DEFINE then
    let original := tokenToString tok
    -- += to -=, etc.
    if tok = .ADD_ASSIGN then
      g.addMutation
        { ID := [], File := g.file, Line := pos.Line, Column := pos.Column,
          Typ := "assignment_operator".toList, Original := original, Mutated := "-=".toList,
          Description := "Change += to -=".toList, Priority := "high".toList }
    else if tok = .SUB_ASSIGN then
      g.addMutation
        { ID := [], File := g.file, Line := pos.Line, Column := pos.Column,
          Typ := "assignment_operator".toList, Original := original, Mutated := "+=".toList,
          Description := "Change -= to +=".toList, Priority := "high".toList }
    else g
  else g

/-- The method `mutateIncDecStmt`, on the position and the token of the
statement. -/
def MutationGenerator.mutateIncDecStmt (g : MutationGenerator) (pos : Position) (tok : Token) :
    MutationGenerator :=
  if tok = .INC then
    g.addMutation
      { ID := [], File := g.file, Line := pos.Line, Column := pos.Column,
        Typ := "inc_dec".toList, Original := "++".toList, Mutated := "--".toList,
        Description := "Change ++ to --".toList, Priority := "high".toList }
  else if tok = .DEC then
    g.addMutation
      { ID := [], File := g.file, Line := pos.Line, Column := pos.Column,
        Typ := "inc_dec".toList, Original := "--".toList, Mutated := "++".toList,
        Description := "Change -- to ++".toList, Priority := "high".toList }
  else g

/-- The generator after the first step of `visit` on a node: the name of a
function declaration is recorded in `currentFunc`. -/
def MutationGenerator.trackFunc (g : MutationGenerator) : NodeKind → MutationGenerator
  | .funcDecl name => { g with currentFunc := name }
  | _ => g

/-- The method `visit` on a node that is not nil: the generator it leaves
and the boolean it returns (whether the children are to be walked). -/
def MutationGenerator.visit (g : MutationGenerator) : Node → MutationGenerator × Bool
  | .mk kind pos children =>
    -- Track current function name.
    let g := g.trackFunc kind
    -- If targeting specific function, skip others.
    if (match kind with
        | .funcDecl _ => decide (g.targetFunc ≠ [] ∧ g.currentFunc ≠ g.targetFunc)
        | _ => false) then
      (g, false)
    -- If targeting specific line range, skip nodes outside range.
    else if g.targetLines.1 > 0 ∧ (pos.Line < g.targetLines.1 ∨ pos.Line > g.targetLines.2) then
      (g, true)
    else
      -- Generate mutations based on node type.
      let g :=
        match kind with
        | .binaryExpr op => g.mutateBinaryExpr pos op
        | .unaryExpr op => g.mutateUnaryExpr pos op
        | .basicLit k value => g.mutateBasicLit pos k value
        | .returnStmt => g.mutateReturnStmt pos children
        | .ifStmt hasElse => g.mutateIfStmt pos hasElse
        | .assignStmt tok => g.mutateAssignStmt pos tok
        | .incDecStmt tok => g.mutateIncDecStmt pos tok
        | _ => g
      (g, true)

mutual
/-- The call `ast.Inspect(node, g.visit)`: `visit` runs on the node and,
when it returns true, the children are walked in order.  (The closing call
of `visit` on nil returns at once and is left out.) -/
def inspect (g : MutationGenerator) : Node → MutationGenerator
  | .mk kind pos children =>
    if (g.visit (.mk kind pos children)).2 then
      inspectList (g.visit (.mk kind pos children)).1 children
    else
      (g.visit (.mk kind pos children)).1
/-- The walk of `ast.Inspect` over a list of children. -/
def inspectList (g : MutationGenerator) : List Node → MutationGenerator
  | [] => g
  | n :: ns => inspectList (inspect g n) ns
end

/-- The call `strings.Split(s, sep)` for a separator of one byte. -/
def stringsSplitOn (sep : Char) : Str → List Str
  | [] => [[]]
  | c :: cs =>
    if c = sep then [] :: stringsSplitOn sep cs
    else
      match stringsSplitOn sep cs with
      | [] => [[c]]
      | l :: ls => (c :: l) :: ls

/-- A decimal digit. -/
def isDigit (c : Char) : Bool :=
  decide ('0'.toNat ≤ c.toNat ∧ c.toNat ≤ '9'.toNat)

/-- The call `fmt.Sscanf(s, "%d", &v)` on a variable `v` that holds 0: the
value of `v` after the call.  Blanks are skipped, a sign is accepted and the
longest run of digits and underscores is read; when that run is empty, holds
an underscore or denotes a number outside 64 bits, the call fails and `v`
keeps 0. -/
def sscanfInt (s : Str) : Int :=
  let s := s.dropWhile (fun c => c = ' ' || c = '\t' || c = '\r')
  let (negative, s) :=
    match s with
    | '-' :: rest => (true, rest)
    | '+' :: rest => (false, rest)
    | _ => (false, s)
  let tok := s.takeWhile (fun c => isDigit c || c = '_')
  if tok = [] ∨ '_' ∈ tok then 0
  else
    let v : Int := if negative then -(decimalValue tok : Int) else (decimalValue tok : Int)
    if v < -(2 ^ 63) ∨ v > 2 ^ 63 - 1 then 0 else v

/-- The function `parseLineRange`; `none` stands for the exit of the process
on a string that does not split into two parts. -/
def parseLineRange (rangeStr : Str) : Option (Int × Int) :=
  if rangeStr = [] then some (0, 0)
  else
    let parts := stringsSplitOn '-' rangeStr
    if parts.length ≠ 2 then none
    else some (sscanfInt (parts.getD 0 []), sscanfInt (parts.getD 1 []))

/-- The mutations that `main` of `generate_mutations.go` writes out for a
parsed file: a fresh generator walks the tree. -/
def generateMutations (file targetFunc : Str) (targetLines : Int × Int) (root : Node) :
    List Mutation :=
  (inspect (newGenerator file targetFunc targetLines) root).mutations

/-! ## `run_all_mutations.go` -/

/-- The function `filterMutations`, on the values of the flags
`--skip-imports`, `--min-line` and `--max-line`. -/
def filterMutations (skipImports : Bool) (minLine maxLine : Int) :
    List Mutation → List Mutation
  | [] => []
  | m :: mutations =>
    -- Skip imports if requested.
    if skipImports = true ∧ m.Line < 20 then
      filterMutations skipImports minLine maxLine mutations
    -- Apply min/max line filters.
    else if minLine > 0 ∧ m.Line < minLine then
      filterMutations skipImports minLine maxLine mutations
    else if maxLine > 0 ∧ m.Line > maxLine then
      filterMutations skipImports minLine maxLine mutations
    else
      m :: filterMutations skipImports minLine maxLine mutations

/-- The block of `main` that forces sequential execution: the lines it
writes to the standard error and the value it leaves in the flag
`--parallel`. -/
def forceSequential (parallel : Int) : List Str × Int :=
  if parallel ≠ 1 then
    (["WARNING: --parallel must be 1 because mutations modify files in-place.".toList,
      "Parallel execution would cause race conditions and corrupted results.".toList,
      "Setting parallel=1 for safety.".toList], 1)
  else
    ([], parallel)

/-- The loop `for i := 0; i < *parallel; i++` of `runMutationsParallel`: the
values of `i` for which a worker is started, with at most `fuel` rounds. -/
def startWorkers (parallel : Int) : Nat → Int → List Int
  | 0, _ => []
  | fuel + 1, i => if i < parallel then i :: startWorkers parallel fuel (i + 1) else []

/-- The workers that `runMutationsParallel` starts when `main` has received
the value `requested` for the flag `--parallel`. -/
def workersStarted (requested : Int) : List Int :=
  startWorkers (forceSequential requested).2 (forceSequential requested).2.toNat 0

/-! ## `apply_mutation.go`: the dispatch -/

/-- The function `applyOperatorMutation`. -/
def applyOperatorMutation (m : Mutation) (content : Str) : Except GoError Str :=
  replaceAtPosition content m.Line m.Column m.Original m.Mutated

/-- The function `applyUnaryMutation`. -/
def applyUnaryMutation (m : Mutation) (content : Str) : Except GoError Str :=
  if m.Mutated = "(removed)".toList then
    -- Remove the unary operator (e.g., ! or -).
    removeAtPosition content m.Line m.Column m.Original
  else
    replaceAtPosition content m.Line m.Column m.Original m.Mutated

/-- The function `applyConstantMutation`. -/
def applyConstantMutation (m : Mutation) (content : Str) : Except GoError Str :=
  replaceAtPosition content m.Line m.Column m.Original m.Mutated

/-- The function `applyReturnValueMutation`. -/
def applyReturnValueMutation (m : Mutation) (content : Str) : Except GoError Str :=
  replaceAtPosition content m.Line m.Column m.Original m.Mutated

/-- The two functions of `apply_mutation.go` that go through `go/parser` and
`go/format`, which are not embedded: they are taken as given. -/
structure TreeRewrites where
  applyConditionNegation : Mutation → Str → Except GoError Str
  applyElseRemoval : Mutation → Str → Except GoError Str

/-- The function `applyMutation` of `apply_mutation.go`: the file of the
mutation is read (`readError` is the error of a failed read) and the
content goes to the function for the type of the mutation. -/
def applyMutation (tree : TreeRewrites) (readError : GoError) (fs : FileSystem) (m : Mutation) :
    Except GoError Str :=
  -- Read the original source file.
  match fs m.File with
  | none => .error readError
  | some content =>
    if m.Typ = "arithmetic_operator".toList ∨ m.Typ = "relational_operator".toList
        ∨ m.Typ = "logical_operator".toList ∨ m.Typ = "assignment_operator".toList
        ∨ m.Typ = "inc_dec".toList then
      applyOperatorMutation m content
    else if m.Typ = "unary_operator".toList then
      applyUnaryMutation m content
    else if m.Typ = "constant".toList then
      applyConstantMutation m content
    else if m.Typ = "return_value".toList then
      applyReturnValueMutation m content
    else if m.Typ = "statement_removal".toList then
      applyStatementRemoval m content
    else if m.Typ = "condition_negation".toList then
      tree.applyConditionNegation m content
    else if m.Typ = "else_removal".toList then
      tree.applyElseRemoval m content
    else
      .error (.unknownType m.Typ)

/-! ## Notions used to state the properties -/

/-- The offsets at which `sub` occurs in `s`. -/
def occurrences (s sub : Str) : List Nat :=
  (List.range (s.length + 1)).filter (fun i => sub.isPrefixOf (s.drop i))

/-- Applying a substitution with `replaceAtPosition` and then the inverse
substitution at the same line and column. -/
def applyThenInverse (content : Str) (line col : Int) (original replacement : Str) :
    Except GoError Str :=
  match replaceAtPosition content line col original replacement with
  | .error e => .error e
  | .ok mutated => replaceAtPosition mutated line col replacement original

/-- A source text of 42 lines whose last line is `if x < 10 { return true }`. -/
def exampleSource : Str :=
  List.replicate 41 '\n' ++ "if x < 10 \x7b return true \x7d".toList

/-- A file system holding the single file `a.go`, with text `x > 1`. -/
def exampleFiles : FileSystem :=
  fun p => if p = "a.go".toList then some "x > 1".toList else none

/-- Surroundings in which every call of the operating system succeeds, but
for the write of the mutated code when `mutatedWriteFails` is set (the file
is then left empty); the test command passes and prints the text of `a.go`
that it finds. -/
def exampleEnv (mutatedWriteFails : Bool) : Env :=
  { readError := .os "no such file".toList
    backupWrite := .done
    mutatedWrite :=
      if mutatedWriteFails then .failed (.os "no space left".toList) (some []) else .done
    restoreWrite := .done
    removeFails := false
    packagePath := ".".toList
    testTimeout := "1m0s".toList
    goTest := fun _ fs =>
      ({ runFailed := false, deadlineExpired := false,
         stdout := (fs "a.go".toList).getD [], stderr := [] }, fs) }

/-- A relational-operator mutation of `<` at line 1 of `a.go`, where the
text has no `<`. -/
def staleMutation : Mutation :=
  { ID := "M0".toList, File := "a.go".toList, Line := 1, Column := 3,
    Typ := "relational_operator".toList, Original := "<".toList, Mutated := "<=".toList,
    Description := "Change < to <= (boundary)".toList, Priority := "high".toList }

/-- A relational-operator mutation of `>` at line 1 of `a.go`. -/
def freshMutation : Mutation :=
  { ID := "M0".toList, File := "a.go".toList, Line := 1, Column := 3,
    Typ := "relational_operator".toList, Original := ">".toList, Mutated := ">=".toList,
    Description := "Change > to >= (boundary)".toList, Priority := "high".toList }

/-- A result record with a given status. -/
def exampleResult (status : Str) : MutationResult :=
  { MutationID := "M0".toList, Status := status, TestOutput := [],
    Description := "Change > to >= (boundary)".toList, File := "a.go".toList, Line := 1 }

/-- A loader for which every file decodes to a record whose status is the
name of the file. -/
def exampleLoad (file : Str) : Except GoError MutationResult :=
  .ok (exampleResult file)

/-- Ten result files: seven `killed`, two `survived`, one `timeout`. -/
def exampleBatch : List Str :=
  List.replicate 7 "killed".toList ++ List.replicate 2 "survived".toList ++ ["timeout".toList]

/-- The mutations that a step taking the generator from `g` to `g2` has
appended. -/
def emitted (g g2 : MutationGenerator) : List Mutation :=
  g2.mutations.drop g.mutations.length

/-- A generator that already holds two mutations. -/
def exampleGenerator : MutationGenerator :=
  [staleMutation, freshMutation].foldl MutationGenerator.addMutation
    (newGenerator "a.go".toList [] (0, 0))

/-- The categories of the generator's operator table. -/
def generatorCategories : List Str :=
  ["arithmetic_operator".toList, "relational_operator".toList, "logical_operator".toList,
   "unary_operator".toList, "constant".toList, "return_value".toList,
   "statement_removal".toList, "condition_negation".toList, "else_removal".toList,
   "assignment_operator".toList, "inc_dec".toList]

/-- The keywords that `extractMutationType` looks for. -/
def typeKeywords : List Str :=
  ["boundary".toList, ">=".toList, "<=".toList, "arithmetic".toList, "+".toList, "-".toList,
   "logical".toList, "&&".toList, "||".toList, "negation".toList, "!".toList,
   "return".toList, "remove".toList, "constant".toList, "0".toList, "1".toList]

/-- Surroundings like `exampleEnv false`, but for the deferred write of the
original content, which fails and leaves the mutated text in the file. -/
def restoreFailsEnv : Env :=
  { exampleEnv false with
    restoreWrite := .failed (.os "permission denied".toList) (some "x >= 1".toList) }

/-- Surroundings like `exampleEnv false`, but the test command ends without
error while the deadline of its context has expired: `cmd.Run()` returns
`nil` and `ctx.Err()` is not `nil`. -/
def lateSuccessEnv : Env :=
  { exampleEnv false with
    goTest := fun _ fs =>
      ({ runFailed := false, deadlineExpired := true,
         stdout := (fs "a.go".toList).getD [], stderr := [] }, fs) }

/-- The priorities by category: `high` for relational, logical,
return-value and constant 0/1 mutations and for assignment-operator
mutations, `medium` for the off-by-one mutation of a numeric constant. -/
def priorityRule (m : Mutation) : Prop :=
  (m.Typ = "relational_operator".toList → m.Priority = "high".toList) ∧
  (m.Typ = "logical_operator".toList → m.Priority = "high".toList) ∧
  (m.Typ = "return_value".toList → m.Priority = "high".toList) ∧
  (m.Typ = "constant".toList →
    (m.Original = "0".toList ∧ m.Mutated = "1".toList)
      ∨ (m.Original = "1".toList ∧ m.Mutated = "0".toList) →
    m.Priority = "high".toList) ∧
  (m.Typ = "constant".toList → m.Mutated = "(".toList ++ m.Original ++ " + 1)".toList →
    m.Priority = "medium".toList) ∧
  (m.Typ = "assignment_operator".toList → m.Priority = "high".toList)

/-- What holds of a mutation emitted at position `pos`, whatever its
identifier: it carries the line of `pos` and follows `priorityRule`. -/
def emittedAt (pos : Position) (m : Mutation) : Prop :=
  m.Line = pos.Line ∧ priorityRule m

/-- What holds of a mutation emitted under the line filter `targetLines`:
its line is within the filter when the filter is on, and it follows
`priorityRule`. -/
def emittedWithin (targetLines : Int × Int) (m : Mutation) : Prop :=
  (targetLines.1 > 0 → targetLines.1 ≤ m.Line ∧ m.Line ≤ targetLines.2) ∧ priorityRule m

/-- The generator `g2` comes from `g` by steps that keep the file and the
filters and append only mutations for which `Q` holds. -/
def Extends (Q : Mutation → Prop) (g g2 : MutationGenerator) : Prop :=
  g2.file = g.file ∧ g2.targetFunc = g.targetFunc ∧ g2.targetLines = g.targetLines ∧
  ∀ m ∈ g2.mutations, m ∈ g.mutations ∨ Q m

/-- The syntax tree of the file

    package p

    var limit = 1 + 2

    func target() int { return limit }

    func other() int { return 7 - 1 }
-/
def exampleTree : Node :=
  .mk .other ⟨1, 1⟩
    [ .mk (.ident "p".toList) ⟨1, 9⟩ [],
      .mk .other ⟨3, 1⟩
        [ .mk .other ⟨3, 5⟩
            [ .mk (.ident "limit".toList) ⟨3, 5⟩ [],
              .mk (.binaryExpr .ADD) ⟨3, 13⟩
                [ .mk (.basicLit .INT "1".toList) ⟨3, 13⟩ [],
                  .mk (.basicLit .INT "2".toList) ⟨3, 17⟩ [] ] ] ],
      .mk (.funcDecl "target".toList) ⟨5, 1⟩
        [ .mk (.ident "target".toList) ⟨5, 6⟩ [],
          .mk .other ⟨5, 1⟩
            [ .mk .other ⟨5, 12⟩ [],
              .mk .other ⟨5, 15⟩ [ .mk .other ⟨5, 15⟩ [ .mk (.ident "int".toList) ⟨5, 15⟩ [] ] ] ],
          .mk .other ⟨5, 19⟩
            [ .mk .returnStmt ⟨5, 21⟩ [ .mk (.ident "limit".toList) ⟨5, 28⟩ [] ] ] ],
      .mk (.funcDecl "other".toList) ⟨7, 1⟩
        [ .mk (.ident "other".toList) ⟨7, 6⟩ [],
          .mk .other ⟨7, 1⟩
            [ .mk .other ⟨7, 11⟩ [],
              .mk .other ⟨7, 14⟩ [ .mk .other ⟨7, 14⟩ [ .mk (.ident "int".toList) ⟨7, 14⟩ [] ] ] ],
          .mk .other ⟨7, 18⟩
            [ .mk .returnStmt ⟨7, 20⟩
                [ .mk (.binaryExpr .SUB) ⟨7, 27⟩
                    [ .mk (.basicLit .INT "7".toList) ⟨7, 27⟩ [],
                      .mk (.basicLit .INT "1".toList) ⟨7, 31⟩ [] ] ] ] ] ]

/-- A tree with a sum `a + 7` that starts at line 5 and whose right operand
`7` is at line 12, followed by a statement `n += 7` at line 60. -/
def exampleSpread : Node :=
  .mk .other ⟨1, 1⟩
    [ .mk (.binaryExpr .ADD) ⟨5, 3⟩
        [ .mk (.ident "a".toList) ⟨5, 3⟩ [],
          .mk (.basicLit .INT "7".toList) ⟨12, 5⟩ [] ],
      .mk (.assignStmt .ADD_ASSIGN) ⟨60, 2⟩
        [ .mk (.ident "n".toList) ⟨60, 2⟩ [],
          .mk (.basicLit .INT "7".toList) ⟨60, 7⟩ [] ] ]

/-- The sum of the values of a map of counters. -/
def sumValues : CountMap → Int
  | [] => 0
  | (_, v) :: rest => v + sumValues rest

/-- The mutation types that both the applicator and the runner apply by
substituting text on the target line. -/
def substitutionTypes : List Str :=
  ["arithmetic_operator".toList, "relational_operator".toList, "logical_operator".toList,
   "assignment_operator".toList, "inc_dec".toList, "unary_operator".toList,
   "constant".toList, "return_value".toList]

/-- Tree rewrites that always fail; the properties below do not reach
them. -/
def noTreeRewrites : TreeRewrites :=
  { applyConditionNegation := fun _ _ => .error (.os "no parser".toList)
    applyElseRemoval := fun _ _ => .error (.os "no parser".toList) }

/-- The removal of the negation `!` at line 1 of `a.go`. -/
def negationRemoval : Mutation :=
  { ID := "M0".toList, File := "a.go".toList, Line := 1, Column := 4,
    Typ := "unary_operator".toList, Original := "!".toList, Mutated := "(removed)".toList,
    Description := "Remove negation operator".toList, Priority := "high".toList }

/-- Three loaded records with status `survived`, from the files `b.go`
(line 7), `a.go` (line 9) and `a.go` (line 2), around a `killed` one. -/
def exampleSurvivors : List MutationResult :=
  [ { exampleResult "survived".toList with File := "b.go".toList, Line := 7 },
    { exampleResult "killed".toList with File := "a.go".toList, Line := 1 },
    { exampleResult "survived".toList with File := "a.go".toList, Line := 9 },
    { exampleResult "survived".toList with File := "a.go".toList, Line := 2 } ]

/-- A loader for the result files `0`, `1`, `2`, `3`, which decode to the
records of `exampleSurvivors`; any other file fails to load. -/
def exampleRecordLoad (file : Str) : Except GoError MutationResult :=
  match exampleSurvivors[decimalValue file]? with
  | some r => .ok r
  | none => .error (.os "no such file".toList)

/-- The numbers that a `float64` can hold, the bounds on its exponent
apart: an integer of at most 53 bits times a power of two. -/
def IsFloat64 (y : ℚ) : Prop :=
  ∃ k j : Int, |k| < 2 ^ 53 ∧ y = (k : ℚ) * (2 : ℚ) ^ j


/-! ## Lemmas on strings -/

theorem stringsSplit_ne_nil (s : Str) : stringsSplit s ≠ [] := by
  induction s with
  | nil => simp [stringsSplit]
  | cons c cs ih =>
    unfold stringsSplit
    split
    · simp
    · split <;> simp

theorem stringsSplit_no_newline (s : Str) : ∀ l ∈ stringsSplit s, '\n' ∉ l := by
  induction s with
  | nil => simp [stringsSplit]
  | cons c cs ih =>
    unfold stringsSplit
    split
    · intro l hl
      rcases List.mem_cons.mp hl with h | h
      · subst h; simp
      · exact ih l h
    · rename_i hc
      split
      · intro l hl
        simp only [List.mem_singleton] at hl
        subst hl
        simpa using fun h => hc h.symm
      · rename_i l0 ls heq
        intro l hl
        rcases List.mem_cons.mp hl with h | h
        · subst h
          have h0 := ih l0 (by rw [heq]; exact List.mem_cons_self _ _)
          simp only [List.mem_cons, not_or]
          exact ⟨fun h => hc h.symm, h0⟩
        · exact ih l (by rw [heq]; exact List.mem_cons_of_mem _ h)

theorem stringsJoin_cons (l : Str) (ls : List Str) (h : ls ≠ []) :
    stringsJoin (l :: ls) = l ++ '\n' :: stringsJoin ls := by
  cases ls with
  | nil => exact absurd rfl h
  | cons l2 rest => rfl

theorem stringsJoin_stringsSplit (s : Str) : stringsJoin (stringsSplit s) = s := by
  induction s with
  | nil => rfl
  | cons c cs ih =>
    unfold stringsSplit
    split
    · rename_i hc
      rw [stringsJoin_cons _ _ (stringsSplit_ne_nil cs), ih, hc]
      rfl
    · split
      · rename_i heq
        exact absurd heq (stringsSplit_ne_nil cs)
      · rename_i l0 ls heq
        rw [heq] at ih
        cases ls with
        | nil =>
          simp only [stringsJoin] at ih ⊢
          rw [ih]
        | cons l2 rest =>
          simp only [stringsJoin] at ih ⊢
          rw [← ih]
          rfl

theorem stringsSplit_append_newline (l rest : Str) (hl : '\n' ∉ l) :
    stringsSplit (l ++ '\n' :: rest) = l :: stringsSplit rest := by
  induction l with
  | nil => simp [stringsSplit]
  | cons c cs ih =>
    have hc : c ≠ '\n' := fun h => hl (by simp [h])
    have hcs : '\n' ∉ cs := fun h => hl (List.mem_cons_of_mem _ h)
    show stringsSplit (c :: (cs ++ '\n' :: rest)) = _
    rw [stringsSplit, if_neg hc, ih hcs]

theorem stringsSplit_of_no_newline (l : Str) (hl : '\n' ∉ l) : stringsSplit l = [l] := by
  induction l with
  | nil => rfl
  | cons c cs ih =>
    have hc : c ≠ '\n' := fun h => hl (by simp [h])
    have hcs : '\n' ∉ cs := fun h => hl (List.mem_cons_of_mem _ h)
    rw [stringsSplit, if_neg hc, ih hcs]

theorem stringsSplit_stringsJoin (ls : List Str) (hne : ls ≠ [])
    (h : ∀ l ∈ ls, '\n' ∉ l) : stringsSplit (stringsJoin ls) = ls := by
  induction ls with
  | nil => exact absurd rfl hne
  | cons l rest ih =>
    cases rest with
    | nil => exact stringsSplit_of_no_newline l (h l (List.mem_cons_self _ _))
    | cons l2 rest2 =>
      rw [stringsJoin_cons _ _ (by simp),
        stringsSplit_append_newline _ _ (h l (List.mem_cons_self _ _)),
        ih (by simp) (fun x hx => h x (List.mem_cons_of_mem _ hx))]

theorem firstIndex_eq_none_iff (sub : Str) (s : Str) :
    firstIndex s sub = none ↔ ¬ sub <:+: s := by
  induction s with
  | nil =>
    unfold firstIndex
    by_cases h : sub = [] <;> simp [h]
  | cons c cs ih =>
    unfold firstIndex
    by_cases hp : sub.isPrefixOf (c :: cs) = true
    · rw [if_pos hp]
      have := (List.isPrefixOf_iff_prefix.mp hp).isInfix
      simp [this]
    · rw [if_neg hp]
      have hp2 : ¬ sub <+: c :: cs := fun h => hp (List.isPrefixOf_iff_prefix.mpr h)
      rw [Option.map_eq_none', ih, List.infix_cons_iff]
      simp [hp2]

theorem firstIndex_some_split (sub : Str) (s : Str) (i : Nat) (h : firstIndex s sub = some i) :
    s = s.take i ++ sub ++ s.drop (i + sub.length) := by
  induction s generalizing i with
  | nil =>
    unfold firstIndex at h
    by_cases hs : sub = []
    · simp [hs]
    · simp [hs] at h
  | cons c cs ih =>
    unfold firstIndex at h
    by_cases hp : sub.isPrefixOf (c :: cs) = true
    · rw [if_pos hp] at h
      have hi : i = 0 := by simpa using h.symm
      subst hi
      obtain ⟨t, ht⟩ := List.isPrefixOf_iff_prefix.mp hp
      rw [← ht]
      simp
    · rw [if_neg hp] at h
      obtain ⟨j, hj, hij⟩ := Option.map_eq_some'.mp h
      subst hij
      have := ih j hj
      simp only [List.take_succ_cons, List.cons_append, List.cons.injEq, true_and]
      rw [show j + 1 + sub.length = (j + sub.length) + 1 by omega, List.drop_succ_cons]
      exact this

theorem firstIndex_some_first (sub : Str) (s : Str) (i : Nat) (h : firstIndex s sub = some i)
    (q r : Str) (hq : s = q ++ sub ++ r) : i ≤ q.length := by
  induction s generalizing i q with
  | nil =>
    have : q = [] := by
      cases q with
      | nil => rfl
      | cons a b => simp at hq
    subst this
    unfold firstIndex at h
    by_cases hs : sub = []
    · simp [hs] at h; omega
    · simp [hs] at h
  | cons c cs ih =>
    unfold firstIndex at h
    by_cases hp : sub.isPrefixOf (c :: cs) = true
    · rw [if_pos hp] at h
      have hi : i = 0 := by simpa using h.symm
      omega
    · rw [if_neg hp] at h
      obtain ⟨j, hj, hij⟩ := Option.map_eq_some'.mp h
      subst hij
      cases q with
      | nil =>
        exfalso
        apply hp
        apply List.isPrefixOf_iff_prefix.mpr
        exact ⟨r, by simpa using hq.symm⟩
      | cons a q2 =>
        simp only [List.cons_append, List.cons.injEq] at hq
        have := ih j hj q2 hq.2
        simp only [List.length_cons]
        omega

theorem firstIndex_some_le (sub : Str) (s : Str) (i : Nat) (h : firstIndex s sub = some i) :
    i + sub.length ≤ s.length := by
  induction s generalizing i with
  | nil =>
    unfold firstIndex at h
    by_cases hs : sub = []
    · simp [hs] at h; simp [hs, ← h]
    · simp [hs] at h
  | cons c cs ih =>
    unfold firstIndex at h
    by_cases hp : sub.isPrefixOf (c :: cs) = true
    · rw [if_pos hp] at h
      have hi : i = 0 := by simpa using h.symm
      subst hi
      have := (List.isPrefixOf_iff_prefix.mp hp).length_le
      omega
    · rw [if_neg hp] at h
      obtain ⟨j, hj, hij⟩ := Option.map_eq_some'.mp h
      subst hij
      have := ih j hj
      simp only [List.length_cons]
      omega

theorem firstIndex_of_first (sub s p t : Str) (hs : s = p ++ sub ++ t)
    (hfirst : ∀ q r, s = q ++ sub ++ r → p.length ≤ q.length) :
    firstIndex s sub = some p.length := by
  cases hfi : firstIndex s sub with
  | none =>
    exfalso
    exact (firstIndex_eq_none_iff sub s).mp hfi ⟨p, t, hs.symm⟩
  | some i =>
    have h1 := firstIndex_some_first sub s i hfi p t hs
    have h2 := hfirst _ _ (firstIndex_some_split sub s i hfi)
    have h3 := firstIndex_some_le sub s i hfi
    rw [List.length_take] at h2
    congr 1
    omega

theorem stringsIndex_eq_neg_one_iff (s sub : Str) :
    stringsIndex s sub = -1 ↔ firstIndex s sub = none := by
  unfold stringsIndex
  cases firstIndex s sub with
  | none => simp
  | some i => simp

theorem stringsIndex_of_some (s sub : Str) (i : Nat) (h : firstIndex s sub = some i) :
    stringsIndex s sub = (i : Int) := by
  unfold stringsIndex
  rw [h]

/-! ## `replaceAtPosition` -/

theorem replaceAtPosition_of_range (content : Str) (line col : Int)
    (original replacement : Str)
    (h : line < 1 ∨ line > ((stringsSplit content).length : Int)) :
    replaceAtPosition content line col original replacement = .error (.lineOutOfRange line) := by
  unfold replaceAtPosition
  simp only [if_pos h]

theorem replaceAtPosition_of_none (content : Str) (line col : Int)
    (original replacement : Str)
    (h : ¬ (line < 1 ∨ line > ((stringsSplit content).length : Int)))
    (hfi : firstIndex ((stringsSplit content).getD (line - 1).toNat []) original = none) :
    replaceAtPosition content line col original replacement
      = .error (.originalNotFound original line) := by
  have hidx := (stringsIndex_eq_neg_one_iff _ _).mpr hfi
  unfold replaceAtPosition
  simp only [if_neg h, hidx, if_true]

theorem replaceAtPosition_of_some (content : Str) (line col : Int)
    (original replacement : Str) (i : Nat)
    (h : ¬ (line < 1 ∨ line > ((stringsSplit content).length : Int)))
    (hfi : firstIndex ((stringsSplit content).getD (line - 1).toNat []) original = some i) :
    replaceAtPosition content line col original replacement
      = .ok (stringsJoin ((stringsSplit content).set (line - 1).toNat
          (((stringsSplit content).getD (line - 1).toNat []).take i ++ replacement
            ++ ((stringsSplit content).getD (line - 1).toNat []).drop (i + original.length)))) := by
  have hidx := stringsIndex_of_some _ _ i hfi
  have hne : ¬ ((i : Int) = -1) := by omega
  unfold replaceAtPosition
  simp only [if_neg h, hidx, if_neg hne, Int.toNat_ofNat]

/-- C2: `replaceAtPosition` returns an error if and only if the line number
is outside `1..len(lines)` or `original` is not a substring of the target
line; what the other lines hold plays no part. -/
theorem replaceAtPosition_error_iff (content : Str) (line col : Int)
    (original replacement : Str) :
    isError (replaceAtPosition content line col original replacement) = true ↔
      ((line < 1 ∨ line > ((stringsSplit content).length : Int)) ∨
        ¬ original <:+: (stringsSplit content).getD (line - 1).toNat []) := by
  by_cases h : line < 1 ∨ line > ((stringsSplit content).length : Int)
  · rw [replaceAtPosition_of_range _ _ _ _ _ h]
    simp [isError, h]
  · cases hfi : firstIndex ((stringsSplit content).getD (line - 1).toNat []) original with
    | none =>
      rw [replaceAtPosition_of_none _ _ _ _ _ h hfi]
      have := (firstIndex_eq_none_iff _ _).mp hfi
      simp only [isError, true_iff]
      exact Or.inr this
    | some i =>
      rw [replaceAtPosition_of_some _ _ _ _ _ i h hfi]
      have hin : original <:+: (stringsSplit content).getD (line - 1).toNat [] := by
        by_contra hc
        rw [(firstIndex_eq_none_iff _ _).mpr hc] at hfi
        exact Option.noConfusion hfi
      constructor
      · intro hf
        exact absurd hf (by simp [isError])
      · intro hor
        rcases hor with h1 | h1
        · exact absurd h1 h
        · exact absurd hin h1

theorem getD_mem_of_lt {α : Type} (l : List α) (i : Nat) (d : α) (h : i < l.length) :
    l.getD i d ∈ l := by
  rw [List.getD_eq_getElem _ _ h]
  exact List.getElem_mem h

theorem no_newline_of_set (ls : List Str) (t : Nat) (x : Str)
    (h : ∀ l ∈ ls, '\n' ∉ l) (hx : '\n' ∉ x) : ∀ l ∈ ls.set t x, '\n' ∉ l := by
  intro l hl
  rcases List.mem_or_eq_of_mem_set hl with h1 | h1
  · exact h l h1
  · rw [h1]; exact hx

/-- C3: when `replaceAtPosition` succeeds, the line number is in range, the
target line is `p ++ original ++ s` with the occurrence after `p` the first
one (`p ++ original` holds `original` only as its suffix), and the returned
text is the input with the target line replaced by `p ++ replacement ++ s`;
when `replacement` holds no line feed the lines of the returned text are
those of the input, all unchanged but the target line. -/
theorem replaceAtPosition_first_occurrence (content : Str) (line col : Int)
    (original replacement out : Str)
    (hok : replaceAtPosition content line col original replacement = .ok out) :
    1 ≤ line ∧ line ≤ ((stringsSplit content).length : Int) ∧
    ∃ p s : Str,
      (stringsSplit content).getD (line - 1).toNat [] = p ++ original ++ s ∧
      (∀ q r : Str, p ++ original = q ++ original ++ r → r = []) ∧
      out = stringsJoin ((stringsSplit content).set (line - 1).toNat (p ++ replacement ++ s)) ∧
      ('\n' ∉ replacement →
        stringsSplit out = (stringsSplit content).set (line - 1).toNat (p ++ replacement ++ s)) := by
  by_cases h : line < 1 ∨ line > ((stringsSplit content).length : Int)
  · rw [replaceAtPosition_of_range _ _ _ _ _ h] at hok
    exact Except.noConfusion hok
  · cases hfi : firstIndex ((stringsSplit content).getD (line - 1).toNat []) original with
    | none =>
      rw [replaceAtPosition_of_none _ _ _ _ _ h hfi] at hok
      exact Except.noConfusion hok
    | some i =>
      rw [replaceAtPosition_of_some _ _ _ _ _ i h hfi] at hok
      have hout := (Except.ok.inj hok).symm
      have hsplit := firstIndex_some_split _ _ i hfi
      have hle := firstIndex_some_le _ _ i hfi
      have hlt : (line - 1).toNat < (stringsSplit content).length := by omega
      have hmem := getD_mem_of_lt (stringsSplit content) (line - 1).toNat [] hlt
      have hnl := stringsSplit_no_newline content _ hmem
      refine ⟨by omega, by omega, _, _, hsplit, ?_, hout, ?_⟩
      · intro q r hqr
        have hocc : (stringsSplit content).getD (line - 1).toNat []
            = q ++ original ++ (r ++ List.drop (i + original.length)
                ((stringsSplit content).getD (line - 1).toNat [])) := by
          conv_lhs => rw [hsplit]
          rw [hqr]
          simp
        have h1 := firstIndex_some_first _ _ i hfi q _ hocc
        have h2 := congrArg List.length hqr
        simp only [List.length_append, List.length_take] at h2
        have : r.length = 0 := by omega
        exact List.length_eq_zero.mp this
      · intro hrep
        rw [hout]
        apply stringsSplit_stringsJoin
        · intro hnil
          rw [List.set_eq_nil_iff] at hnil
          exact stringsSplit_ne_nil content hnil
        · apply no_newline_of_set _ _ _ (stringsSplit_no_newline content)
          intro hx
          simp only [List.mem_append] at hx
          rcases hx with (hx | hx) | hx
          · exact hnl (List.mem_of_mem_take hx)
          · exact hrep hx
          · exact hnl (List.mem_of_mem_drop hx)

/-- C3, at line 42 of a text: `<` replaced by `<=` in
`if x < 10 { return true }` gives `if x <= 10 { return true }`. -/
theorem replaceAtPosition_first_occurrence_witness :
    replaceAtPosition exampleSource 42 6 "<".toList "<=".toList
        = .ok (List.replicate 41 '\n' ++ "if x <= 10 \x7b return true \x7d".toList) ∧
    ((1 : Int) ≤ 42 ∧ (42 : Int) ≤ ((stringsSplit exampleSource).length : Int) ∧
    ∃ p s : Str,
      (stringsSplit exampleSource).getD ((42 : Int) - 1).toNat [] = p ++ "<".toList ++ s ∧
      (∀ q r : Str, p ++ "<".toList = q ++ "<".toList ++ r → r = []) ∧
      List.replicate 41 '\n' ++ "if x <= 10 \x7b return true \x7d".toList
        = stringsJoin ((stringsSplit exampleSource).set ((42 : Int) - 1).toNat
            (p ++ "<=".toList ++ s)) ∧
      ('\n' ∉ "<=".toList →
        stringsSplit (List.replicate 41 '\n' ++ "if x <= 10 \x7b return true \x7d".toList)
          = (stringsSplit exampleSource).set ((42 : Int) - 1).toNat (p ++ "<=".toList ++ s))) :=
  ⟨by decide,
    replaceAtPosition_first_occurrence exampleSource 42 6 "<".toList "<=".toList
      (List.replicate 41 '\n' ++ "if x <= 10 \x7b return true \x7d".toList) (by decide)⟩

theorem set_getD_self {α : Type} (l : List α) (t : Nat) (d : α) (h : t < l.length) :
    l.set t (l.getD t d) = l := by
  induction l generalizing t with
  | nil => simp at h
  | cons a as ih =>
    cases t with
    | zero => simp
    | succ n =>
      simp only [List.length_cons, Nat.add_lt_add_iff_right] at h
      have := ih n h
      simp only [List.getD_cons_succ, List.set_cons_succ, this]

theorem getD_set_self {α : Type} (l : List α) (t : Nat) (d x : α) (h : t < l.length) :
    (l.set t x).getD t d = x := by
  induction l generalizing t with
  | nil => simp at h
  | cons a as ih =>
    cases t with
    | zero => simp
    | succ n =>
      simp only [List.length_cons, Nat.add_lt_add_iff_right] at h
      have := ih n h
      simpa using this

theorem infix_of_occurrences (s sub : Str) (h : (occurrences s sub).length = 1) :
    sub <:+: s := by
  unfold occurrences at h
  have hne : (List.filter (fun i => sub.isPrefixOf (s.drop i)) (List.range (s.length + 1))) ≠ [] := by
    intro hnil
    rw [hnil] at h
    simp at h
  obtain ⟨i, hi⟩ := List.exists_mem_of_ne_nil _ hne
  have hp := (List.mem_filter.mp hi).2
  have hpre : sub <+: s.drop i := List.isPrefixOf_iff_prefix.mp hp
  exact hpre.isInfix.trans (List.drop_suffix i s).isInfix

theorem stringsReplace1_of_some (s old new : Str) (i : Nat) (h : firstIndex s old = some i) :
    stringsReplace1 s old new = s.take i ++ new ++ s.drop (i + old.length) := by
  have hidx := stringsIndex_of_some _ _ i h
  have hne : ¬ ((i : Int) = -1) := by omega
  unfold stringsReplace1
  simp only [hidx, if_neg hne, Int.toNat_ofNat]

theorem stringsReplace1_of_none (s old new : Str) (h : firstIndex s old = none) :
    stringsReplace1 s old new = s := by
  have hidx := (stringsIndex_eq_neg_one_iff _ _).mpr h
  unfold stringsReplace1
  simp only [hidx, if_true]

/-- C4, as amended: when `original` occurs exactly once on the target line,
`replacement` holds no line feed and the first occurrence of `replacement`
on the mutated line is at the offset where `original` was found, the
substitution followed by the inverse substitution on the same line returns
the content unchanged. -/
theorem applyThenInverse_restores (content : Str) (line col : Int) (original replacement : Str)
    (hline : 1 ≤ line ∧ line ≤ ((stringsSplit content).length : Int))
    (honce : (occurrences ((stringsSplit content).getD (line - 1).toNat []) original).length = 1)
    (hnl : '\n' ∉ replacement)
    (hfirst : firstIndex
        (stringsReplace1 ((stringsSplit content).getD (line - 1).toNat []) original replacement)
        replacement
      = firstIndex ((stringsSplit content).getD (line - 1).toNat []) original) :
    applyThenInverse content line col original replacement = .ok content := by
  have hr : ¬ (line < 1 ∨ line > ((stringsSplit content).length : Int)) := by omega
  have hlt : (line - 1).toNat < (stringsSplit content).length := by omega
  have hin := infix_of_occurrences _ _ honce
  cases hfi : firstIndex ((stringsSplit content).getD (line - 1).toNat []) original with
  | none => exact absurd hin ((firstIndex_eq_none_iff _ _).mp hfi)
  | some i =>
    have hsplit := firstIndex_some_split _ _ i hfi
    have hle := firstIndex_some_le _ _ i hfi
    have hmem := getD_mem_of_lt (stringsSplit content) (line - 1).toNat [] hlt
    have hnl0 := stringsSplit_no_newline content _ hmem
    rw [stringsReplace1_of_some _ _ _ i hfi, hfi] at hfirst
    generalize hlc : (stringsSplit content).getD (line - 1).toNat [] = lc at *
    have hml : ∀ l ∈ (stringsSplit content).set (line - 1).toNat
        (lc.take i ++ replacement ++ lc.drop (i + original.length)), '\n' ∉ l := by
      apply no_newline_of_set _ _ _ (stringsSplit_no_newline content)
      intro hx
      simp only [List.mem_append] at hx
      rcases hx with (hx | hx) | hx
      · exact hnl0 (List.mem_of_mem_take hx)
      · exact hnl hx
      · exact hnl0 (List.mem_of_mem_drop hx)
    have hsp : stringsSplit (stringsJoin ((stringsSplit content).set (line - 1).toNat
        (lc.take i ++ replacement ++ lc.drop (i + original.length))))
        = (stringsSplit content).set (line - 1).toNat
            (lc.take i ++ replacement ++ lc.drop (i + original.length)) := by
      apply stringsSplit_stringsJoin _ _ hml
      intro hnil
      rw [List.set_eq_nil_iff] at hnil
      exact stringsSplit_ne_nil content hnil
    have hr2 : ¬ (line < 1 ∨ line > ((stringsSplit (stringsJoin ((stringsSplit content).set
        (line - 1).toNat (lc.take i ++ replacement ++ lc.drop (i + original.length))))).length
          : Int)) := by
      rw [hsp, List.length_set]
      exact hr
    have hline2 : (stringsSplit (stringsJoin ((stringsSplit content).set
        (line - 1).toNat (lc.take i ++ replacement ++ lc.drop (i + original.length))))).getD
          (line - 1).toNat [] = lc.take i ++ replacement ++ lc.drop (i + original.length) := by
      rw [hsp]
      exact getD_set_self _ _ _ _ hlt
    have hfi2 : firstIndex ((stringsSplit (stringsJoin ((stringsSplit content).set
        (line - 1).toNat (lc.take i ++ replacement ++ lc.drop (i + original.length))))).getD
          (line - 1).toNat []) replacement = some i := by
      rw [hline2]
      exact hfirst
    have hlen : (lc.take i).length = i := by
      rw [List.length_take]
      omega
    unfold applyThenInverse
    rw [replaceAtPosition_of_some _ _ _ _ _ i hr (by rw [hlc]; exact hfi)]
    simp only [hlc]
    rw [replaceAtPosition_of_some _ _ _ _ _ i hr2 hfi2, hline2, hsp, List.set_set]
    have hback : (lc.take i ++ replacement ++ lc.drop (i + original.length)).take i ++ original
        ++ (lc.take i ++ replacement ++ lc.drop (i + original.length)).drop (i + replacement.length)
        = lc := by
      rw [List.append_assoc (lc.take i), List.take_left' hlen]
      have hd : (lc.take i ++ (replacement ++ lc.drop (i + original.length))).drop
          (i + replacement.length) = lc.drop (i + original.length) := by
        rw [← List.append_assoc]
        apply List.drop_left'
        rw [List.length_append, hlen]
      rw [hd]
      exact hsplit.symm
    rw [hback, ← hlc, set_getD_self _ _ _ hlt, stringsJoin_stringsSplit]

/-- C4, as amended, on the line `if x < 10 { return true }`. -/
theorem applyThenInverse_restores_witness :
    applyThenInverse "a := 1\nif x < 10 \x7b return true \x7d".toList 2 6 "<".toList "<=".toList
      = .ok "a := 1\nif x < 10 \x7b return true \x7d".toList :=
  applyThenInverse_restores "a := 1\nif x < 10 \x7b return true \x7d".toList 2 6 "<".toList
    "<=".toList (by decide) (by decide) (by decide) (by decide)

/-- C4, as stated, fails: on the line `x - y + z` the text `+` occurs
exactly once; replacing `+` by `-` gives `x - y - z`, and replacing `-` by
`+` on that line then rewrites the first `-` and gives `x + y - z`. -/
theorem applyThenInverse_not_restoring :
    (occurrences ((stringsSplit "x - y + z".toList).getD ((1 : Int) - 1).toNat [])
      "+".toList).length = 1 ∧
    replaceAtPosition "x - y + z".toList 1 1 "+".toList "-".toList = .ok "x - y - z".toList ∧
    applyThenInverse "x - y + z".toList 1 1 "+".toList "-".toList = .ok "x + y - z".toList ∧
    applyThenInverse "x - y + z".toList 1 1 "+".toList "-".toList ≠ .ok "x - y + z".toList := by
  decide

/-! ## `runMutationTest` -/

theorem backupFile_ne (file : Str) : file ++ ".mutation_backup".toList ≠ file := by
  intro h
  have := congrArg List.length h
  simp at this

theorem restoreOriginal_spec (env : Env) (mutation : Mutation) (originalContent : Str)
    (fs : FileSystem) (hrestore : env.restoreWrite = .done) (hremove : env.removeFails = false) :
    restoreOriginal env mutation originalContent (mutation.File ++ ".mutation_backup".toList) fs
        mutation.File = some originalContent ∧
    restoreOriginal env mutation originalContent (mutation.File ++ ".mutation_backup".toList) fs
        (mutation.File ++ ".mutation_backup".toList) = none := by
  have hne := backupFile_ne mutation.File
  unfold restoreOriginal osRemove osWriteFile
  rw [hrestore, hremove]
  simp only [Bool.false_eq_true, if_false, FileSystem.put, if_true]
  rw [if_neg (fun h => hne h.symm)]
  simp

/-- C1: when the target file can be read and the writes of the backup and
of the restoration and the removal of the backup succeed, then whatever the
mutation, the outcome of the write of the mutated code and the behaviour of
the tests, after `runMutationTest` the target file holds its content from
before the call and the backup file does not exist. -/
theorem runMutationTest_restores (env : Env) (mutation : Mutation) (fs : FileSystem)
    (originalContent : Str)
    (hread : fs mutation.File = some originalContent)
    (hbackup : env.backupWrite = .done)
    (hrestore : env.restoreWrite = .done)
    (hremove : env.removeFails = false) :
    (runMutationTest env mutation fs).2 mutation.File = some originalContent ∧
    (runMutationTest env mutation fs).2 (mutation.File ++ ".mutation_backup".toList) = none := by
  have hspec := fun fsx => restoreOriginal_spec env mutation originalContent fsx hrestore hremove
  unfold runMutationTest
  simp only [osReadFile, hread, osWriteFile, hbackup]
  cases happ : applyMutationToCode mutation originalContent with
  | error err => exact hspec _
  | ok mutatedCode =>
    cases hmw : env.mutatedWrite with
    | done => exact hspec _
    | failed err left => exact hspec _

/-- C1 on a run whose write of the mutated code fails and leaves the file
empty: `a.go` again holds `x > 1` and the backup is gone. -/
theorem runMutationTest_restores_witness :
    (runMutationTest (exampleEnv true) freshMutation exampleFiles).1.Status = "error".toList ∧
    ((runMutationTest (exampleEnv true) freshMutation exampleFiles).2 freshMutation.File
        = some "x > 1".toList ∧
      (runMutationTest (exampleEnv true) freshMutation exampleFiles).2
        (freshMutation.File ++ ".mutation_backup".toList) = none) :=
  ⟨by decide,
    runMutationTest_restores (exampleEnv true) freshMutation exampleFiles "x > 1".toList
      (by decide) rfl rfl rfl⟩

theorem applyMutationToCode_substitution (mutation : Mutation) (content : Str)
    (htyp : mutation.Typ ∈ ["arithmetic_operator".toList, "relational_operator".toList,
      "logical_operator".toList, "assignment_operator".toList, "inc_dec".toList,
      "unary_operator".toList, "constant".toList, "return_value".toList])
    (hline : 1 ≤ mutation.Line ∧ mutation.Line ≤ ((stringsSplit content).length : Int))
    (hmiss : firstIndex ((stringsSplit content).getD (mutation.Line - 1).toNat [])
      mutation.Original = none) :
    applyMutationToCode mutation content = .ok content := by
  have hr : ¬ (mutation.Line < 1 ∨ mutation.Line > ((stringsSplit content).length : Int)) := by
    omega
  have hlt : (mutation.Line - 1).toNat < (stringsSplit content).length := by omega
  have hrep : ∀ new, stringsReplace1 ((stringsSplit content).getD (mutation.Line - 1).toNat [])
      mutation.Original new = (stringsSplit content).getD (mutation.Line - 1).toNat [] :=
    fun new => stringsReplace1_of_none _ _ new hmiss
  unfold applyMutationToCode
  simp only [if_neg hr, hrep, set_getD_self _ _ _ hlt, stringsJoin_stringsSplit]
  simp only [List.mem_cons, List.mem_singleton, List.not_mem_nil, or_false] at htyp
  rcases htyp with h | h | h | h | h | h | h | h <;> rw [h] <;> simp

/-- C5 fails on the code: for the relational-operator mutation of `<` at
line 1 of the text `x > 1`, where `<` does not occur, `applyMutationToCode`
returns the text unchanged and no error; `runMutationTest` runs the tests
on the unchanged file and reports `survived`. -/
theorem applyMutationToCode_ignores_missing_original :
    occurrences ((stringsSplit "x > 1".toList).getD (staleMutation.Line - 1).toNat [])
      staleMutation.Original = [] ∧
    applyMutationToCode staleMutation "x > 1".toList = .ok "x > 1".toList ∧
    (runMutationTest (exampleEnv false) staleMutation exampleFiles).1.Status
      = "survived".toList ∧
    (runMutationTest (exampleEnv false) staleMutation exampleFiles).1.TestOutput
      = "x > 1".toList := by
  decide

/-! ## Rounding to `float64` -/

theorem roundHalfEven_nearest (m : ℚ) (k : Int) :
    |((roundHalfEven m : Int) : ℚ) - m| ≤ |(k : ℚ) - m| := by
  have h1 : ((⌊m⌋ : Int) : ℚ) ≤ m := Int.floor_le m
  have h2 : m < ((⌊m⌋ : Int) : ℚ) + 1 := Int.lt_floor_add_one m
  have hk : |(k : ℚ) - m| ≥ m - (⌊m⌋ : ℚ) ∨ |(k : ℚ) - m| ≥ (⌊m⌋ : ℚ) + 1 - m := by
    rcases le_or_lt k ⌊m⌋ with hle | hlt
    · have hc : (k : ℚ) ≤ (⌊m⌋ : ℚ) := by exact_mod_cast hle
      left
      rw [abs_sub_comm, abs_of_nonneg (by linarith)]
      linarith
    · have hlt2 : ⌊m⌋ + 1 ≤ k := hlt
      have hc : (⌊m⌋ : ℚ) + 1 ≤ (k : ℚ) := by exact_mod_cast hlt2
      right
      rw [abs_of_nonneg (by linarith)]
      linarith
  have hdown : |((⌊m⌋ : Int) : ℚ) - m| = m - (⌊m⌋ : ℚ) := by
    rw [abs_sub_comm, abs_of_nonneg (by linarith)]
  have hup : |((⌊m⌋ + 1 : Int) : ℚ) - m| = (⌊m⌋ : ℚ) + 1 - m := by
    push_cast
    exact abs_of_nonneg (by linarith)
  unfold roundHalfEven
  split_ifs with ha hb hc
  · rw [hdown]
    rcases hk with h | h <;> linarith
  · rw [hup]
    rcases hk with h | h <;> linarith
  · have hr : m - (⌊m⌋ : ℚ) = 1 / 2 := le_antisymm (not_lt.mp hb) (not_lt.mp ha)
    rw [hdown]
    rcases hk with h | h <;> linarith
  · have hr : m - (⌊m⌋ : ℚ) = 1 / 2 := le_antisymm (not_lt.mp hb) (not_lt.mp ha)
    rw [hup]
    rcases hk with h | h <;> linarith

theorem roundHalfEven_close (m : ℚ) : |((roundHalfEven m : Int) : ℚ) - m| ≤ 1 / 2 := by
  have h1 : ((⌊m⌋ : Int) : ℚ) ≤ m := Int.floor_le m
  have h2 : m < ((⌊m⌋ : Int) : ℚ) + 1 := Int.lt_floor_add_one m
  have hdown : |((⌊m⌋ : Int) : ℚ) - m| = m - (⌊m⌋ : ℚ) := by
    rw [abs_sub_comm, abs_of_nonneg (by linarith)]
  have hup : |((⌊m⌋ + 1 : Int) : ℚ) - m| = (⌊m⌋ : ℚ) + 1 - m := by
    push_cast
    exact abs_of_nonneg (by linarith)
  have hf := roundHalfEven_nearest m ⌊m⌋
  have hc := roundHalfEven_nearest m (⌊m⌋ + 1)
  rw [hdown] at hf
  rw [hup] at hc
  by_cases h : m - (⌊m⌋ : ℚ) ≤ 1 / 2
  · linarith
  · linarith

theorem ulpExponent_bounds (x : ℚ) (hx : x ≠ 0) :
    (2 : ℚ) ^ (ulpExponent x + 52) ≤ |x| ∧ |x| < (2 : ℚ) ^ (ulpExponent x + 53) := by
  have hpos : 0 < |x| := abs_pos.mpr hx
  have h1 := Int.zpow_log_le_self (b := 2) (by norm_num) hpos
  have h2 := Int.lt_zpow_succ_log_self (b := 2) (by norm_num) |x|
  unfold ulpExponent
  constructor
  · have : Int.log 2 |x| - 52 + 52 = Int.log 2 |x| := by ring
    rw [this]
    exact_mod_cast h1
  · have : Int.log 2 |x| - 52 + 53 = Int.log 2 |x| + 1 := by ring
    rw [this]
    exact_mod_cast h2

theorem ulpExponent_eq (x : ℚ) (e : Int) (hlo : (2 : ℚ) ^ (e + 52) ≤ |x|)
    (hhi : |x| < (2 : ℚ) ^ (e + 53)) : ulpExponent x = e := by
  have hpos : 0 < |x| := lt_of_lt_of_le (zpow_pos (by norm_num) _) hlo
  have h1 : e + 52 ≤ Int.log 2 |x| :=
    (Int.zpow_le_iff_le_log (b := 2) (by norm_num) hpos).mp (by exact_mod_cast hlo)
  have h2 : Int.log 2 |x| < e + 53 :=
    (Int.lt_zpow_iff_log_lt (b := 2) (by norm_num) hpos).mp (by exact_mod_cast hhi)
  unfold ulpExponent
  omega

theorem roundFloat64_sub (x : ℚ) (hx : x ≠ 0) :
    roundFloat64 x - x
      = (((roundHalfEven (x / (2 : ℚ) ^ ulpExponent x) : Int) : ℚ)
          - x / (2 : ℚ) ^ ulpExponent x) * (2 : ℚ) ^ ulpExponent x := by
  have hu : (0 : ℚ) < (2 : ℚ) ^ ulpExponent x := zpow_pos (by norm_num) _
  unfold roundFloat64
  rw [if_neg hx]
  field_simp

theorem grid_sub (k : Int) (u x : ℚ) (hu : 0 < u) :
    |(k : ℚ) * u - x| = |(k : ℚ) - x / u| * u := by
  have : (k : ℚ) * u - x = ((k : ℚ) - x / u) * u := by field_simp
  rw [this, abs_mul, abs_of_pos hu]

theorem roundFloat64_grid (x : ℚ) (hx : x ≠ 0) (k : Int) :
    |roundFloat64 x - x| ≤ |(k : ℚ) * (2 : ℚ) ^ ulpExponent x - x| := by
  have hu : (0 : ℚ) < (2 : ℚ) ^ ulpExponent x := zpow_pos (by norm_num) _
  rw [roundFloat64_sub x hx, abs_mul, abs_of_pos hu, grid_sub k _ x hu]
  exact mul_le_mul_of_nonneg_right (roundHalfEven_nearest _ k) hu.le

/-- The result of `roundFloat64` is at least as near to `x` as any other
`float64`. -/
theorem roundFloat64_nearest (x y : ℚ) (hy : IsFloat64 y) :
    |roundFloat64 x - x| ≤ |y - x| := by
  by_cases hx : x = 0
  · rw [hx]
    simp [roundFloat64]
  obtain ⟨k, j, hk, rfl⟩ := hy
  obtain ⟨hlo, hhi⟩ := ulpExponent_bounds x hx
  have hu : (0 : ℚ) < (2 : ℚ) ^ ulpExponent x := zpow_pos (by norm_num) _
  rcases le_or_lt (ulpExponent x) j with hj | hj
  · -- the candidate lies on the grid of `x`
    obtain ⟨d, hd⟩ := Int.eq_ofNat_of_zero_le (show 0 ≤ j - ulpExponent x by omega)
    have hjd : j = ulpExponent x + (d : Int) := by omega
    have hpow : (2 : ℚ) ^ j = ((2 ^ d : Int) : ℚ) * (2 : ℚ) ^ ulpExponent x := by
      rw [hjd, zpow_add₀ (by norm_num), zpow_natCast]
      push_cast
      ring
    have := roundFloat64_grid x hx (k * 2 ^ d)
    rw [hpow]
    push_cast at this ⊢
    rw [← mul_assoc]
    exact this
  · -- the candidate is smaller in size than the least number of the binade
    have hk2 : |(k : ℚ)| ≤ 2 ^ 53 := by
      have : |k| ≤ 2 ^ 53 := hk.le
      exact_mod_cast this
    have hy : |(k : ℚ) * (2 : ℚ) ^ j| ≤ (2 : ℚ) ^ (ulpExponent x + 52) := by
      rw [abs_mul, abs_of_pos (zpow_pos (by norm_num : (0 : ℚ) < 2) j)]
      calc |(k : ℚ)| * (2 : ℚ) ^ j ≤ 2 ^ 53 * (2 : ℚ) ^ j :=
            mul_le_mul_of_nonneg_right hk2 (zpow_pos (by norm_num) j).le
        _ = (2 : ℚ) ^ (j + 53) := by
            rw [zpow_add₀ (by norm_num), mul_comm]
            norm_num
        _ ≤ (2 : ℚ) ^ (ulpExponent x + 52) := zpow_le_zpow_right₀ (by norm_num) (by omega)
    have hbin : (2 : ℚ) ^ (ulpExponent x + 52) = (2 : ℚ) ^ 52 * (2 : ℚ) ^ ulpExponent x := by
      rw [zpow_add₀ (by norm_num), mul_comm]
      norm_num
    have hstep : |roundFloat64 x - x| ≤ |x| - (2 : ℚ) ^ (ulpExponent x + 52) := by
      rcases lt_or_gt_of_ne hx with hneg | hpos
      · have := roundFloat64_grid x hx (-(2 ^ 52))
        rw [abs_of_neg hneg] at hlo ⊢
        have he : |((-(2 ^ 52) : Int) : ℚ) * (2 : ℚ) ^ ulpExponent x - x|
            = -x - (2 : ℚ) ^ (ulpExponent x + 52) := by
          rw [hbin]
          push_cast
          rw [abs_of_nonneg (by rw [hbin] at hlo; linarith)]
          ring
        rw [he] at this
        exact this
      · have := roundFloat64_grid x hx (2 ^ 52)
        rw [abs_of_pos hpos] at hlo ⊢
        have he : |(((2 ^ 52) : Int) : ℚ) * (2 : ℚ) ^ ulpExponent x - x|
            = x - (2 : ℚ) ^ (ulpExponent x + 52) := by
          rw [hbin]
          push_cast
          rw [abs_sub_comm, abs_of_nonneg (by rw [hbin] at hlo; linarith)]
          norm_num
        rw [he] at this
        exact this
    have htri : |x| - |(k : ℚ) * (2 : ℚ) ^ j| ≤ |(k : ℚ) * (2 : ℚ) ^ j - x| := by
      rw [abs_sub_comm]
      exact abs_sub_abs_le_abs_sub _ _
    linarith

/-- The result of `roundFloat64` is a `float64`. -/
theorem roundFloat64_isFloat64 (x : ℚ) : IsFloat64 (roundFloat64 x) := by
  by_cases hx : x = 0
  · exact ⟨0, 0, by norm_num, by simp [roundFloat64, hx]⟩
  obtain ⟨hlo, hhi⟩ := ulpExponent_bounds x hx
  have hu : (0 : ℚ) < (2 : ℚ) ^ ulpExponent x := zpow_pos (by norm_num) _
  have hm : |x / (2 : ℚ) ^ ulpExponent x| < 2 ^ 53 := by
    rw [abs_div, abs_of_pos hu, div_lt_iff₀ hu]
    have : (2 : ℚ) ^ (ulpExponent x + 53) = 2 ^ 53 * (2 : ℚ) ^ ulpExponent x := by
      rw [zpow_add₀ (by norm_num), mul_comm]
      norm_num
    rw [← this]
    exact hhi
  have hclose := roundHalfEven_close (x / (2 : ℚ) ^ ulpExponent x)
  have hn : |((roundHalfEven (x / (2 : ℚ) ^ ulpExponent x) : Int) : ℚ)| < 2 ^ 53 + 1 := by
    have := abs_sub_abs_le_abs_sub
      ((roundHalfEven (x / (2 : ℚ) ^ ulpExponent x) : Int) : ℚ) (x / (2 : ℚ) ^ ulpExponent x)
    linarith
  have hn2 : |roundHalfEven (x / (2 : ℚ) ^ ulpExponent x)| < 2 ^ 53 + 1 := by
    exact_mod_cast hn
  have hval : roundFloat64 x
      = ((roundHalfEven (x / (2 : ℚ) ^ ulpExponent x) : Int) : ℚ) * (2 : ℚ) ^ ulpExponent x := by
    unfold roundFloat64
    rw [if_neg hx]
  by_cases hlt : |roundHalfEven (x / (2 : ℚ) ^ ulpExponent x)| < 2 ^ 53
  · exact ⟨_, _, hlt, hval⟩
  · have heq : |roundHalfEven (x / (2 : ℚ) ^ ulpExponent x)| = 2 ^ 53 := by omega
    have hup : (2 : ℚ) ^ (ulpExponent x + 1) = 2 * (2 : ℚ) ^ ulpExponent x := by
      rw [zpow_add₀ (by norm_num), mul_comm]
      norm_num
    rcases abs_eq (by norm_num : (0 : Int) ≤ 2 ^ 53) |>.mp heq with h | h
    · refine ⟨2 ^ 52, ulpExponent x + 1, by norm_num, ?_⟩
      rw [hval, h, hup]
      push_cast
      ring
    · refine ⟨-(2 ^ 52), ulpExponent x + 1, by norm_num, ?_⟩
      rw [hval, h, hup]
      push_cast
      ring

/-- The relative error of `roundFloat64` is at most `2 ^ (-53)`. -/
theorem roundFloat64_error (x : ℚ) : |roundFloat64 x - x| ≤ |x| / 2 ^ 53 := by
  by_cases hx : x = 0
  · rw [hx]
    simp [roundFloat64]
  obtain ⟨hlo, _⟩ := ulpExponent_bounds x hx
  have hu : (0 : ℚ) < (2 : ℚ) ^ ulpExponent x := zpow_pos (by norm_num) _
  have hbin : (2 : ℚ) ^ (ulpExponent x + 52) = (2 : ℚ) ^ 52 * (2 : ℚ) ^ ulpExponent x := by
    rw [zpow_add₀ (by norm_num), mul_comm]
    norm_num
  rw [roundFloat64_sub x hx, abs_mul, abs_of_pos hu]
  have hclose := roundHalfEven_close (x / (2 : ℚ) ^ ulpExponent x)
  have h1 : |((roundHalfEven (x / (2 : ℚ) ^ ulpExponent x) : Int) : ℚ)
      - x / (2 : ℚ) ^ ulpExponent x| * (2 : ℚ) ^ ulpExponent x
      ≤ 1 / 2 * (2 : ℚ) ^ ulpExponent x := mul_le_mul_of_nonneg_right hclose hu.le
  rw [hbin] at hlo
  rw [le_div_iff₀ (by norm_num)]
  nlinarith

theorem roundFloat64_of_isFloat64 (y : ℚ) (hy : IsFloat64 y) : roundFloat64 y = y := by
  have := roundFloat64_nearest y y hy
  rw [sub_self, abs_zero] at this
  exact sub_eq_zero.mp (abs_eq_zero.mp (le_antisymm this (abs_nonneg _)))

theorem roundFloat64_le (x c : ℚ) (hc : IsFloat64 c) (h : x ≤ c) : roundFloat64 x ≤ c := by
  by_contra hlt
  have hlt2 : c < roundFloat64 x := not_le.mp hlt
  have := roundFloat64_nearest x c hc
  rw [abs_of_nonneg (by linarith), abs_of_nonneg (by linarith)] at this
  linarith

theorem le_roundFloat64 (x c : ℚ) (hc : IsFloat64 c) (h : c ≤ x) : c ≤ roundFloat64 x := by
  by_contra hlt
  have hlt2 : roundFloat64 x < c := not_le.mp hlt
  have := roundFloat64_nearest x c hc
  rw [abs_sub_comm, abs_of_nonneg (by linarith), abs_sub_comm, abs_of_nonneg (by linarith)]
    at this
  linarith

theorem roundFloat64_mono (x y : ℚ) (h : x ≤ y) : roundFloat64 x ≤ roundFloat64 y := by
  by_contra hlt
  have hlt2 : roundFloat64 y < roundFloat64 x := not_le.mp hlt
  have h1 := roundFloat64_nearest x (roundFloat64 y) (roundFloat64_isFloat64 y)
  have h2 := roundFloat64_nearest y (roundFloat64 x) (roundFloat64_isFloat64 x)
  rcases le_or_lt x (roundFloat64 y) with hb | hb
  · rw [abs_of_nonneg (by linarith), abs_of_nonneg (by linarith)] at h1
    linarith
  · rcases le_or_lt (roundFloat64 x) y with ha | ha
    · rw [abs_sub_comm, abs_of_nonneg (by linarith), abs_sub_comm (roundFloat64 x) y,
        abs_of_nonneg (by linarith)] at h2
      linarith
    · rw [abs_sub_comm (roundFloat64 y) x, abs_of_nonneg (by linarith : (0 : ℚ) ≤ x - roundFloat64 y)] at h1
      rw [abs_of_nonneg (by linarith : (0 : ℚ) ≤ roundFloat64 x - y)] at h2
      have h1b := (abs_le.mp h1).2
      have h2b := (abs_le.mp h2).1
      have hxy : x = y := by linarith
      rw [hxy] at hlt2
      exact lt_irrefl _ hlt2

theorem isFloat64_intCast (k : Int) (hk : |k| < 2 ^ 53) : IsFloat64 (k : ℚ) :=
  ⟨k, 0, hk, by simp⟩

theorem roundFloat64_eq_of (x : ℚ) (e n : Int)
    (hlo : (2 : ℚ) ^ (e + 52) ≤ |x|) (hhi : |x| < (2 : ℚ) ^ (e + 53))
    (hn : |x / (2 : ℚ) ^ e - (n : ℚ)| < 1 / 2) :
    roundFloat64 x = (n : ℚ) * (2 : ℚ) ^ e := by
  have hx : x ≠ 0 := by
    intro h
    rw [h, abs_zero] at hlo
    exact absurd hlo (not_le.mpr (zpow_pos (by norm_num) _))
  have he := ulpExponent_eq x e hlo hhi
  have hclose := roundHalfEven_close (x / (2 : ℚ) ^ e)
  have hint : |((roundHalfEven (x / (2 : ℚ) ^ e) - n : Int) : ℚ)| < 1 := by
    push_cast
    have := abs_sub_le ((roundHalfEven (x / (2 : ℚ) ^ e) : Int) : ℚ) (x / (2 : ℚ) ^ e) (n : ℚ)
    linarith
  have hint2 : |roundHalfEven (x / (2 : ℚ) ^ e) - n| < 1 := by exact_mod_cast hint
  have hz : roundHalfEven (x / (2 : ℚ) ^ e) = n := by
    have := Int.abs_lt_one_iff.mp hint2
    omega
  unfold roundFloat64
  rw [if_neg hx, he, hz]

/-! ## `aggregateResults` -/

theorem aggregateLoop_eq_foldl (loadResult : Str → Except GoError MutationResult)
    (agg : AggregatedResults) (files : List Str) :
    aggregateLoop loadResult agg files
      = (loadedResults loadResult files).foldl countResult agg := by
  induction files generalizing agg with
  | nil => rfl
  | cons file files ih =>
    unfold aggregateLoop loadedResults
    cases loadResult file with
    | error e => exact ih agg
    | ok result => exact ih (countResult agg result)

theorem countStatus_nil (status : Str) : countStatus status [] = 0 := rfl

theorem countStatus_cons (status : Str) (r : MutationResult) (rs : List MutationResult) :
    countStatus status (r :: rs)
      = (if r.Status = status then 1 else 0) + countStatus status rs := by
  unfold countStatus
  by_cases h : r.Status = status
  · simp [List.filter_cons, h]
    omega
  · simp [List.filter_cons, h]

theorem countStatus_nonneg (status : Str) (rs : List MutationResult) :
    0 ≤ countStatus status rs := by
  unfold countStatus
  omega

theorem countResult_fields (agg : AggregatedResults) (r : MutationResult) :
    (countResult agg r).TotalMutations = agg.TotalMutations + 1 ∧
    (countResult agg r).Killed
      = agg.Killed + (if r.Status = "killed".toList then 1 else 0) ∧
    (countResult agg r).Survived
      = agg.Survived + (if r.Status = "survived".toList then 1 else 0) ∧
    (countResult agg r).Timeouts
      = agg.Timeouts + (if r.Status = "timeout".toList then 1 else 0) ∧
    (countResult agg r).Errors
      = agg.Errors + (if r.Status = "error".toList then 1 else 0) ∧
    (countResult agg r).Results = agg.Results ++ [r] ∧
    (countResult agg r).MutationScore = agg.MutationScore := by
  unfold countResult
  by_cases hk : r.Status = "killed".toList
  · have hs : ¬ r.Status = "survived".toList := by rw [hk]; decide
    have ht : ¬ r.Status = "timeout".toList := by rw [hk]; decide
    have he : ¬ r.Status = "error".toList := by rw [hk]; decide
    simp only [if_pos hk, if_neg hs, if_neg ht, if_neg he, add_zero, and_self]
  · by_cases hs : r.Status = "survived".toList
    · have ht : ¬ r.Status = "timeout".toList := by rw [hs]; decide
      have he : ¬ r.Status = "error".toList := by rw [hs]; decide
      simp only [if_neg hk, if_pos hs, if_neg ht, if_neg he, add_zero, and_self]
    · by_cases ht : r.Status = "timeout".toList
      · have he : ¬ r.Status = "error".toList := by rw [ht]; decide
        simp only [if_neg hk, if_neg hs, if_pos ht, if_neg he, add_zero, and_self]
      · by_cases he : r.Status = "error".toList
        · simp only [if_neg hk, if_neg hs, if_neg ht, if_pos he, add_zero, and_self]
        · simp only [if_neg hk, if_neg hs, if_neg ht, if_neg he, add_zero, and_self]

theorem foldl_countResult_fields (rs : List MutationResult) (agg : AggregatedResults) :
    (rs.foldl countResult agg).TotalMutations = agg.TotalMutations + (rs.length : Int) ∧
    (rs.foldl countResult agg).Killed = agg.Killed + countStatus "killed".toList rs ∧
    (rs.foldl countResult agg).Survived = agg.Survived + countStatus "survived".toList rs ∧
    (rs.foldl countResult agg).Timeouts = agg.Timeouts + countStatus "timeout".toList rs ∧
    (rs.foldl countResult agg).Errors = agg.Errors + countStatus "error".toList rs ∧
    (rs.foldl countResult agg).Results = agg.Results ++ rs ∧
    (rs.foldl countResult agg).MutationScore = agg.MutationScore := by
  induction rs generalizing agg with
  | nil => simp [countStatus_nil]
  | cons r rs ih =>
    obtain ⟨h1, h2, h3, h4, h5, h6, h7⟩ := ih (countResult agg r)
    obtain ⟨c1, c2, c3, c4, c5, c6, c7⟩ := countResult_fields agg r
    simp only [List.foldl_cons, countStatus_cons, List.length_cons]
    rw [h1, h2, h3, h4, h5, h6, h7, c1, c2, c3, c4, c5, c6, c7]
    refine ⟨?_, ?_, ?_, ?_, ?_, ?_, rfl⟩
    · push_cast; ring
    · ring
    · ring
    · ring
    · ring
    · simp

theorem aggregateResults_fields (loadResult : Str → Except GoError MutationResult)
    (files : List Str) :
    (aggregateResults loadResult files).TotalMutations
      = ((loadedResults loadResult files).length : Int) ∧
    (aggregateResults loadResult files).Killed
      = countStatus "killed".toList (loadedResults loadResult files) ∧
    (aggregateResults loadResult files).Survived
      = countStatus "survived".toList (loadedResults loadResult files) ∧
    (aggregateResults loadResult files).Timeouts
      = countStatus "timeout".toList (loadedResults loadResult files) ∧
    (aggregateResults loadResult files).Errors
      = countStatus "error".toList (loadedResults loadResult files) ∧
    (aggregateResults loadResult files).Results = loadedResults loadResult files := by
  obtain ⟨h1, h2, h3, h4, h5, h6, _⟩ :=
    foldl_countResult_fields (loadedResults loadResult files) emptyReport
  simp only [emptyReport, zero_add, List.nil_append] at h1 h2 h3 h4 h5 h6
  unfold aggregateResults
  rw [aggregateLoop_eq_foldl]
  simp only [emptyReport]
  split_ifs <;> exact ⟨h1, h2, h3, h4, h5, h6⟩

theorem scoreOf_aggregateResults (loadResult : Str → Except GoError MutationResult)
    (files : List Str) :
    (aggregateResults loadResult files).MutationScore
      = if (aggregateResults loadResult files).TotalMutations
            - (aggregateResults loadResult files).Timeouts
            - (aggregateResults loadResult files).Errors > 0 then
          float64Mul
            (float64Div (float64OfInt (aggregateResults loadResult files).Killed)
              (float64OfInt ((aggregateResults loadResult files).TotalMutations
                - (aggregateResults loadResult files).Timeouts
                - (aggregateResults loadResult files).Errors)))
            100
        else 0 := by
  obtain ⟨_, _, _, _, _, _, h7⟩ :=
    foldl_countResult_fields (loadedResults loadResult files) emptyReport
  simp only [emptyReport] at h7
  unfold aggregateResults
  rw [aggregateLoop_eq_foldl]
  simp only [emptyReport]
  split_ifs with h
  · rfl
  · exact h7

theorem countStatus_sum_le (rs : List MutationResult) :
    countStatus "killed".toList rs + countStatus "survived".toList rs
      + countStatus "timeout".toList rs + countStatus "error".toList rs ≤ (rs.length : Int) := by
  induction rs with
  | nil => simp [countStatus_nil]
  | cons r rs ih =>
    simp only [countStatus_cons, List.length_cons]
    by_cases hk : r.Status = "killed".toList
    · have hs : ¬ r.Status = "survived".toList := by rw [hk]; decide
      have ht : ¬ r.Status = "timeout".toList := by rw [hk]; decide
      have he : ¬ r.Status = "error".toList := by rw [hk]; decide
      simp only [if_pos hk, if_neg hs, if_neg ht, if_neg he]
      push_cast
      omega
    · by_cases hs : r.Status = "survived".toList
      · have ht : ¬ r.Status = "timeout".toList := by rw [hs]; decide
        have he : ¬ r.Status = "error".toList := by rw [hs]; decide
        simp only [if_neg hk, if_pos hs, if_neg ht, if_neg he]
        push_cast
        omega
      · by_cases ht : r.Status = "timeout".toList
        · have he : ¬ r.Status = "error".toList := by rw [ht]; decide
          simp only [if_neg hk, if_neg hs, if_pos ht, if_neg he]
          push_cast
          omega
        · by_cases he : r.Status = "error".toList
          · simp only [if_neg hk, if_neg hs, if_neg ht, if_pos he]
            push_cast
            omega
          · simp only [if_neg hk, if_neg hs, if_neg ht, if_neg he]
            push_cast
            omega

theorem countStatus_sum_eq (rs : List MutationResult)
    (h : ∀ r ∈ rs, r.Status ∈ ["killed".toList, "survived".toList, "timeout".toList,
      "error".toList]) :
    countStatus "killed".toList rs + countStatus "survived".toList rs
      + countStatus "timeout".toList rs + countStatus "error".toList rs = (rs.length : Int) := by
  induction rs with
  | nil => simp [countStatus_nil]
  | cons r rs ih =>
    have ih2 := ih (fun x hx => h x (List.mem_cons_of_mem _ hx))
    have hr := h r (List.mem_cons_self _ _)
    simp only [List.mem_cons, List.mem_singleton, List.not_mem_nil, or_false] at hr
    simp only [countStatus_cons, List.length_cons]
    rcases hr with hk | hs | ht | he
    · have hs : ¬ r.Status = "survived".toList := by rw [hk]; decide
      have ht : ¬ r.Status = "timeout".toList := by rw [hk]; decide
      have he : ¬ r.Status = "error".toList := by rw [hk]; decide
      simp only [if_pos hk, if_neg hs, if_neg ht, if_neg he]
      push_cast
      omega
    · have hk : ¬ r.Status = "killed".toList := by rw [hs]; decide
      have ht : ¬ r.Status = "timeout".toList := by rw [hs]; decide
      have he : ¬ r.Status = "error".toList := by rw [hs]; decide
      simp only [if_neg hk, if_pos hs, if_neg ht, if_neg he]
      push_cast
      omega
    · have hk : ¬ r.Status = "killed".toList := by rw [ht]; decide
      have hs : ¬ r.Status = "survived".toList := by rw [ht]; decide
      have he : ¬ r.Status = "error".toList := by rw [ht]; decide
      simp only [if_neg hk, if_neg hs, if_pos ht, if_neg he]
      push_cast
      omega
    · have hk : ¬ r.Status = "killed".toList := by rw [he]; decide
      have hs : ¬ r.Status = "survived".toList := by rw [he]; decide
      have ht : ¬ r.Status = "timeout".toList := by rw [he]; decide
      simp only [if_neg hk, if_neg hs, if_neg ht, if_pos he]
      push_cast
      omega

/-- C7, as amended: the total of the report is the length of its list of
results, the four counts never add up to more than the total, and they add
up to the total when every loaded record has one of the statuses `killed`,
`survived`, `timeout`, `error`. -/
theorem aggregateResults_counts (loadResult : Str → Except GoError MutationResult)
    (files : List Str) :
    (aggregateResults loadResult files).TotalMutations
      = ((aggregateResults loadResult files).Results.length : Int) ∧
    (aggregateResults loadResult files).Killed + (aggregateResults loadResult files).Survived
      + (aggregateResults loadResult files).Timeouts + (aggregateResults loadResult files).Errors
      ≤ (aggregateResults loadResult files).TotalMutations ∧
    ((∀ r ∈ loadedResults loadResult files,
        r.Status ∈ ["killed".toList, "survived".toList, "timeout".toList, "error".toList]) →
      (aggregateResults loadResult files).Killed + (aggregateResults loadResult files).Survived
        + (aggregateResults loadResult files).Timeouts
        + (aggregateResults loadResult files).Errors
        = (aggregateResults loadResult files).TotalMutations) := by
  obtain ⟨h1, h2, h3, h4, h5, h6⟩ := aggregateResults_fields loadResult files
  rw [h1, h2, h3, h4, h5, h6]
  exact ⟨rfl, countStatus_sum_le _, countStatus_sum_eq _⟩

/-- C7, as amended, on ten result files with statuses `killed`, `survived`
and `timeout`. -/
theorem aggregateResults_counts_witness :
    (aggregateResults exampleLoad exampleBatch).Killed
      + (aggregateResults exampleLoad exampleBatch).Survived
      + (aggregateResults exampleLoad exampleBatch).Timeouts
      + (aggregateResults exampleLoad exampleBatch).Errors
      = (aggregateResults exampleLoad exampleBatch).TotalMutations :=
  (aggregateResults_counts exampleLoad exampleBatch).2.2 (by decide)

/-- C7, as stated, fails: a loaded record whose status is `skipped` is
counted in the total and in none of the four counts. -/
theorem unknown_status_breaks_count_sum :
    loadedResults exampleLoad ["skipped".toList] = [exampleResult "skipped".toList] ∧
    (aggregateResults exampleLoad ["skipped".toList]).TotalMutations = 1 ∧
    (aggregateResults exampleLoad ["skipped".toList]).Killed
      + (aggregateResults exampleLoad ["skipped".toList]).Survived
      + (aggregateResults exampleLoad ["skipped".toList]).Timeouts
      + (aggregateResults exampleLoad ["skipped".toList]).Errors = 0 ∧
    (aggregateResults exampleLoad ["skipped".toList]).Killed
      + (aggregateResults exampleLoad ["skipped".toList]).Survived
      + (aggregateResults exampleLoad ["skipped".toList]).Timeouts
      + (aggregateResults exampleLoad ["skipped".toList]).Errors
      ≠ (aggregateResults exampleLoad ["skipped".toList]).TotalMutations := by
  decide

theorem isFloat64_zero : IsFloat64 0 :=
  ⟨0, 0, by norm_num, by simp⟩

theorem isFloat64_one : IsFloat64 1 :=
  ⟨1, 0, by norm_num, by simp⟩

theorem isFloat64_hundred : IsFloat64 100 :=
  ⟨100, 0, by norm_num, by simp⟩

theorem float64Div_counts (k v : Int) (hk : 0 ≤ k) (hkv : k ≤ v) (hv : 0 < v) :
    0 ≤ float64Div (float64OfInt k) (float64OfInt v) ∧
    float64Div (float64OfInt k) (float64OfInt v) ≤ 1 := by
  have hkq : (0 : ℚ) ≤ (k : ℚ) := by exact_mod_cast hk
  have hkvq : (k : ℚ) ≤ (v : ℚ) := by exact_mod_cast hkv
  have hvq : (1 : ℚ) ≤ (v : ℚ) := by exact_mod_cast hv
  have h0 : 0 ≤ float64OfInt k := le_roundFloat64 _ 0 isFloat64_zero hkq
  have h1 : 1 ≤ float64OfInt v := le_roundFloat64 _ 1 isFloat64_one hvq
  have hle : float64OfInt k ≤ float64OfInt v := roundFloat64_mono _ _ hkvq
  have hq0 : 0 ≤ float64OfInt k / float64OfInt v := div_nonneg h0 (by linarith)
  have hq1 : float64OfInt k / float64OfInt v ≤ 1 := (div_le_one (by linarith)).mpr hle
  exact ⟨le_roundFloat64 _ 0 isFloat64_zero hq0, roundFloat64_le _ 1 isFloat64_one hq1⟩

theorem float64_score_bounds (k v : Int) (hk : 0 ≤ k) (hkv : k ≤ v) (hv : 0 < v) :
    0 ≤ float64Mul (float64Div (float64OfInt k) (float64OfInt v)) 100 ∧
    float64Mul (float64Div (float64OfInt k) (float64OfInt v)) 100 ≤ 100 := by
  obtain ⟨h0, h1⟩ := float64Div_counts k v hk hkv hv
  constructor
  · exact le_roundFloat64 _ 0 isFloat64_zero (by linarith)
  · exact roundFloat64_le _ 100 isFloat64_hundred (by linarith)

theorem float64_score_error (k v : Int) (hk : 0 ≤ k) (hkv : k ≤ v) (hv : 0 < v)
    (hsmall : v < 2 ^ 53) :
    |float64Mul (float64Div (float64OfInt k) (float64OfInt v)) 100
        - (k : ℚ) / (v : ℚ) * 100| ≤ 1 / 2 ^ 45 := by
  have hkq : (0 : ℚ) ≤ (k : ℚ) := by exact_mod_cast hk
  have hkvq : (k : ℚ) ≤ (v : ℚ) := by exact_mod_cast hkv
  have hvq : (0 : ℚ) < (v : ℚ) := by exact_mod_cast hv
  have hfk : float64OfInt k = (k : ℚ) :=
    roundFloat64_of_isFloat64 _ (isFloat64_intCast k (by rw [abs_of_nonneg hk]; omega))
  have hfv : float64OfInt v = (v : ℚ) :=
    roundFloat64_of_isFloat64 _ (isFloat64_intCast v (by rw [abs_of_pos hv]; omega))
  obtain ⟨h0, h1⟩ := float64Div_counts k v hk hkv hv
  rw [hfk, hfv] at h0 h1 ⊢
  have hq0 : 0 ≤ (k : ℚ) / (v : ℚ) := div_nonneg hkq hvq.le
  have hq1 : (k : ℚ) / (v : ℚ) ≤ 1 := (div_le_one hvq).mpr hkvq
  have e1 : |float64Div (k : ℚ) (v : ℚ) - (k : ℚ) / (v : ℚ)| ≤ 1 / 2 ^ 53 := by
    have := roundFloat64_error ((k : ℚ) / (v : ℚ))
    rw [abs_of_nonneg hq0] at this
    have h2 : (k : ℚ) / (v : ℚ) / 2 ^ 53 ≤ 1 / 2 ^ 53 :=
      div_le_div_of_nonneg_right hq1 (by norm_num)
    exact le_trans this h2
  have e2 : |float64Mul (float64Div (k : ℚ) (v : ℚ)) 100 - float64Div (k : ℚ) (v : ℚ) * 100|
      ≤ 100 / 2 ^ 53 := by
    have := roundFloat64_error (float64Div (k : ℚ) (v : ℚ) * 100)
    rw [abs_of_nonneg (by linarith : (0 : ℚ) ≤ float64Div (k : ℚ) (v : ℚ) * 100)] at this
    have h2 : float64Div (k : ℚ) (v : ℚ) * 100 / 2 ^ 53 ≤ 100 / 2 ^ 53 :=
      div_le_div_of_nonneg_right (by linarith) (by norm_num)
    exact le_trans this h2
  have e1b := abs_le.mp e1
  have e2b := abs_le.mp e2
  rw [abs_le]
  constructor
  · have : (-(1 : ℚ) / 2 ^ 45) ≤ -(100 / 2 ^ 53) - 100 * (1 / 2 ^ 53) := by norm_num
    linarith [e1b.1, e2b.1]
  · have : (100 : ℚ) / 2 ^ 53 + 100 * (1 / 2 ^ 53) ≤ 1 / 2 ^ 45 := by norm_num
    linarith [e1b.2, e2b.2]

theorem roundFloat64_seven_ninths :
    float64Div (float64OfInt 7) (float64OfInt 9) = 7005599420354105 / 2 ^ 53 := by
  have h7 : float64OfInt 7 = 7 := by
    have := roundFloat64_of_isFloat64 _ (isFloat64_intCast 7 (by norm_num))
    simpa [float64OfInt] using this
  have h9 : float64OfInt 9 = 9 := by
    have := roundFloat64_of_isFloat64 _ (isFloat64_intCast 9 (by norm_num))
    simpa [float64OfInt] using this
  rw [h7, h9]
  unfold float64Div
  rw [roundFloat64_eq_of (7 / 9) (-53) 7005599420354105
    (by rw [abs_of_pos (by norm_num)]; norm_num)
    (by rw [abs_of_pos (by norm_num)]; norm_num)
    (by norm_num [abs_lt])]
  norm_num

theorem float64_score_seven_ninths :
    float64Mul (float64Div (float64OfInt 7) (float64OfInt 9)) 100
      = 5473124547151645 / 2 ^ 46 := by
  rw [roundFloat64_seven_ninths]
  unfold float64Mul
  rw [roundFloat64_eq_of (7005599420354105 / 2 ^ 53 * 100) (-46) 5473124547151645
    (by rw [abs_of_pos (by norm_num)]; norm_num)
    (by rw [abs_of_pos (by norm_num)]; norm_num)
    (by norm_num [abs_lt])]
  norm_num

/-- C6, as amended: the score set by `aggregateResults` is the `float64`
result of `float64(killed) / float64(total - timeouts - errors) * 100.0`,
each operation rounded to the nearest `float64`, when
`total - timeouts - errors` is positive, and `0` otherwise; when that
difference is below `2 ^ 53` the score is within `2 ^ (-45)` of
`killed / (total - timeouts - errors) * 100`; with 7 killed, 2 survived,
1 timeout, no error and 10 in total it is `5473124547151645 / 2 ^ 46`
(77.77777777777779), which is `77.8` to one decimal. -/
theorem mutationScore_rounded (loadResult : Str → Except GoError MutationResult)
    (files : List Str) :
    ((aggregateResults loadResult files).MutationScore
      = if (aggregateResults loadResult files).TotalMutations
            - (aggregateResults loadResult files).Timeouts
            - (aggregateResults loadResult files).Errors > 0 then
          float64Mul
            (float64Div (float64OfInt (aggregateResults loadResult files).Killed)
              (float64OfInt ((aggregateResults loadResult files).TotalMutations
                - (aggregateResults loadResult files).Timeouts
                - (aggregateResults loadResult files).Errors)))
            100
        else 0) ∧
    (0 < (aggregateResults loadResult files).TotalMutations
          - (aggregateResults loadResult files).Timeouts
          - (aggregateResults loadResult files).Errors ∧
      (aggregateResults loadResult files).TotalMutations
          - (aggregateResults loadResult files).Timeouts
          - (aggregateResults loadResult files).Errors < 2 ^ 53 →
      |(aggregateResults loadResult files).MutationScore
        - ((aggregateResults loadResult files).Killed : ℚ)
          / (((aggregateResults loadResult files).TotalMutations
              - (aggregateResults loadResult files).Timeouts
              - (aggregateResults loadResult files).Errors : Int) : ℚ) * 100| ≤ 1 / 2 ^ 45) ∧
    ((aggregateResults loadResult files).Killed = 7 ∧
      (aggregateResults loadResult files).Survived = 2 ∧
      (aggregateResults loadResult files).Timeouts = 1 ∧
      (aggregateResults loadResult files).Errors = 0 ∧
      (aggregateResults loadResult files).TotalMutations = 10 →
      (aggregateResults loadResult files).MutationScore = 5473124547151645 / 2 ^ 46 ∧
      (7775 : ℚ) / 100 ≤ (aggregateResults loadResult files).MutationScore ∧
      (aggregateResults loadResult files).MutationScore < (7785 : ℚ) / 100) := by
  have hs := scoreOf_aggregateResults loadResult files
  obtain ⟨h1, h2, h3, h4, h5, _⟩ := aggregateResults_fields loadResult files
  have hle := countStatus_sum_le (loadedResults loadResult files)
  have hk := countStatus_nonneg "killed".toList (loadedResults loadResult files)
  have hsv := countStatus_nonneg "survived".toList (loadedResults loadResult files)
  refine ⟨hs, ?_, ?_⟩
  · rintro ⟨hpos, hsmall⟩
    rw [hs, if_pos hpos]
    exact float64_score_error _ _ (by rw [h2]; exact hk) (by rw [h1, h2, h4, h5]; omega)
      hpos hsmall
  · rintro ⟨hk7, _, ht, he, htot⟩
    rw [hs, hk7, ht, he, htot]
    have h9 : (10 : Int) - 1 - 0 = 9 := by norm_num
    rw [h9, if_pos (by norm_num), float64_score_seven_ninths]
    norm_num

/-- C6, as amended, on ten result files, seven `killed`, two `survived` and
one `timeout`: the score is `5473124547151645 / 2 ^ 46`. -/
theorem mutationScore_rounded_witness :
    |(aggregateResults exampleLoad exampleBatch).MutationScore
      - ((aggregateResults exampleLoad exampleBatch).Killed : ℚ)
        / (((aggregateResults exampleLoad exampleBatch).TotalMutations
            - (aggregateResults exampleLoad exampleBatch).Timeouts
            - (aggregateResults exampleLoad exampleBatch).Errors : Int) : ℚ) * 100|
      ≤ 1 / 2 ^ 45 ∧
    (aggregateResults exampleLoad exampleBatch).MutationScore = 5473124547151645 / 2 ^ 46 ∧
    (7775 : ℚ) / 100 ≤ (aggregateResults exampleLoad exampleBatch).MutationScore ∧
    (aggregateResults exampleLoad exampleBatch).MutationScore < (7785 : ℚ) / 100 :=
  ⟨(mutationScore_rounded exampleLoad exampleBatch).2.1 (by decide),
    (mutationScore_rounded exampleLoad exampleBatch).2.2 (by decide)⟩

/-- C6, as stated, fails: with 7 killed, 2 survived and 1 timeout out of 10
the score is the `float64` `5473124547151645 / 2 ^ 46`, which is not
`700 / 9`. -/
theorem mutationScore_not_exact :
    (aggregateResults exampleLoad exampleBatch).Killed = 7 ∧
    (aggregateResults exampleLoad exampleBatch).TotalMutations
      - (aggregateResults exampleLoad exampleBatch).Timeouts
      - (aggregateResults exampleLoad exampleBatch).Errors = 9 ∧
    (aggregateResults exampleLoad exampleBatch).MutationScore = 5473124547151645 / 2 ^ 46 ∧
    (aggregateResults exampleLoad exampleBatch).MutationScore ≠ 700 / 9 := by
  have hk : (aggregateResults exampleLoad exampleBatch).Killed = 7 := by decide
  have hv : (aggregateResults exampleLoad exampleBatch).TotalMutations
      - (aggregateResults exampleLoad exampleBatch).Timeouts
      - (aggregateResults exampleLoad exampleBatch).Errors = 9 := by decide
  have hs : (aggregateResults exampleLoad exampleBatch).MutationScore
      = 5473124547151645 / 2 ^ 46 := by
    rw [scoreOf_aggregateResults, hv, hk, if_pos (by norm_num), float64_score_seven_ninths]
  refine ⟨hk, hv, hs, ?_⟩
  rw [hs]
  norm_num

/-- C8: the score computed by `aggregateResults` lies between 0 and 100. -/
theorem mutationScore_bounds (loadResult : Str → Except GoError MutationResult)
    (files : List Str) :
    0 ≤ (aggregateResults loadResult files).MutationScore ∧
    (aggregateResults loadResult files).MutationScore ≤ 100 := by
  obtain ⟨h1, h2, h3, h4, h5, _⟩ := aggregateResults_fields loadResult files
  have hle := countStatus_sum_le (loadedResults loadResult files)
  have hk := countStatus_nonneg "killed".toList (loadedResults loadResult files)
  have hsv := countStatus_nonneg "survived".toList (loadedResults loadResult files)
  rw [scoreOf_aggregateResults]
  split_ifs with hv
  · exact float64_score_bounds _ _ (by rw [h2]; exact hk) (by rw [h1, h2, h4, h5]; omega) hv
  · exact ⟨le_refl _, by norm_num⟩

/-! ## The generator -/

theorem digitChar_value : ∀ d < 10, (Nat.digitChar d).toNat - 48 = d := by
  decide

theorem decimalValue_append_digit (s : Str) (c : Char) :
    decimalValue (s ++ [c]) = 10 * decimalValue s + (c.toNat - 48) := by
  unfold decimalValue
  rw [List.foldl_append]
  rfl

theorem decimalValue_decimalFuel (fuel n : Nat) (h : n < fuel) :
    decimalValue (decimalFuel fuel n) = n := by
  induction fuel generalizing n with
  | zero => omega
  | succ fuel ih =>
    unfold decimalFuel
    by_cases h10 : n < 10
    · rw [if_pos h10]
      have := digitChar_value n h10
      simpa [decimalValue] using this
    · rw [if_neg h10, decimalValue_append_digit, ih (n / 10) (by omega),
        digitChar_value (n % 10) (by omega)]
      omega

theorem decimalValue_decimal (n : Nat) : decimalValue (decimal n) = n :=
  decimalValue_decimalFuel (n + 1) n (by omega)

theorem decimal_injective : Function.Injective decimal := by
  intro a b h
  have := congrArg decimalValue h
  rwa [decimalValue_decimal, decimalValue_decimal] at this

theorem fmtInt_natCast (n : Nat) : fmtInt (n : Int) = decimal n := by
  unfold fmtInt
  have : ¬ ((n : Int) < 0) := by omega
  rw [if_neg this, Int.toNat_ofNat]

theorem foldl_addMutation (ms : List Mutation) (g : MutationGenerator)
    (hg : g.mutationID = (g.mutations.length : Int)) :
    (ms.foldl MutationGenerator.addMutation g).mutationID
      = ((ms.foldl MutationGenerator.addMutation g).mutations.length : Int) ∧
    (ms.foldl MutationGenerator.addMutation g).mutations.length
      = g.mutations.length + ms.length ∧
    (ms.foldl MutationGenerator.addMutation g).mutations.map (fun m => m.ID)
      = g.mutations.map (fun m => m.ID)
        ++ (List.range ms.length).map (fun i => 'M' :: decimal (g.mutations.length + i)) := by
  induction ms generalizing g with
  | nil => simp [hg]
  | cons m ms ih =>
    have hg1 : (g.addMutation m).mutationID = ((g.addMutation m).mutations.length : Int) := by
      simp only [MutationGenerator.addMutation, List.length_append, List.length_singleton, hg]
      push_cast
      rfl
    obtain ⟨h1, h2, h3⟩ := ih (g.addMutation m) hg1
    have hlen : (g.addMutation m).mutations.length = g.mutations.length + 1 := by
      simp [MutationGenerator.addMutation]
    have hids : (g.addMutation m).mutations.map (fun m => m.ID)
        = g.mutations.map (fun m => m.ID) ++ ['M' :: decimal g.mutations.length] := by
      simp [MutationGenerator.addMutation, hg, fmtInt_natCast]
    simp only [List.foldl_cons, List.length_cons]
    refine ⟨h1, by rw [h2, hlen]; omega, ?_⟩
    rw [h3, hids, hlen, List.range_succ_eq_map, List.map_cons, List.map_map, List.append_assoc]
    simp only [List.singleton_append, Nat.add_zero, List.cons.injEq, true_and,
      List.append_cancel_left_eq]
    apply List.map_congr_left
    intro i _
    simp only [Function.comp, Nat.succ_eq_add_one]
    rw [show g.mutations.length + 1 + i = g.mutations.length + (i + 1) by omega]

/-- C9: from a fresh generator, after any sequence of `addMutation` calls
the identifiers of the list are `M0`, `M1`, ... in order (the element at
index `i` has `M` followed by the decimal digits of `i`), they are pairwise
distinct, and the counter equals the length of the list. -/
theorem addMutation_identifiers (file targetFunc : Str) (targetLines : Int × Int)
    (ms : List Mutation) :
    ((ms.foldl MutationGenerator.addMutation
        (newGenerator file targetFunc targetLines)).mutations.map (fun m => m.ID)
      = (List.range ms.length).map (fun i => 'M' :: decimal i)) ∧
    (∀ i : Nat, decimalValue (decimal i) = i) ∧
    ((ms.foldl MutationGenerator.addMutation
        (newGenerator file targetFunc targetLines)).mutations.map (fun m => m.ID)).Nodup ∧
    (ms.foldl MutationGenerator.addMutation
        (newGenerator file targetFunc targetLines)).mutations.length = ms.length ∧
    (ms.foldl MutationGenerator.addMutation (newGenerator file targetFunc targetLines)).mutationID
      = (((ms.foldl MutationGenerator.addMutation
          (newGenerator file targetFunc targetLines)).mutations.length : Nat) : Int) := by
  obtain ⟨h1, h2, h3⟩ :=
    foldl_addMutation ms (newGenerator file targetFunc targetLines) (by simp [newGenerator])
  have hnil : (newGenerator file targetFunc targetLines).mutations = [] := rfl
  simp only [hnil, List.length_nil, Nat.zero_add, List.map_nil, List.nil_append] at h2 h3
  refine ⟨h3, decimalValue_decimal, ?_, h2, h1⟩
  rw [h3]
  apply List.Nodup.map _ (List.nodup_range _)
  intro a b hab
  exact decimal_injective (List.cons.inj hab).2

/-- C10: for a relational operator the list `relationalMutations` is not
empty, holds relational operators only, holds none twice and does not hold
the operator itself; and every `relational_operator` mutation that
`mutateBinaryExpr` appends has `Mutated` different from `Original`. -/
theorem relationalMutations_exclude_original (op : Token) :
    (isRelational op = true →
      relationalMutations op ≠ [] ∧
      (∀ t ∈ relationalMutations op, isRelational t = true) ∧
      (relationalMutations op).Nodup ∧
      op ∉ relationalMutations op) ∧
    (∀ (g : MutationGenerator) (pos : Position),
      ∀ m ∈ emitted g (g.mutateBinaryExpr pos op),
        m.Typ = "relational_operator".toList → m.Mutated ≠ m.Original) := by
  constructor
  · cases op <;> decide
  · intro g pos m hm
    cases op <;>
      simp [emitted, MutationGenerator.mutateBinaryExpr, isArithmetic, isRelational, isLogical,
        arithmeticMutations, relationalMutations, logicalMutations,
        MutationGenerator.addMutation, tokenToString] at hm <;>
      (try rcases hm with rfl | rfl | rfl | rfl | rfl) <;>
      simp [tokenToString]

/-- C10 for the operator `<`, on a generator that already holds
mutations. -/
theorem relationalMutations_exclude_original_witness :
    (relationalMutations Token.LSS ≠ [] ∧
      (∀ t ∈ relationalMutations Token.LSS, isRelational t = true) ∧
      (relationalMutations Token.LSS).Nodup ∧
      Token.LSS ∉ relationalMutations Token.LSS) ∧
    (emitted exampleGenerator
        (exampleGenerator.mutateBinaryExpr { Line := 42, Column := 4 } Token.LSS)).map
          (fun m => (m.ID, m.Original, m.Mutated))
      = [("M2".toList, "<".toList, "<=".toList), ("M3".toList, "<".toList, ">".toList),
         ("M4".toList, "<".toList, ">=".toList), ("M5".toList, "<".toList, "==".toList),
         ("M6".toList, "<".toList, "!=".toList)] :=
  ⟨(relationalMutations_exclude_original Token.LSS).1 (by decide), by decide⟩

/-! ## The operator tables -/

/-- C11, as amended: for an arithmetic operator the list `arithmeticMutations`
is not empty, holds arithmetic operators other than the operator itself and
none twice; for `+`, `-`, `*`, `/` it holds exactly the other three of these
four, and for `%` exactly `/` and `*`. -/
theorem arithmeticMutations_table (op : Token) (h : isArithmetic op = true) :
    arithmeticMutations op ≠ [] ∧
    (∀ t ∈ arithmeticMutations op, isArithmetic t = true ∧ t ≠ op) ∧
    (arithmeticMutations op).Nodup ∧
    (op ≠ Token.REM →
      ∀ t, t ∈ arithmeticMutations op ↔
        (t ∈ [Token.ADD, Token.SUB, Token.MUL, Token.QUO] ∧ t ≠ op)) ∧
    (op = Token.REM → arithmeticMutations op = [Token.QUO, Token.MUL]) := by
  cases op <;> first
    | exact absurd h (by decide)
    | (refine ⟨by decide, by decide, by decide, ?_, by decide⟩
       intro _ t
       cases t <;> decide)
    | (refine ⟨by decide, by decide, by decide, ?_, by decide⟩
       intro hne
       exact absurd rfl hne)

/-- C11, as amended, for the operator `+`. -/
theorem arithmeticMutations_table_witness :
    arithmeticMutations Token.ADD ≠ [] ∧
    (∀ t ∈ arithmeticMutations Token.ADD, isArithmetic t = true ∧ t ≠ Token.ADD) ∧
    (arithmeticMutations Token.ADD).Nodup ∧
    (Token.ADD ≠ Token.REM →
      ∀ t, t ∈ arithmeticMutations Token.ADD ↔
        (t ∈ [Token.ADD, Token.SUB, Token.MUL, Token.QUO] ∧ t ≠ Token.ADD)) ∧
    (Token.ADD = Token.REM → arithmeticMutations Token.ADD = [Token.QUO, Token.MUL]) :=
  arithmeticMutations_table Token.ADD (by decide)

/-- C11, as stated, fails: `%` is an arithmetic operator other than `+` and
is not among the alternatives of `+`, and `+` is not among those of `%`. -/
theorem arithmeticMutations_leave_out_rem :
    isArithmetic Token.REM = true ∧ Token.REM ≠ Token.ADD ∧
    Token.REM ∉ arithmeticMutations Token.ADD ∧
    Token.ADD ∉ arithmeticMutations Token.REM := by
  decide

/-! ## `applyStatementRemoval` and `filterMutations` -/

/-- C13: for a line number in range `applyStatementRemoval` succeeds, the
lines of its result are those of the content with the target line `L`
replaced by `// MUTANT: ` followed by `L`, and stripping that prefix from
the target line of the result gives the content back; for a line number out
of range it returns an error. -/
theorem applyStatementRemoval_reversible (m : Mutation) (content : Str) :
    (1 ≤ m.Line ∧ m.Line ≤ ((stringsSplit content).length : Int) →
      ∃ out : Str,
        applyStatementRemoval m content = .ok out ∧
        stringsSplit out = (stringsSplit content).set (m.Line - 1).toNat
          ("// MUTANT: ".toList ++ (stringsSplit content).getD (m.Line - 1).toNat []) ∧
        stringsJoin ((stringsSplit out).set (m.Line - 1).toNat
          (((stringsSplit out).getD (m.Line - 1).toNat []).drop "// MUTANT: ".toList.length))
          = content) ∧
    (m.Line < 1 ∨ m.Line > ((stringsSplit content).length : Int) →
      isError (applyStatementRemoval m content) = true) := by
  constructor
  · intro hline
    have hr : ¬ (m.Line < 1 ∨ m.Line > ((stringsSplit content).length : Int)) := by omega
    have hlt : (m.Line - 1).toNat < (stringsSplit content).length := by omega
    have hmem := getD_mem_of_lt (stringsSplit content) (m.Line - 1).toNat [] hlt
    have hnl := stringsSplit_no_newline content _ hmem
    have hsp : stringsSplit (stringsJoin ((stringsSplit content).set (m.Line - 1).toNat
        ("// MUTANT: ".toList ++ (stringsSplit content).getD (m.Line - 1).toNat [])))
        = (stringsSplit content).set (m.Line - 1).toNat
          ("// MUTANT: ".toList ++ (stringsSplit content).getD (m.Line - 1).toNat []) := by
      apply stringsSplit_stringsJoin
      · intro hnil
        rw [List.set_eq_nil_iff] at hnil
        exact stringsSplit_ne_nil content hnil
      · apply no_newline_of_set _ _ _ (stringsSplit_no_newline content)
        intro hx
        rcases List.mem_append.mp hx with hx | hx
        · exact absurd hx (by decide)
        · exact hnl hx
    refine ⟨_, ?_, hsp, ?_⟩
    · unfold applyStatementRemoval
      simp only [if_neg hr]
    · rw [hsp, getD_set_self _ _ _ _ hlt, List.set_set, List.drop_left,
        set_getD_self _ _ _ hlt, stringsJoin_stringsSplit]
  · intro hr
    unfold applyStatementRemoval
    simp only [if_pos hr, isError]

/-- C13 on the second line of a text of three lines, and on line 4 of it. -/
theorem applyStatementRemoval_reversible_witness :
    (∃ out : Str,
      applyStatementRemoval { freshMutation with Line := 2 } "a\n  return x\nb".toList = .ok out ∧
      stringsSplit out = (stringsSplit "a\n  return x\nb".toList).set ((2 : Int) - 1).toNat
        ("// MUTANT: ".toList
          ++ (stringsSplit "a\n  return x\nb".toList).getD ((2 : Int) - 1).toNat []) ∧
      stringsJoin ((stringsSplit out).set ((2 : Int) - 1).toNat
        (((stringsSplit out).getD ((2 : Int) - 1).toNat []).drop "// MUTANT: ".toList.length))
        = "a\n  return x\nb".toList) ∧
    applyStatementRemoval { freshMutation with Line := 2 } "a\n  return x\nb".toList
      = .ok "a\n// MUTANT:   return x\nb".toList ∧
    isError (applyStatementRemoval { freshMutation with Line := 4 } "a\n  return x\nb".toList)
      = true :=
  ⟨(applyStatementRemoval_reversible { freshMutation with Line := 2 }
      "a\n  return x\nb".toList).1 (by decide),
    by decide,
    (applyStatementRemoval_reversible { freshMutation with Line := 4 }
      "a\n  return x\nb".toList).2 (by decide)⟩

theorem filterMutations_eq_filter (skipImports : Bool) (minLine maxLine : Int)
    (mutations : List Mutation) :
    filterMutations skipImports minLine maxLine mutations
      = mutations.filter (fun m =>
          decide ((skipImports = false ∨ m.Line ≥ 20) ∧ (minLine ≤ 0 ∨ m.Line ≥ minLine)
            ∧ (maxLine ≤ 0 ∨ m.Line ≤ maxLine))) := by
  induction mutations with
  | nil => rfl
  | cons m ms ih =>
    unfold filterMutations
    rw [ih, List.filter_cons]
    by_cases h1 : skipImports = true ∧ m.Line < 20
    · have : ¬ ((skipImports = false ∨ m.Line ≥ 20) ∧ (minLine ≤ 0 ∨ m.Line ≥ minLine)
          ∧ (maxLine ≤ 0 ∨ m.Line ≤ maxLine)) := by
        rintro ⟨h | h, _⟩
        · rw [h1.1] at h; exact Bool.noConfusion h
        · omega
      simp only [if_pos h1, decide_eq_true_eq, if_neg this]
    · have h1b : skipImports = false ∨ m.Line ≥ 20 := by
        cases skipImports
        · exact Or.inl rfl
        · right
          by_contra hc
          exact h1 ⟨rfl, by omega⟩
      by_cases h2 : minLine > 0 ∧ m.Line < minLine
      · have : ¬ ((skipImports = false ∨ m.Line ≥ 20) ∧ (minLine ≤ 0 ∨ m.Line ≥ minLine)
            ∧ (maxLine ≤ 0 ∨ m.Line ≤ maxLine)) := by
          rintro ⟨_, h | h, _⟩ <;> omega
        simp only [if_neg h1, if_pos h2, decide_eq_true_eq, if_neg this]
      · by_cases h3 : maxLine > 0 ∧ m.Line > maxLine
        · have : ¬ ((skipImports = false ∨ m.Line ≥ 20) ∧ (minLine ≤ 0 ∨ m.Line ≥ minLine)
              ∧ (maxLine ≤ 0 ∨ m.Line ≤ maxLine)) := by
            rintro ⟨_, _, h | h⟩ <;> omega
          simp only [if_neg h1, if_neg h2, if_pos h3, decide_eq_true_eq, if_neg this]
        · have : (skipImports = false ∨ m.Line ≥ 20) ∧ (minLine ≤ 0 ∨ m.Line ≥ minLine)
              ∧ (maxLine ≤ 0 ∨ m.Line ≤ maxLine) := by
            refine ⟨h1b, ?_, ?_⟩ <;> omega
          simp only [if_neg h1, if_neg h2, if_neg h3, decide_eq_true_eq, if_pos this]

/-- C14: `filterMutations` keeps, in the input order, exactly the mutations
`m` with (`skipImports` false or `m.Line >= 20`), (`minLine <= 0` or
`m.Line >= minLine`) and (`maxLine <= 0` or `m.Line <= maxLine`); its result
is a sublist of the input, and filtering it again changes nothing. -/
theorem filterMutations_keeps_exactly (skipImports : Bool) (minLine maxLine : Int)
    (mutations : List Mutation) :
    filterMutations skipImports minLine maxLine mutations
      = mutations.filter (fun m =>
          decide ((skipImports = false ∨ m.Line ≥ 20) ∧ (minLine ≤ 0 ∨ m.Line ≥ minLine)
            ∧ (maxLine ≤ 0 ∨ m.Line ≤ maxLine))) ∧
    List.Sublist (filterMutations skipImports minLine maxLine mutations) mutations ∧
    filterMutations skipImports minLine maxLine
        (filterMutations skipImports minLine maxLine mutations)
      = filterMutations skipImports minLine maxLine mutations := by
  refine ⟨filterMutations_eq_filter _ _ _ _, ?_, ?_⟩
  · rw [filterMutations_eq_filter]
    exact List.filter_sublist _
  · rw [filterMutations_eq_filter, filterMutations_eq_filter, List.filter_filter]
    congr 1
    funext m
    simp

/-! ## `extractMutationType` -/

/-- C17, as amended: the category returned by `extractMutationType` is one
of `boundary_condition`, `arithmetic_operator`, `logical_operator`,
`negation`, `return_value`, `statement_removal`, `constant` and `other`; a
description that, once in lower case, contains none of the keywords yields
`other`. -/
theorem extractMutationType_labels (result : MutationResult) :
    extractMutationType result ∈
      ["boundary_condition".toList, "arithmetic_operator".toList, "logical_operator".toList,
       "negation".toList, "return_value".toList, "statement_removal".toList,
       "constant".toList, "other".toList] ∧
    ((∀ k ∈ typeKeywords, stringsContains (stringsToLower result.Description) k = false) →
      extractMutationType result = "other".toList) := by
  constructor
  · unfold extractMutationType
    simp only []
    split_ifs <;> decide
  · intro h
    have hk : ∀ k, k ∈ typeKeywords →
        stringsContains (stringsToLower result.Description) k = false := h
    have h1 := hk "boundary".toList (by decide)
    have h2 := hk ">=".toList (by decide)
    have h3 := hk "<=".toList (by decide)
    have h4 := hk "arithmetic".toList (by decide)
    have h5 := hk "+".toList (by decide)
    have h6 := hk "-".toList (by decide)
    have h7 := hk "logical".toList (by decide)
    have h8 := hk "&&".toList (by decide)
    have h9 := hk "||".toList (by decide)
    have h10 := hk "negation".toList (by decide)
    have h11 := hk "!".toList (by decide)
    have h12 := hk "return".toList (by decide)
    have h13 := hk "remove".toList (by decide)
    have h14 := hk "constant".toList (by decide)
    have h15 := hk "0".toList (by decide)
    have h16 := hk "1".toList (by decide)
    unfold extractMutationType
    simp only [h1, h2, h3, h4, h5, h6, h7, h8, h9, h10, h11, h12, h13, h14, h15, h16,
      Bool.or_self, Bool.false_eq_true, if_false]

/-- C17, as amended, on the description `Swap operands`. -/
theorem extractMutationType_labels_witness :
    extractMutationType { exampleResult [] with Description := "Swap operands".toList }
      = "other".toList :=
  (extractMutationType_labels
    { exampleResult [] with Description := "Swap operands".toList }).2 (by decide)

/-- C17, as stated, fails: for the description `Change > to >= (boundary)`
of a relational mutation the category is `boundary_condition`, which is
neither `other` nor a category of the generator. -/
theorem extractMutationType_outside_categories :
    extractMutationType (exampleResult "survived".toList) = "boundary_condition".toList ∧
    extractMutationType (exampleResult "survived".toList)
      ∉ "other".toList :: generatorCategories := by
  decide

/-! ## The workers of `run_all_mutations.go` -/

/-- C20: whatever value is requested for `--parallel`, `runMutationsParallel`
starts exactly one worker, the flag is left at 1, and the warning is written
if and only if the requested value is not 1. -/
theorem workersStarted_one (requested : Int) :
    workersStarted requested = [0] ∧
    (workersStarted requested).length = 1 ∧
    (forceSequential requested).2 = 1 ∧
    ((forceSequential requested).1 ≠ [] ↔ requested ≠ 1) := by
  have h2 : (forceSequential requested).2 = 1 := by
    unfold forceSequential
    by_cases h : requested = 1
    · simp [h]
    · simp [h]
  have hw : workersStarted requested = [0] := by
    unfold workersStarted
    rw [h2]
    decide
  refine ⟨hw, by rw [hw]; rfl, h2, ?_⟩
  unfold forceSequential
  by_cases h : requested = 1
  · simp [h]
  · simp [h]

/-- C20 for the requested values 8 and 1. -/
theorem workersStarted_one_witness :
    workersStarted 8 = [0] ∧ (forceSequential 8).1 ≠ [] ∧ (forceSequential 1).1 = [] :=
  ⟨(workersStarted_one 8).1, (workersStarted_one 8).2.2.2.mpr (by decide), by decide⟩

/-! ## The outcome of `runMutationTest` -/

theorem stringsContains_timeout (d : Str) :
    stringsContains (GoError.timeoutAfter d).Error "timeout".toList = true := by
  simp [stringsContains, stringsIndex, firstIndex, GoError.Error, List.isPrefixOf]

theorem runMutationTest_status_tested (env : Env) (mutation : Mutation) (fs : FileSystem)
    (originalContent mutatedCode : Str)
    (hread : fs mutation.File = some originalContent)
    (hbackup : env.backupWrite = .done)
    (happly : applyMutationToCode mutation originalContent = .ok mutatedCode)
    (hwrite : env.mutatedWrite = .done) :
    (runMutationTest env mutation fs).1.Status
      = if (env.goTest env.packagePath
          ((fs.put (mutation.File ++ ".mutation_backup".toList) (some originalContent)).put
            mutation.File (some mutatedCode))).1.runFailed = true then
          if (env.goTest env.packagePath
            ((fs.put (mutation.File ++ ".mutation_backup".toList) (some originalContent)).put
              mutation.File (some mutatedCode))).1.deadlineExpired = true then
            "timeout".toList
          else "killed".toList
        else "survived".toList := by
  obtain ⟨readError, backupWrite, mutatedWrite, restoreWrite, removeFails, packagePath,
    testTimeout, goTest⟩ := env
  dsimp only at hbackup hwrite ⊢
  subst hbackup hwrite
  generalize hres : goTest packagePath
    ((fs.put (mutation.File ++ ".mutation_backup".toList) (some originalContent)).put
      mutation.File (some mutatedCode)) = res
  unfold runMutationTest osReadFile
  rw [hread]
  dsimp only
  unfold osWriteFile
  dsimp only
  rw [happly]
  dsimp only
  unfold runTests
  dsimp only
  rw [hres]
  rcases res with ⟨⟨failed, expired, out, err⟩, fs3⟩
  cases failed <;> cases expired
  · rfl
  · rfl
  · rfl
  · simp only [if_true]
    rw [if_pos (stringsContains_timeout _)]

/-- C12, as amended: once the mutated code is written, the status that
`runMutationTest` returns is `timeout` exactly when the test command failed
with its deadline expired, `survived` exactly when the command ended without error, and
`killed` exactly when it failed with the deadline not expired; it is one of
these three and never `error`. -/
theorem runMutationTest_classifies (env : Env) (mutation : Mutation) (fs : FileSystem)
    (originalContent mutatedCode : Str)
    (hread : fs mutation.File = some originalContent)
    (hbackup : env.backupWrite = .done)
    (happly : applyMutationToCode mutation originalContent = .ok mutatedCode)
    (hwrite : env.mutatedWrite = .done) :
    ((runMutationTest env mutation fs).1.Status = "timeout".toList ↔
      (env.goTest env.packagePath
        ((fs.put (mutation.File ++ ".mutation_backup".toList) (some originalContent)).put
          mutation.File (some mutatedCode))).1.runFailed = true ∧
      (env.goTest env.packagePath
        ((fs.put (mutation.File ++ ".mutation_backup".toList) (some originalContent)).put
          mutation.File (some mutatedCode))).1.deadlineExpired = true) ∧
    ((runMutationTest env mutation fs).1.Status = "survived".toList ↔
      (env.goTest env.packagePath
        ((fs.put (mutation.File ++ ".mutation_backup".toList) (some originalContent)).put
          mutation.File (some mutatedCode))).1.runFailed = false) ∧
    ((runMutationTest env mutation fs).1.Status = "killed".toList ↔
      (env.goTest env.packagePath
        ((fs.put (mutation.File ++ ".mutation_backup".toList) (some originalContent)).put
          mutation.File (some mutatedCode))).1.runFailed = true ∧
      (env.goTest env.packagePath
        ((fs.put (mutation.File ++ ".mutation_backup".toList) (some originalContent)).put
          mutation.File (some mutatedCode))).1.deadlineExpired = false) ∧
    (runMutationTest env mutation fs).1.Status ≠ "error".toList ∧
    ((runMutationTest env mutation fs).1.Status = "timeout".toList ∨
      (runMutationTest env mutation fs).1.Status = "survived".toList ∨
      (runMutationTest env mutation fs).1.Status = "killed".toList) := by
  rw [runMutationTest_status_tested env mutation fs originalContent mutatedCode hread hbackup
    happly hwrite]
  generalize (env.goTest env.packagePath
    ((fs.put (mutation.File ++ ".mutation_backup".toList) (some originalContent)).put
      mutation.File (some mutatedCode))).1 = run
  cases run.runFailed <;> cases run.deadlineExpired <;> decide

/-- C12, as amended, on a run whose test command passes: the status is
`survived`. -/
theorem runMutationTest_classifies_witness :
    (runMutationTest (exampleEnv false) freshMutation exampleFiles).1.Status
      = "survived".toList :=
  ((runMutationTest_classifies (exampleEnv false) freshMutation exampleFiles "x > 1".toList
    "x >= 1".toList (by decide) rfl (by decide) rfl).2.1).mpr (by decide)

/-- C12, as stated, fails: when the test command ends without error and the
deadline of its context has expired, the status is `survived` and not
`timeout`, since `runTests` reads `ctx.Err()` only after `cmd.Run()` has
returned an error. -/
theorem runMutationTest_late_success :
    exampleFiles freshMutation.File = some "x > 1".toList ∧
    lateSuccessEnv.backupWrite = .done ∧
    applyMutationToCode freshMutation "x > 1".toList = .ok "x >= 1".toList ∧
    lateSuccessEnv.mutatedWrite = .done ∧
    (lateSuccessEnv.goTest lateSuccessEnv.packagePath
      ((exampleFiles.put (freshMutation.File ++ ".mutation_backup".toList)
        (some "x > 1".toList)).put freshMutation.File (some "x >= 1".toList))).1.deadlineExpired
      = true ∧
    (lateSuccessEnv.goTest lateSuccessEnv.packagePath
      ((exampleFiles.put (freshMutation.File ++ ".mutation_backup".toList)
        (some "x > 1".toList)).put freshMutation.File (some "x >= 1".toList))).1.runFailed
      = false ∧
    (runMutationTest lateSuccessEnv freshMutation exampleFiles).1.Status = "survived".toList ∧
    (runMutationTest lateSuccessEnv freshMutation exampleFiles).1.Status ≠ "timeout".toList :=
  ⟨by decide, rfl, by decide, rfl, rfl, rfl, by decide, by decide⟩

theorem runMutationTest_result_ignores_restore (env : Env) (outcome : WriteOutcome)
    (mutation : Mutation) (fs : FileSystem) :
    (runMutationTest { env with restoreWrite := outcome } mutation fs).1
      = (runMutationTest env mutation fs).1 := by
  unfold runMutationTest
  simp only [osReadFile, osWriteFile, runTests]
  cases fs mutation.File with
  | none => rfl
  | some originalContent =>
    simp only []
    cases env.backupWrite with
    | failed err left => rfl
    | done =>
      simp only []
      cases applyMutationToCode mutation originalContent with
      | error err => rfl
      | ok mutatedCode =>
        simp only []
        cases env.mutatedWrite with
        | failed err left => rfl
        | done => rfl

/-- C19 fails on the code: when the deferred write of the original content
fails and leaves the mutated text in `a.go`, `runMutationTest` returns the
very result of the run in which the restoration succeeds, with status
`survived`, and the file keeps the mutated text. -/
theorem runMutationTest_restore_failure_unreported :
    (runMutationTest restoreFailsEnv freshMutation exampleFiles).1
      = (runMutationTest (exampleEnv false) freshMutation exampleFiles).1 ∧
    (runMutationTest restoreFailsEnv freshMutation exampleFiles).1.Status
      = "survived".toList ∧
    (runMutationTest restoreFailsEnv freshMutation exampleFiles).2 freshMutation.File
      = some "x >= 1".toList ∧
    (runMutationTest (exampleEnv false) freshMutation exampleFiles).2 freshMutation.File
      = some "x > 1".toList := by
  decide

/-! ## The walk of the generator -/

theorem extends_refl (Q : Mutation → Prop) (g : MutationGenerator) : Extends Q g g :=
  ⟨rfl, rfl, rfl, fun _ hm => Or.inl hm⟩

theorem extends_trans (Q : Mutation → Prop) (g g1 g2 : MutationGenerator)
    (h1 : Extends Q g g1) (h2 : Extends Q g1 g2) : Extends Q g g2 := by
  obtain ⟨a1, b1, c1, d1⟩ := h1
  obtain ⟨a2, b2, c2, d2⟩ := h2
  refine ⟨a2.trans a1, b2.trans b1, c2.trans c1, ?_⟩
  intro m hm
  rcases d2 m hm with h | h
  · exact d1 m h
  · exact Or.inr h

theorem extends_mono (Q Q2 : Mutation → Prop) (g g2 : MutationGenerator)
    (hQ : ∀ m, Q m → Q2 m) (h : Extends Q g g2) : Extends Q2 g g2 := by
  obtain ⟨a, b, c, d⟩ := h
  refine ⟨a, b, c, ?_⟩
  intro m hm
  rcases d m hm with h | h
  · exact Or.inl h
  · exact Or.inr (hQ m h)

theorem extends_addMutation (Q : Mutation → Prop) (g : MutationGenerator) (m : Mutation)
    (hQ : ∀ id, Q { m with ID := id }) : Extends Q g (g.addMutation m) := by
  refine ⟨rfl, rfl, rfl, ?_⟩
  intro x hx
  simp only [MutationGenerator.addMutation, List.mem_append, List.mem_singleton] at hx
  rcases hx with h | h
  · exact Or.inl h
  · right
    rw [h]
    exact hQ _

theorem extends_foldl {α : Type} (Q : Mutation → Prop) (f : MutationGenerator → α → Mutation)
    (hQ : ∀ g x id, Q { f g x with ID := id }) (l : List α) (g : MutationGenerator) :
    Extends Q g (l.foldl (fun g x => g.addMutation (f g x)) g) := by
  induction l generalizing g with
  | nil => exact extends_refl Q g
  | cons x xs ih =>
    simp only [List.foldl_cons]
    exact extends_trans Q _ _ _ (extends_addMutation Q g (f g x) (hQ g x)) (ih _)

theorem extends_if_add {Q : Mutation → Prop} {g0 g : MutationGenerator} {m : Mutation}
    (c : Prop) [Decidable c] (h : Extends Q g0 g) (hQ : ∀ id, Q { m with ID := id }) :
    Extends Q g0 (if c then g.addMutation m else g) := by
  split
  · exact extends_trans Q _ _ _ h (extends_addMutation Q g m hQ)
  · exact h

theorem extends_if_foldl {α : Type} {Q : Mutation → Prop} {g0 g : MutationGenerator}
    {f : MutationGenerator → α → Mutation} {l : List α}
    (c : Prop) [Decidable c] (h : Extends Q g0 g) (hQ : ∀ g x id, Q { f g x with ID := id }) :
    Extends Q g0 (if c then l.foldl (fun g x => g.addMutation (f g x)) g else g) := by
  split
  · exact extends_trans Q _ _ _ h (extends_foldl Q f hQ l g)
  · exact h

theorem extends_mutateBinaryExpr (g : MutationGenerator) (pos : Position) (op : Token) :
    Extends (emittedAt pos) g (g.mutateBinaryExpr pos op) := by
  unfold MutationGenerator.mutateBinaryExpr
  simp only []
  refine extends_if_foldl _ (extends_if_foldl _ (extends_if_foldl _ (extends_refl _ _) ?_) ?_) ?_
  all_goals
    intro g x id
    exact ⟨rfl, by simp [priorityRule]⟩

theorem extends_mutateUnaryExpr (g : MutationGenerator) (pos : Position) (op : Token) :
    Extends (emittedAt pos) g (g.mutateUnaryExpr pos op) := by
  unfold MutationGenerator.mutateUnaryExpr
  simp only []
  refine extends_if_add _ (extends_if_add _ (extends_refl _ _) ?_) ?_
  all_goals
    intro id
    exact ⟨rfl, by simp [priorityRule]⟩

theorem extends_mutateBasicLit (g : MutationGenerator) (pos : Position) (kind : LitKind)
    (value : Str) : Extends (emittedAt pos) g (g.mutateBasicLit pos kind value) := by
  unfold MutationGenerator.mutateBasicLit
  cases kind
  case INT =>
    simp only []
    split
    · apply extends_addMutation
      intro id
      exact ⟨rfl, by simp [priorityRule]⟩
    · split
      · apply extends_addMutation
        intro id
        exact ⟨rfl, by simp [priorityRule]⟩
      · rename_i h0 h1
        apply extends_addMutation
        intro id
        refine ⟨rfl, ?_⟩
        simp only [priorityRule]
        refine ⟨by simp, by simp, by simp, ?_, by simp, by simp⟩
        intro _ h
        rcases h with ⟨_, h⟩ | ⟨_, h⟩ <;> simp at h
  case STRING =>
    simp only []
    split
    · apply extends_addMutation
      intro id
      refine ⟨rfl, ?_⟩
      simp only [priorityRule]
      refine ⟨by simp, by simp, by simp, ?_, by simp, by simp⟩
      intro _ h
      rcases h with ⟨_, h⟩ | ⟨_, h⟩ <;> exact absurd h (by decide)
    · exact extends_refl _ _
  all_goals exact extends_refl _ _

theorem extends_mutateResults (pos : Position) (results : List Node) :
    ∀ (i : Nat) (g : MutationGenerator),
      Extends (emittedAt pos) g (g.mutateResults pos i results) := by
  induction results with
  | nil =>
    intro i g
    exact extends_refl _ _
  | cons r rest ih =>
    intro i g
    obtain ⟨kind, p, cs⟩ := r
    unfold MutationGenerator.mutateResults
    refine extends_trans _ _ _ _ ?_ (ih _ _)
    cases kind
    case ident name =>
      simp only []
      split
      · apply extends_addMutation
        intro id
        exact ⟨rfl, by simp [priorityRule]⟩
      · split
        · apply extends_addMutation
          intro id
          exact ⟨rfl, by simp [priorityRule]⟩
        · split
          · apply extends_addMutation
            intro id
            exact ⟨rfl, by simp [priorityRule]⟩
          · exact extends_refl _ _
    all_goals exact extends_refl _ _

theorem extends_mutateReturnStmt (g : MutationGenerator) (pos : Position)
    (results : List Node) : Extends (emittedAt pos) g (g.mutateReturnStmt pos results) := by
  unfold MutationGenerator.mutateReturnStmt
  refine extends_trans _ _ _ _ (extends_mutateResults pos results 0 g) ?_
  apply extends_addMutation
  intro id
  exact ⟨rfl, by simp [priorityRule]⟩

theorem extends_mutateIfStmt (g : MutationGenerator) (pos : Position) (hasElse : Bool) :
    Extends (emittedAt pos) g (g.mutateIfStmt pos hasElse) := by
  unfold MutationGenerator.mutateIfStmt
  simp only []
  refine extends_if_add _ (extends_addMutation _ _ _ ?_) ?_
  all_goals
    intro id
    exact ⟨rfl, by simp [priorityRule]⟩

theorem extends_mutateAssignStmt (g : MutationGenerator) (pos : Position) (tok : Token) :
    Extends (emittedAt pos) g (g.mutateAssignStmt pos tok) := by
  unfold MutationGenerator.mutateAssignStmt
  split
  · simp only []
    split
    · apply extends_addMutation
      intro id
      exact ⟨rfl, by simp [priorityRule]⟩
    · split
      · apply extends_addMutation
        intro id
        exact ⟨rfl, by simp [priorityRule]⟩
      · exact extends_refl _ _
  · exact extends_refl _ _

theorem extends_mutateIncDecStmt (g : MutationGenerator) (pos : Position) (tok : Token) :
    Extends (emittedAt pos) g (g.mutateIncDecStmt pos tok) := by
  unfold MutationGenerator.mutateIncDecStmt
  split
  · apply extends_addMutation
    intro id
    exact ⟨rfl, by simp [priorityRule]⟩
  · split
    · apply extends_addMutation
      intro id
      exact ⟨rfl, by simp [priorityRule]⟩
    · exact extends_refl _ _

theorem extends_trackFunc (Q : Mutation → Prop) (g : MutationGenerator) (kind : NodeKind) :
    Extends Q g (g.trackFunc kind) := by
  cases kind <;> exact ⟨rfl, rfl, rfl, fun _ hm => Or.inl hm⟩

theorem trackFunc_targetLines (g : MutationGenerator) (kind : NodeKind) :
    (g.trackFunc kind).targetLines = g.targetLines := by
  cases kind <;> rfl

theorem trackFunc_mutations (g : MutationGenerator) (kind : NodeKind) :
    (g.trackFunc kind).mutations = g.mutations := by
  cases kind <;> rfl

theorem extends_visit (g : MutationGenerator) (node : Node) :
    Extends (emittedWithin g.targetLines) g (g.visit node).1 := by
  obtain ⟨kind, pos, children⟩ := node
  have htrack := extends_trackFunc (emittedWithin g.targetLines) g kind
  unfold MutationGenerator.visit
  simp only []
  split
  · exact htrack
  · split
    · exact htrack
    · rename_i hskip hrange
      rw [trackFunc_targetLines] at hrange
      refine extends_trans _ _ _ _ htrack (extends_mono (emittedAt pos) _ _ _ ?_ ?_)
      · intro m hm
        refine ⟨?_, hm.2⟩
        intro hpos
        rw [hm.1]
        constructor
        · by_contra hc
          exact hrange ⟨hpos, Or.inl (by omega)⟩
        · by_contra hc
          exact hrange ⟨hpos, Or.inr (by omega)⟩
      · cases kind
        case binaryExpr op => exact extends_mutateBinaryExpr _ pos op
        case unaryExpr op => exact extends_mutateUnaryExpr _ pos op
        case basicLit k value => exact extends_mutateBasicLit _ pos k value
        case returnStmt => exact extends_mutateReturnStmt _ pos children
        case ifStmt hasElse => exact extends_mutateIfStmt _ pos hasElse
        case assignStmt tok => exact extends_mutateAssignStmt _ pos tok
        case incDecStmt tok => exact extends_mutateIncDecStmt _ pos tok
        all_goals exact extends_refl _ _

mutual
theorem extends_inspect (targetLines : Int × Int) :
    ∀ (node : Node) (g : MutationGenerator), g.targetLines = targetLines →
      Extends (emittedWithin targetLines) g (inspect g node)
  | .mk kind pos children, g, hg => by
    have hv := extends_visit g (.mk kind pos children)
    rw [hg] at hv
    unfold inspect
    split
    · exact extends_trans _ _ _ _ hv
        (extends_inspectList targetLines children _ (hv.2.2.1.trans hg))
    · exact hv
theorem extends_inspectList (targetLines : Int × Int) :
    ∀ (nodes : List Node) (g : MutationGenerator), g.targetLines = targetLines →
      Extends (emittedWithin targetLines) g (inspectList g nodes)
  | [], g, _ => by
    unfold inspectList
    exact extends_refl _ _
  | node :: nodes, g, hg => by
    have h1 := extends_inspect targetLines node g hg
    unfold inspectList
    exact extends_trans _ _ _ _ h1
      (extends_inspectList targetLines nodes _ (h1.2.2.1.trans hg))
end

theorem generateMutations_emittedWithin (file targetFunc : Str) (targetLines : Int × Int)
    (root : Node) :
    ∀ m ∈ generateMutations file targetFunc targetLines root, emittedWithin targetLines m := by
  intro m hm
  have h := extends_inspect targetLines root (newGenerator file targetFunc targetLines) rfl
  rcases h.2.2.2 m hm with h1 | h1
  · exact absurd h1 (List.not_mem_nil m)
  · exact h1

theorem inspect_other_function (g : MutationGenerator) (name : Str) (pos : Position)
    (children : List Node) (htarget : g.targetFunc ≠ []) (hname : name ≠ g.targetFunc) :
    (inspect g (.mk (.funcDecl name) pos children)).mutations = g.mutations := by
  have hskip : decide (g.targetFunc ≠ [] ∧ name ≠ g.targetFunc) = true :=
    decide_eq_true ⟨htarget, hname⟩
  unfold inspect MutationGenerator.visit MutationGenerator.trackFunc
  simp only [hskip, if_true, Bool.false_eq_true, if_false]

/-- C15 fails on the code: with the target function `target`, the walk of
the file of `exampleTree` emits six mutations, five of them at line 3, for
the package-level initialiser `1 + 2` that lies in no function; nothing is
emitted for the function `other`. -/
theorem generateMutations_outside_target :
    (generateMutations "a.go".toList "target".toList (0, 0) exampleTree).map
        (fun m => (m.ID, m.Line, m.Typ))
      = [("M0".toList, 3, "arithmetic_operator".toList),
         ("M1".toList, 3, "arithmetic_operator".toList),
         ("M2".toList, 3, "arithmetic_operator".toList),
         ("M3".toList, 3, "constant".toList),
         ("M4".toList, 3, "constant".toList),
         ("M5".toList, 5, "statement_removal".toList)] := by
  decide

/-- C16, as amended: when the range parsed by `parseLineRange` has a start
above 0, every mutation that the generator emits has its line within the
range, and a node outside the range that is not a function skipped by the
function filter emits nothing while its children are walked. -/
theorem generateMutations_within_lines (file targetFunc rangeStr : Str)
    (targetLines : Int × Int) (root : Node) :
    parseLineRange rangeStr = some targetLines → 0 < targetLines.1 →
    (∀ m ∈ generateMutations file targetFunc targetLines root,
      targetLines.1 ≤ m.Line ∧ m.Line ≤ targetLines.2) ∧
    (∀ (g : MutationGenerator) (kind : NodeKind) (pos : Position) (children : List Node),
      g.targetLines = targetLines →
      (pos.Line < targetLines.1 ∨ pos.Line > targetLines.2) →
      (∀ name, kind = .funcDecl name → g.targetFunc = [] ∨ name = g.targetFunc) →
      inspect g (.mk kind pos children) = inspectList (g.trackFunc kind) children) := by
  intro _ hstart
  constructor
  · intro m hm
    exact (generateMutations_emittedWithin file targetFunc targetLines root m hm).1 hstart
  · intro g kind pos children hg hout hfun
    have hrange : (g.trackFunc kind).targetLines.1 > 0 ∧
        (pos.Line < (g.trackFunc kind).targetLines.1
          ∨ pos.Line > (g.trackFunc kind).targetLines.2) := by
      rw [trackFunc_targetLines, hg]
      exact ⟨hstart, hout⟩
    unfold inspect MutationGenerator.visit
    cases kind
    case funcDecl name =>
      have hskip : decide ((g.trackFunc (.funcDecl name)).targetFunc ≠ []
          ∧ (g.trackFunc (.funcDecl name)).currentFunc
            ≠ (g.trackFunc (.funcDecl name)).targetFunc) = false := by
        simp only [MutationGenerator.trackFunc, decide_eq_false_iff_not, not_and, not_not]
        intro h1
        rcases hfun name rfl with h | h
        · exact absurd h h1
        · exact h
      simp only [hskip, Bool.false_eq_true, if_false, if_pos hrange, if_true]
    all_goals simp only [Bool.false_eq_true, if_false, if_pos hrange, if_true]

/-- C16, as amended, for the range `10-20` on `exampleSpread`: the sum at
line 5 is not mutated, and its operand at line 12 is. -/
theorem generateMutations_within_lines_witness :
    parseLineRange "10-20".toList = some (10, 20) ∧
    (∀ m ∈ generateMutations "a.go".toList [] (10, 20) exampleSpread,
      (10 : Int) ≤ m.Line ∧ m.Line ≤ 20) ∧
    (generateMutations "a.go".toList [] (10, 20) exampleSpread).map
        (fun m => (m.ID, m.Line, m.Typ))
      = [("M0".toList, 12, "constant".toList)] :=
  ⟨by decide,
    (generateMutations_within_lines "a.go".toList [] "10-20".toList (10, 20) exampleSpread
      (by decide) (by decide)).1,
    by decide⟩

/-- C16, as stated, fails: the range `0-50` is parsed to the pair (0, 50),
whose start 0 switches the filter off, and two mutations at line 60 are
emitted. -/
theorem generateMutations_range_from_zero :
    parseLineRange "0-50".toList = some (0, 50) ∧
    (generateMutations "a.go".toList [] (0, 50) exampleSpread).map (fun m => m.Line)
      = [5, 5, 5, 12, 60, 60] ∧
    ¬ ((60 : Int) ≤ 50) := by
  decide

/-- C18, as amended: every mutation that the generator emits follows
`priorityRule`: relational, logical, return-value and constant 0/1 mutations
and assignment-operator mutations have priority `high`, the off-by-one
mutation of a numeric constant has priority `medium`. -/
theorem generateMutations_priorities (file targetFunc : Str) (targetLines : Int × Int)
    (root : Node) :
    ∀ m ∈ generateMutations file targetFunc targetLines root, priorityRule m := by
  intro m hm
  exact (generateMutations_emittedWithin file targetFunc targetLines root m hm).2

/-- C18, as amended, for the mutation of `+=` at line 60 of
`exampleSpread`. -/
theorem generateMutations_priorities_witness :
    priorityRule
      { ID := "M4".toList, File := "a.go".toList, Line := 60, Column := 2,
        Typ := "assignment_operator".toList, Original := "+=".toList, Mutated := "-=".toList,
        Description := "Change += to -=".toList, Priority := "high".toList } :=
  generateMutations_priorities "a.go".toList [] (0, 0) exampleSpread _ (by decide)

/-- C18, as stated, fails: the mutation emitted for the statement `n += 7`
has the category `assignment_operator` and the priority `high`, not
`medium`. -/
theorem generateMutations_assignment_high :
    (generateMutations "a.go".toList [] (0, 0) exampleSpread).map
        (fun m => (m.Typ, m.Original, m.Mutated, m.Priority))
      = [("arithmetic_operator".toList, "+".toList, "-".toList, "high".toList),
         ("arithmetic_operator".toList, "+".toList, "*".toList, "high".toList),
         ("arithmetic_operator".toList, "+".toList, "/".toList, "high".toList),
         ("constant".toList, "7".toList, "(7 + 1)".toList, "medium".toList),
         ("assignment_operator".toList, "+=".toList, "-=".toList, "high".toList),
         ("constant".toList, "7".toList, "(7 + 1)".toList, "medium".toList)] ∧
    "high".toList ≠ "medium".toList := by
  decide

/-! ## The column argument, and the two ways of applying a mutation -/

theorem replaceAtPosition_ignores_column (content : Str) (line col col2 : Int)
    (original replacement : Str) :
    replaceAtPosition content line col original replacement
      = replaceAtPosition content line col2 original replacement :=
  rfl

/-- C22, as stated, fails: on the line `a + b + c`, whose `+` signs start at
columns 3 and 7, `replaceAtPosition` called with column 7 rewrites the `+`
at column 3. -/
theorem replaceAtPosition_wrong_column :
    occurrences ((stringsSplit "a + b + c".toList).getD ((1 : Int) - 1).toNat []) "+".toList
      = [2, 6] ∧
    replaceAtPosition "a + b + c".toList 1 7 "+".toList "-".toList = .ok "a - b + c".toList ∧
    replaceAtPosition "a + b + c".toList 1 7 "+".toList "-".toList ≠ .ok "a + b - c".toList := by
  decide

theorem replaceAtPosition_ok_replace1 (content : Str) (line col : Int)
    (original replacement out : Str)
    (hok : replaceAtPosition content line col original replacement = .ok out) :
    ¬ (line < 1 ∨ line > ((stringsSplit content).length : Int)) ∧
    out = stringsJoin ((stringsSplit content).set (line - 1).toNat
      (stringsReplace1 ((stringsSplit content).getD (line - 1).toNat []) original
        replacement)) := by
  by_cases h : line < 1 ∨ line > ((stringsSplit content).length : Int)
  · rw [replaceAtPosition_of_range _ _ _ _ _ h] at hok
    exact Except.noConfusion hok
  · cases hfi : firstIndex ((stringsSplit content).getD (line - 1).toNat []) original with
    | none =>
      rw [replaceAtPosition_of_none _ _ _ _ _ h hfi] at hok
      exact Except.noConfusion hok
    | some i =>
      rw [replaceAtPosition_of_some _ _ _ _ _ i h hfi] at hok
      rw [stringsReplace1_of_some _ _ _ i hfi]
      exact ⟨h, (Except.ok.inj hok).symm⟩

theorem mem_occurrences (s sub : Str) (j : Nat) :
    j ∈ occurrences s sub ↔ j ≤ s.length ∧ sub <+: s.drop j := by
  unfold occurrences
  rw [List.mem_filter, List.mem_range, List.isPrefixOf_iff_prefix]
  constructor
  · rintro ⟨h1, h2⟩
    exact ⟨by omega, h2⟩
  · rintro ⟨h1, h2⟩
    exact ⟨by omega, h2⟩

theorem drop_take_append {α : Type} (l x : List α) (i : Nat) (hi : i ≤ l.length) :
    List.drop i (List.take i l ++ x) = x := by
  rw [List.drop_append_eq_append_drop]
  simp [List.length_take, min_eq_left hi]

/-- C22, as amended: whenever `replaceAtPosition` succeeds, it returns the
same text for every value of the column, and the occurrence of `original`
that it replaces is the first one on the target line: its offset `i` is an
offset at which `original` occurs, no occurrence starts before it, and the
returned text is the input with the target line replaced by its first `i`
bytes, then `replacement`, then what follows the occurrence. -/
theorem replaceAtPosition_column_free (content : Str) (line col : Int)
    (original replacement out : Str)
    (hok : replaceAtPosition content line col original replacement = .ok out) :
    (∀ col2 : Int, replaceAtPosition content line col2 original replacement = .ok out) ∧
    ∃ i : Nat,
      i ∈ occurrences ((stringsSplit content).getD (line - 1).toNat []) original ∧
      (∀ j ∈ occurrences ((stringsSplit content).getD (line - 1).toNat []) original, i ≤ j) ∧
      out = stringsJoin ((stringsSplit content).set (line - 1).toNat
        (((stringsSplit content).getD (line - 1).toNat []).take i ++ replacement
          ++ ((stringsSplit content).getD (line - 1).toNat []).drop (i + original.length))) := by
  refine ⟨fun col2 => hok, ?_⟩
  by_cases h : line < 1 ∨ line > ((stringsSplit content).length : Int)
  · rw [replaceAtPosition_of_range _ _ _ _ _ h] at hok
    exact Except.noConfusion hok
  · cases hfi : firstIndex ((stringsSplit content).getD (line - 1).toNat []) original with
    | none =>
      rw [replaceAtPosition_of_none _ _ _ _ _ h hfi] at hok
      exact Except.noConfusion hok
    | some i =>
      rw [replaceAtPosition_of_some _ _ _ _ _ i h hfi] at hok
      have hout := (Except.ok.inj hok).symm
      have hsplit := firstIndex_some_split _ _ i hfi
      have hle := firstIndex_some_le _ _ i hfi
      refine ⟨i, ?_, ?_, hout⟩
      · rw [mem_occurrences]
        refine ⟨by omega, ?_⟩
        refine ⟨List.drop (i + original.length)
          ((stringsSplit content).getD (line - 1).toNat []), ?_⟩
        have h1 := congrArg (List.drop i) hsplit
        rw [List.append_assoc, drop_take_append _ _ i (by omega)] at h1
        exact h1.symm
      · intro j hj
        rw [mem_occurrences] at hj
        obtain ⟨hjl, r, hr⟩ := hj
        have hocc : (stringsSplit content).getD (line - 1).toNat []
            = List.take j ((stringsSplit content).getD (line - 1).toNat []) ++ original ++ r := by
          rw [List.append_assoc, hr, List.take_append_drop]
        have h1 := firstIndex_some_first _ _ i hfi _ _ hocc
        rw [List.length_take] at h1
        omega

/-- C22, as amended, on the line `a + b + c` with column 7: the `+` that is
replaced is the first one, at offset 2, for every value of the column. -/
theorem replaceAtPosition_column_free_witness :
    replaceAtPosition "a + b + c".toList 1 7 "+".toList "-".toList = .ok "a - b + c".toList ∧
    ((∀ col2 : Int,
        replaceAtPosition "a + b + c".toList 1 col2 "+".toList "-".toList
          = .ok "a - b + c".toList) ∧
    ∃ i : Nat,
      i ∈ occurrences ((stringsSplit "a + b + c".toList).getD ((1 : Int) - 1).toNat [])
        "+".toList ∧
      (∀ j ∈ occurrences ((stringsSplit "a + b + c".toList).getD ((1 : Int) - 1).toNat [])
        "+".toList, i ≤ j) ∧
      "a - b + c".toList = stringsJoin ((stringsSplit "a + b + c".toList).set
        ((1 : Int) - 1).toNat
        (((stringsSplit "a + b + c".toList).getD ((1 : Int) - 1).toNat []).take i
          ++ "-".toList
          ++ ((stringsSplit "a + b + c".toList).getD ((1 : Int) - 1).toNat []).drop
            (i + "+".toList.length)))) :=
  ⟨by decide,
    replaceAtPosition_column_free "a + b + c".toList 1 7 "+".toList "-".toList
      "a - b + c".toList (by decide)⟩

theorem applyMutationToCode_of_type (m : Mutation) (content : Str)
    (htyp : m.Typ ∈ substitutionTypes)
    (hr : ¬ (m.Line < 1 ∨ m.Line > ((stringsSplit content).length : Int))) :
    applyMutationToCode m content
      = .ok (stringsJoin ((stringsSplit content).set (m.Line - 1).toNat
          (stringsReplace1 ((stringsSplit content).getD (m.Line - 1).toNat []) m.Original
            (if m.Typ = "unary_operator".toList ∧ m.Mutated = "(removed)".toList then []
              else m.Mutated)))) := by
  unfold applyMutationToCode
  simp only [if_neg hr]
  simp only [substitutionTypes, List.mem_cons, List.mem_singleton, List.not_mem_nil,
    or_false] at htyp
  by_cases hm : m.Mutated = "(removed)".toList
  · rcases htyp with h | h | h | h | h | h | h | h <;> rw [h] <;> simp [hm]
  · rcases htyp with h | h | h | h | h | h | h | h <;> rw [h] <;>
      first
        | (simp [hm]; done)
        | (simp [hm]; split_ifs <;> rfl)

theorem applyMutation_of_type (tree : TreeRewrites) (readError : GoError) (fs : FileSystem)
    (m : Mutation) (content : Str) (hfs : fs m.File = some content)
    (htyp : m.Typ ∈ substitutionTypes) :
    applyMutation tree readError fs m
      = replaceAtPosition content m.Line m.Column m.Original
          (if m.Typ = "unary_operator".toList ∧ m.Mutated = "(removed)".toList then []
            else m.Mutated) := by
  unfold applyMutation
  rw [hfs]
  simp only [applyOperatorMutation, applyUnaryMutation, applyConstantMutation,
    applyReturnValueMutation, removeAtPosition]
  simp only [substitutionTypes, List.mem_cons, List.mem_singleton, List.not_mem_nil,
    or_false] at htyp
  by_cases hm : m.Mutated = "(removed)".toList
  · rcases htyp with h | h | h | h | h | h | h | h <;> rw [h] <;> simp [hm]
  · rcases htyp with h | h | h | h | h | h | h | h <;> rw [h] <;>
      first
        | (simp [hm]; done)
        | (simp [hm]; split_ifs <;> rfl)

/-- C23: for a mutation of one of the eight types applied by text
substitution, whenever `applyMutation` of `apply_mutation.go` succeeds on
the content of the file, `applyMutationToCode` of `run_mutation.go` succeeds
on that content and returns the same text. -/
theorem applyMutationToCode_agrees (tree : TreeRewrites) (readError : GoError)
    (fs : FileSystem) (m : Mutation) (content out : Str)
    (hfs : fs m.File = some content)
    (htyp : m.Typ ∈ substitutionTypes)
    (hok : applyMutation tree readError fs m = .ok out) :
    applyMutationToCode m content = .ok out := by
  rw [applyMutation_of_type tree readError fs m content hfs htyp] at hok
  obtain ⟨hr, hout⟩ := replaceAtPosition_ok_replace1 _ _ _ _ _ _ hok
  rw [applyMutationToCode_of_type m content htyp hr, hout]

/-- C23 on the removal of `!` from the line `if !ok`, and on the change of
`>` in `x > 1`. -/
theorem applyMutationToCode_agrees_witness :
    applyMutation noTreeRewrites (.os []) (fun _ => some "if !ok".toList) negationRemoval
      = .ok "if ok".toList ∧
    applyMutationToCode negationRemoval "if !ok".toList = .ok "if ok".toList ∧
    applyMutationToCode freshMutation "x > 1".toList = .ok "x >= 1".toList :=
  ⟨by decide,
    applyMutationToCode_agrees noTreeRewrites (.os []) (fun _ => some "if !ok".toList)
      negationRemoval "if !ok".toList "if ok".toList rfl (by decide) (by decide),
    applyMutationToCode_agrees noTreeRewrites (.os []) exampleFiles
      freshMutation "x > 1".toList "x >= 1".toList (by decide) (by decide) (by decide)⟩

/-! ## The survivors of `aggregateResults` -/

theorem char_eq_of_toNat (a b : Char) (h : a.toNat = b.toNat) : a = b := by
  rw [← Char.ofNat_toNat a, ← Char.ofNat_toNat b, h]

theorem stringsLess_irrefl (a : Str) : stringsLess a a = false := by
  induction a with
  | nil => rfl
  | cons x xs ih => simp [stringsLess, ih]

theorem stringsLess_trans (a b c : Str) (hab : stringsLess a b = true)
    (hbc : stringsLess b c = true) : stringsLess a c = true := by
  induction a generalizing b c with
  | nil =>
    cases b with
    | nil => simp [stringsLess] at hab
    | cons y ys =>
      cases c with
      | nil => simp [stringsLess] at hbc
      | cons z zs => rfl
  | cons x xs ih =>
    cases b with
    | nil => simp [stringsLess] at hab
    | cons y ys =>
      cases c with
      | nil => simp [stringsLess] at hbc
      | cons z zs =>
        simp only [stringsLess, Bool.or_eq_true, Bool.and_eq_true, decide_eq_true_eq] at hab hbc ⊢
        rcases hab with h1 | ⟨h1, h1b⟩
        · rcases hbc with h2 | ⟨h2, _⟩
          · exact Or.inl (by omega)
          · rw [← h2]
            exact Or.inl h1
        · rcases hbc with h2 | ⟨h2, h2b⟩
          · rw [h1]
            exact Or.inl h2
          · exact Or.inr ⟨h1.trans h2, ih ys zs h1b h2b⟩

theorem stringsLess_asymm (a b : Str) (hab : stringsLess a b = true) :
    stringsLess b a = false := by
  cases hba : stringsLess b a with
  | false => rfl
  | true =>
    have := stringsLess_trans a b a hab hba
    rw [stringsLess_irrefl] at this
    exact Bool.noConfusion this

theorem stringsLess_total (a b : Str) (hne : a ≠ b) :
    stringsLess a b = true ∨ stringsLess b a = true := by
  induction a generalizing b with
  | nil =>
    cases b with
    | nil => exact absurd rfl hne
    | cons y ys => exact Or.inl rfl
  | cons x xs ih =>
    cases b with
    | nil => exact Or.inr rfl
    | cons y ys =>
      simp only [stringsLess, Bool.or_eq_true, Bool.and_eq_true, decide_eq_true_eq]
      rcases Nat.lt_trichotomy x.toNat y.toNat with h | h | h
      · exact Or.inl (Or.inl h)
      · have hxy := char_eq_of_toNat x y h
        have hne2 : xs ≠ ys := by
          intro hc
          exact hne (by rw [hxy, hc])
        rcases ih ys hne2 with h2 | h2
        · exact Or.inl (Or.inr ⟨hxy, h2⟩)
        · exact Or.inr (Or.inr ⟨hxy.symm, h2⟩)
      · exact Or.inr (Or.inl h)

theorem survivorLess_false_iff (a b : MutationResult) :
    survivorLess b a = false ↔
      (stringsLess a.File b.File = true ∨ (a.File = b.File ∧ a.Line ≤ b.Line)) := by
  unfold survivorLess
  by_cases hf : b.File = a.File
  · have hnn : ¬ (b.File ≠ a.File) := fun h => h hf
    rw [if_neg hnn, decide_eq_false_iff_not]
    constructor
    · intro h
      exact Or.inr ⟨hf.symm, by omega⟩
    · rintro (h | ⟨_, h⟩)
      · rw [hf, stringsLess_irrefl] at h
        exact Bool.noConfusion h
      · omega
  · rw [if_pos hf]
    constructor
    · intro h
      rcases stringsLess_total a.File b.File (fun hc => hf hc.symm) with h2 | h2
      · exact Or.inl h2
      · rw [h] at h2
        exact Bool.noConfusion h2
    · rintro (h | ⟨h, _⟩)
      · exact stringsLess_asymm _ _ h
      · exact absurd h.symm hf

theorem survivorLess_total (a b : MutationResult) :
    survivorLess b a = false ∨ survivorLess a b = false := by
  rw [survivorLess_false_iff, survivorLess_false_iff]
  by_cases hf : a.File = b.File
  · rcases Int.le_total a.Line b.Line with h | h
    · exact Or.inl (Or.inr ⟨hf, h⟩)
    · exact Or.inr (Or.inr ⟨hf.symm, h⟩)
  · rcases stringsLess_total a.File b.File hf with h | h
    · exact Or.inl (Or.inl h)
    · exact Or.inr (Or.inl h)

theorem survivorLess_trans (a b c : MutationResult) (hab : survivorLess b a = false)
    (hbc : survivorLess c b = false) : survivorLess c a = false := by
  rw [survivorLess_false_iff] at hab hbc ⊢
  rcases hab with h1 | ⟨h1, h1b⟩
  · rcases hbc with h2 | ⟨h2, _⟩
    · exact Or.inl (stringsLess_trans _ _ _ h1 h2)
    · rw [← h2]
      exact Or.inl h1
  · rcases hbc with h2 | ⟨h2, h2b⟩
    · rw [h1]
      exact Or.inl h2
    · exact Or.inr ⟨h1.trans h2, by omega⟩

theorem sortSlice_perm (l : List MutationResult) : (sortSlice survivorLess l).Perm l :=
  List.perm_insertionSort _ l

theorem sortSlice_ordered (l : List MutationResult) :
    List.Pairwise
      (fun a b => stringsLess a.File b.File = true ∨ (a.File = b.File ∧ a.Line ≤ b.Line))
      (sortSlice survivorLess l) := by
  have hsorted : List.Sorted (fun a b => survivorLess b a = false) (sortSlice survivorLess l) :=
    @List.sorted_insertionSort _ (fun a b => survivorLess b a = false) _
      ⟨survivorLess_total⟩ ⟨survivorLess_trans⟩ l
  exact List.Pairwise.imp (fun {a b} h => (survivorLess_false_iff a b).mp h) hsorted

theorem sumValues_incr (m : CountMap) (key : Str) :
    sumValues (m.incr key) = sumValues m + 1 := by
  induction m with
  | nil => rfl
  | cons e rest ih =>
    obtain ⟨k, v⟩ := e
    unfold CountMap.incr
    split
    · simp only [sumValues]
      omega
    · simp only [sumValues, ih]
      omega

theorem countResult_survivors (agg : AggregatedResults) (r : MutationResult) :
    (countResult agg r).Survivors
      = agg.Survivors ++ (if r.Status = "survived".toList then [r] else []) ∧
    sumValues (countResult agg r).SurvivorsByFile
      = sumValues agg.SurvivorsByFile + (if r.Status = "survived".toList then 1 else 0) ∧
    sumValues (countResult agg r).SurvivorsByType
      = sumValues agg.SurvivorsByType + (if r.Status = "survived".toList then 1 else 0) := by
  unfold countResult
  by_cases hk : r.Status = "killed".toList
  · have hs : ¬ r.Status = "survived".toList := by rw [hk]; decide
    simp only [if_pos hk, if_neg hs, List.append_nil, add_zero, and_self]
  · by_cases hs : r.Status = "survived".toList
    · simp only [if_neg hk, if_pos hs, sumValues_incr, and_self]
    · by_cases ht : r.Status = "timeout".toList
      · simp only [if_neg hk, if_neg hs, if_pos ht, List.append_nil, add_zero, and_self]
      · by_cases he : r.Status = "error".toList
        · simp only [if_neg hk, if_neg hs, if_neg ht, if_pos he, List.append_nil, add_zero,
            and_self]
        · simp only [if_neg hk, if_neg hs, if_neg ht, if_neg he, List.append_nil, add_zero,
            and_self]

theorem foldl_countResult_survivors (rs : List MutationResult) (agg : AggregatedResults) :
    (rs.foldl countResult agg).Survivors
      = agg.Survivors ++ rs.filter (fun r => r.Status = "survived".toList) ∧
    sumValues (rs.foldl countResult agg).SurvivorsByFile
      = sumValues agg.SurvivorsByFile + countStatus "survived".toList rs ∧
    sumValues (rs.foldl countResult agg).SurvivorsByType
      = sumValues agg.SurvivorsByType + countStatus "survived".toList rs := by
  induction rs generalizing agg with
  | nil => simp [countStatus_nil]
  | cons r rs ih =>
    obtain ⟨h1, h2, h3⟩ := ih (countResult agg r)
    obtain ⟨c1, c2, c3⟩ := countResult_survivors agg r
    simp only [List.foldl_cons, countStatus_cons]
    rw [h1, h2, h3, c1, c2, c3]
    refine ⟨?_, by ring, by ring⟩
    by_cases hs : r.Status = "survived".toList
    · simp only [if_pos hs, List.filter_cons, decide_eq_true_eq, List.append_assoc,
        List.singleton_append]
    · simp only [if_neg hs, List.filter_cons, decide_eq_true_eq, List.append_nil,
        Bool.false_eq_true, if_false]

theorem aggregateResults_survivor_fields (loadResult : Str → Except GoError MutationResult)
    (files : List Str) :
    (aggregateResults loadResult files).Survivors
      = sortSlice survivorLess
          ((loadedResults loadResult files).filter (fun r => r.Status = "survived".toList)) ∧
    sumValues (aggregateResults loadResult files).SurvivorsByFile
      = countStatus "survived".toList (loadedResults loadResult files) ∧
    sumValues (aggregateResults loadResult files).SurvivorsByType
      = countStatus "survived".toList (loadedResults loadResult files) := by
  obtain ⟨h1, h2, h3⟩ :=
    foldl_countResult_survivors (loadedResults loadResult files) emptyReport
  simp only [emptyReport, List.nil_append, sumValues, zero_add] at h1 h2 h3
  unfold aggregateResults
  rw [aggregateLoop_eq_foldl]
  simp only [emptyReport]
  split_ifs
  · exact ⟨by rw [← h1], h2, h3⟩
  · exact ⟨by rw [← h1], h2, h3⟩

/-- C21: the survivors of the report are a rearrangement of the loaded
results whose status is `survived`, in an order in which a result comes
before another only when its file is smaller or the files are equal and its
line is not greater; their number is the `survived` count, and the values of
`survivors_by_file` and those of `survivors_by_type` each add up to that
count. -/
theorem aggregateResults_survivors (loadResult : Str → Except GoError MutationResult)
    (files : List Str) :
    (aggregateResults loadResult files).Survivors.Perm
      ((loadedResults loadResult files).filter (fun r => r.Status = "survived".toList)) ∧
    List.Pairwise
      (fun a b => stringsLess a.File b.File = true ∨ (a.File = b.File ∧ a.Line ≤ b.Line))
      (aggregateResults loadResult files).Survivors ∧
    ((aggregateResults loadResult files).Survivors.length : Int)
      = (aggregateResults loadResult files).Survived ∧
    sumValues (aggregateResults loadResult files).SurvivorsByFile
      = (aggregateResults loadResult files).Survived ∧
    sumValues (aggregateResults loadResult files).SurvivorsByType
      = (aggregateResults loadResult files).Survived := by
  obtain ⟨h1, h2, h3⟩ := aggregateResults_survivor_fields loadResult files
  obtain ⟨_, _, hsurv, _, _, _⟩ := aggregateResults_fields loadResult files
  rw [h1, h2, h3, hsurv]
  refine ⟨sortSlice_perm _, sortSlice_ordered _, ?_, rfl, rfl⟩
  rw [(sortSlice_perm _).length_eq]
  rfl

/-- C21 on the result files `0` to `3` and a file that fails to load: the
survivors are those of `a.go` at lines 2 and 9, then that of `b.go`. -/
theorem aggregateResults_survivors_witness :
    (aggregateResults exampleRecordLoad
        ["0".toList, "1".toList, "x".toList, "2".toList, "3".toList]).Survivors.map
        (fun r => (r.File, r.Line))
      = [("a.go".toList, 2), ("a.go".toList, 9), ("b.go".toList, 7)] ∧
    (aggregateResults exampleRecordLoad
        ["0".toList, "1".toList, "x".toList, "2".toList, "3".toList]).SurvivorsByFile
      = [("b.go".toList, 1), ("a.go".toList, 2)] ∧
    (aggregateResults exampleRecordLoad
        ["0".toList, "1".toList, "x".toList, "2".toList, "3".toList]).Survived = 3 ∧
    sumValues (aggregateResults exampleRecordLoad
        ["0".toList, "1".toList, "x".toList, "2".toList, "3".toList]).SurvivorsByType
      = (aggregateResults exampleRecordLoad
        ["0".toList, "1".toList, "x".toList, "2".toList, "3".toList]).Survived :=
  ⟨by decide, by decide, by decide,
    (aggregateResults_survivors exampleRecordLoad
      ["0".toList, "1".toList, "x".toList, "2".toList, "3".toList]).2.2.2.2⟩

end MutationTesting
